import Mathlib

/-!
Verification of the cargo-zigbuild Cross-Toolchain Adapter against its
natural-language specification.

The development shallowly embeds the relevant parts of `src/zig.rs` and
`src/macos/install_name_tool.rs`:

* Rust `&str`/`String` values are embedded as `List Char`; Rust byte buffers
  (`Vec<u8>`) as `List Nat` with byte values;
* machine integers are embedded as `Nat`, with explicit `% 2 ^ 32` where the
  Rust code performs wrapping `u32` arithmetic;
* fallible Rust code (`Result`, panics on out-of-range slicing) is embedded
  with `Option`/`Except`.

Definitions follow the source functions they are named after; definitions
whose doc comment starts with `Modelled from the spec:` embed behavior of
external crates (goblin, scroll) that is not part of this repository's
sources and is reconstructed from the specification's description.
-/

set_option maxRecDepth 4000

namespace ZigBuild

/-- Rust string slices are embedded as lists of characters. -/
abbrev Str := List Char

/-- Rust `str::starts_with` (first argument is the haystack). -/
def startsWithL : Str → Str → Bool
  | _, [] => true
  | [], _ :: _ => false
  | h :: t, n :: m => h == n && startsWithL t m

/-- Rust `str::contains` (substring search; first argument is the haystack). -/
def containsL : Str → Str → Bool
  | [], needle => needle.isEmpty
  | h :: t, needle => startsWithL (h :: t) needle || containsL t needle

/-- Rust `str::ends_with` (first argument is the haystack). -/
def endsWithL (hay needle : Str) : Bool :=
  startsWithL hay.reverse needle.reverse

/-- Rust `str::find(char)`: index of the first occurrence of a character. -/
def findCharIdx : Str → Char → Option Nat
  | [], _ => none
  | h :: t, c =>
    if h == c then some 0
    else (findCharIdx t c).map (· + 1)

/-- Rust `str::split_once(char)`: the pieces before and after the first
occurrence of the separator, or `none` when the separator is absent. -/
def splitOnceL : Str → Char → Option (Str × Str)
  | [], _ => none
  | h :: t, c =>
    if h == c then some ([], t)
    else (splitOnceL t c).map (fun p => (h :: p.1, p.2))

/-- A semantic version, as used for both the `rustc` version and the zig
toolchain version (`semver::Version` / `rustc_version::Version`). -/
structure SemVer where
  major : Nat
  minor : Nat
  patch : Nat
deriving DecidableEq, Repr

/-- The Rust tuple comparison `(v.major, v.minor) < (a, b)`. -/
def vLt2 (v : SemVer) (a b : Nat) : Bool :=
  v.major < a || (v.major == a && v.minor < b)

/-- The Rust tuple comparison `(v.major, v.minor) >= (a, b)`. -/
def vGe2 (v : SemVer) (a b : Nat) : Bool :=
  !vLt2 v a b

/-- `struct TargetInfo { target: Option<String> }` from `src/zig.rs`. -/
structure TargetInfo where
  target : Option Str
deriving DecidableEq

namespace TargetInfo

/-- `TargetInfo::is_arm`. -/
def isArm (ti : TargetInfo) : Bool :=
  (ti.target.map (fun x => startsWithL x "arm".toList)).getD false

/-- `TargetInfo::is_aarch64`. -/
def isAarch64 (ti : TargetInfo) : Bool :=
  (ti.target.map (fun x => startsWithL x "aarch64".toList)).getD false

/-- `TargetInfo::is_aarch64_be`. -/
def isAarch64Be (ti : TargetInfo) : Bool :=
  (ti.target.map (fun x => startsWithL x "aarch64_be".toList)).getD false

/-- `TargetInfo::is_i386`. -/
def isI386 (ti : TargetInfo) : Bool :=
  (ti.target.map (fun x => startsWithL x "i386".toList)).getD false

/-- `TargetInfo::is_i686`. -/
def isI686 (ti : TargetInfo) : Bool :=
  (ti.target.map (fun x =>
    startsWithL x "i686".toList || startsWithL x "x86-".toList)).getD false

/-- `TargetInfo::is_riscv64`. -/
def isRiscv64 (ti : TargetInfo) : Bool :=
  (ti.target.map (fun x => startsWithL x "riscv64".toList)).getD false

/-- `TargetInfo::is_riscv32`. -/
def isRiscv32 (ti : TargetInfo) : Bool :=
  (ti.target.map (fun x => startsWithL x "riscv32".toList)).getD false

/-- `TargetInfo::is_musl`. -/
def isMusl (ti : TargetInfo) : Bool :=
  (ti.target.map (fun x => containsL x "musl".toList)).getD false

/-- `TargetInfo::is_macos`. -/
def isMacos (ti : TargetInfo) : Bool :=
  (ti.target.map (fun x => containsL x "macos".toList)).getD false

/-- `TargetInfo::is_darwin`. -/
def isDarwin (ti : TargetInfo) : Bool :=
  (ti.target.map (fun x => containsL x "darwin".toList)).getD false

/-- `TargetInfo::is_apple_platform`. -/
def isApplePlatform (ti : TargetInfo) : Bool :=
  (ti.target.map (fun x =>
    containsL x "macos".toList || containsL x "darwin".toList ||
    containsL x "ios".toList || containsL x "tvos".toList ||
    containsL x "watchos".toList || containsL x "visionos".toList)).getD false

/-- `TargetInfo::is_ios`. -/
def isIos (ti : TargetInfo) : Bool :=
  (ti.target.map (fun x =>
    containsL x "ios".toList && !containsL x "visionos".toList)).getD false

/-- `TargetInfo::is_tvos`. -/
def isTvos (ti : TargetInfo) : Bool :=
  (ti.target.map (fun x => containsL x "tvos".toList)).getD false

/-- `TargetInfo::is_watchos`. -/
def isWatchos (ti : TargetInfo) : Bool :=
  (ti.target.map (fun x => containsL x "watchos".toList)).getD false

/-- `TargetInfo::is_visionos`. -/
def isVisionos (ti : TargetInfo) : Bool :=
  (ti.target.map (fun x => containsL x "visionos".toList)).getD false

/-- `TargetInfo::apple_cpu`. -/
def appleCpu (ti : TargetInfo) : Str :=
  if ti.isMacos || ti.isDarwin then "apple_m1".toList
  else if ti.isVisionos then "apple_m2".toList
  else if ti.isWatchos then "apple_s5".toList
  else if ti.isIos || ti.isTvos then "apple_a14".toList
  else "generic".toList

/-- `TargetInfo::is_freebsd`. -/
def isFreebsd (ti : TargetInfo) : Bool :=
  (ti.target.map (fun x => containsL x "freebsd".toList)).getD false

/-- `TargetInfo::is_windows_gnu`. -/
def isWindowsGnu (ti : TargetInfo) : Bool :=
  (ti.target.map (fun x => containsL x "windows-gnu".toList)).getD false

/-- `TargetInfo::is_windows_msvc`. -/
def isWindowsMsvc (ti : TargetInfo) : Bool :=
  (ti.target.map (fun x => containsL x "windows-msvc".toList)).getD false

/-- `TargetInfo::is_ohos`. -/
def isOhos (ti : TargetInfo) : Bool :=
  (ti.target.map (fun x => containsL x "ohos".toList)).getD false

end TargetInfo

/-- `enum FilteredArg` from `src/zig.rs`: the outcome of filtering one
linker argument. -/
inductive FilteredArg where
  | keep (args : List Str)
  | skip
  | skipWithNext
deriving DecidableEq

/-- Tail of `filter_linker_arg`: the FreeBSD ignored-libraries rule and the
final pass-through. -/
def filterStepFreebsd (arg : Str) (ti : TargetInfo) : FilteredArg :=
  if ti.isFreebsd &&
      (arg == "-lkvm".toList || arg == "-lmemstat".toList ||
       arg == "-lprocstat".toList || arg == "-ldevstat".toList) then
    .skip
  else
    .keep [arg]

/-- The version-gated two-token exported-symbols/dynamic-list rules of
`filter_linker_arg` (applied on all platforms). -/
def filterStepTwoArg (arg : Str) (zigVer : SemVer) (ti : TargetInfo) : FilteredArg :=
  if vLt2 zigVer 0 16 &&
      (arg == "-Wl,-exported_symbols_list".toList ||
       arg == "-Wl,--dynamic-list".toList) then
    .skipWithNext
  else if vLt2 zigVer 0 16 &&
      (startsWithL arg "-Wl,-exported_symbols_list,".toList ||
       startsWithL arg "-Wl,--dynamic-list,".toList) then
    .skip
  else
    filterStepFreebsd arg ti

/-- The Apple-platform rules of `filter_linker_arg`. -/
def filterStepApple (arg : Str) (zigVer : SemVer) (ti : TargetInfo) : FilteredArg :=
  if ti.isApplePlatform && vLt2 zigVer 0 16 &&
      startsWithL arg "-Wl,-exported_symbols_list,".toList then
    .skip
  else if ti.isApplePlatform && vLt2 zigVer 0 16 &&
      arg == "-Wl,-exported_symbols_list".toList then
    .skipWithNext
  else if ti.isApplePlatform && arg == "-Wl,-dylib".toList then
    .skip
  else
    filterStepTwoArg arg zigVer ti

/-- The `-march=` rules of `filter_linker_arg`. -/
def filterStepMarch (arg : Str) (zigVer : SemVer) (ti : TargetInfo) : FilteredArg :=
  if startsWithL arg "-march=".toList then
    if ti.isArm || ti.isI386 then
      .skip
    else if ti.isRiscv64 then
      .keep ["-march=generic_rv64".toList]
    else if ti.isRiscv32 then
      .keep ["-march=generic_rv32".toList]
    else if startsWithL arg "-march=armv".toList && (ti.isAarch64 || ti.isAarch64Be) then
      let marchValue := arg.drop "-march=".toList.length
      let features :=
        match findCharIdx marchValue '+' with
        | some pos => marchValue.drop pos
        | none => []
      let baseCpu := if ti.isApplePlatform then ti.appleCpu else "generic".toList
      let result := ["-mcpu=".toList ++ baseCpu ++ features]
      if containsL features "+crypto".toList then
        .keep (result ++ ["-Xassembler".toList, arg])
      else
        .keep result
    else
      filterStepApple arg zigVer ti
  else
    filterStepApple arg zigVer ti

/-- The musl / OpenHarmony libc rules of `filter_linker_arg`. -/
def filterStepMusl (arg : Str) (rustcVer zigVer : SemVer) (ti : TargetInfo) : FilteredArg :=
  if (ti.isMusl || ti.isOhos) &&
      ((endsWithL arg ".o".toList && containsL arg "self-contained".toList &&
        containsL arg "crt".toList) ||
       arg == "-Wl,-melf_i386".toList) then
    .skip
  else if (ti.isMusl || ti.isOhos) &&
      (rustcVer.major == 1 && rustcVer.minor < 59 &&
       endsWithL arg ".rlib".toList && containsL arg "liblibc-".toList) then
    .skip
  else if (ti.isMusl || ti.isOhos) && arg == "-lc".toList then
    .skip
  else
    filterStepMarch arg zigVer ti

/-- The Windows-GNU (and the attached non-Windows-GNU `else if`) rules of
`filter_linker_arg`. In the source this is an `else if` chain where the
`rsbegin.o`/`rsend.o` branch returns only for i686 and otherwise falls
through past the whole chain. -/
def filterStepWindowsGnu (arg : Str) (rustcVer zigVer : SemVer) (ti : TargetInfo) :
    FilteredArg :=
  if ti.isWindowsGnu then
    if arg == "-lgcc_eh".toList && (vLt2 zigVer 0 14 || ti.isI686) then
      .keep ["-lc++".toList]
    else if endsWithL arg "rsbegin.o".toList || endsWithL arg "rsend.o".toList then
      if ti.isI686 then .skip else filterStepMusl arg rustcVer zigVer ti
    else if arg == "-Wl,-Bdynamic".toList && vGe2 zigVer 0 11 then
      .keep ["-Wl,-search_paths_first".toList]
    else if arg == "-lwindows".toList || arg == "-l:libpthread.a".toList ||
        arg == "-lgcc".toList then
      .skip
    else if arg == "-Wl,--disable-auto-image-base".toList ||
        arg == "-Wl,--dynamicbase".toList ||
        arg == "-Wl,--large-address-aware".toList ||
        (startsWithL arg "-Wl,".toList &&
          (endsWithL arg "/list.def".toList || endsWithL arg "\\list.def".toList)) then
      .skip
    else if arg == "-lmsvcrt".toList then
      .skip
    else
      filterStepMusl arg rustcVer zigVer ti
  else if arg == "-Wl,--no-undefined-version".toList ||
      arg == "-Wl,-znostart-stop-gc".toList ||
      startsWithL arg "-Wl,-plugin-opt".toList then
    .skip
  else
    filterStepMusl arg rustcVer zigVer ti

/-- `filter_linker_arg` from `src/zig.rs`: the pure linker-argument filter. -/
def filterLinkerArg (arg : Str) (rustcVer zigVer : SemVer) (ti : TargetInfo) :
    FilteredArg :=
  if arg == "-lgcc_s".toList then
    .keep ["-lunwind".toList]
  else if startsWithL arg "--target=".toList then
    .skip
  else if startsWithL arg "-e".toList && arg.length > 2 &&
      !startsWithL arg "-export".toList then
    .keep ["-Wl,--entry=".toList ++ arg.drop 2]
  else if (ti.isArm || ti.isWindowsGnu) && endsWithL arg ".rlib".toList &&
      containsL arg "libcompiler_builtins-".toList then
    .skip
  else
    filterStepWindowsGnu arg rustcVer zigVer ti

/-- `filter_linker_args` from `src/zig.rs`: folds `filter_linker_arg` over an
argument list, where a `SkipWithNext` result also consumes the following
argument. -/
def filterLinkerArgs (args : List Str) (rustcVer zigVer : SemVer) (ti : TargetInfo) :
    List Str :=
  go args false
where
  go : List Str → Bool → List Str
  | [], _ => []
  | _ :: rest, true => go rest false
  | arg :: rest, false =>
    match filterLinkerArg arg rustcVer zigVer ti with
    | .keep filtered => filtered ++ go rest false
    | .skip => go rest false
    | .skipWithNext => go rest true

/-! ### String lemmas used to reason about the argument filter -/

theorem startsWithL_nil_right (x : Str) : startsWithL x [] = true := by
  cases x <;> rfl

theorem startsWithL_append_self (p x : Str) : startsWithL (p ++ x) p = true := by
  induction p with
  | nil => exact startsWithL_nil_right x
  | cons a t ih => simp [startsWithL, ih]

theorem startsWithL_append_both (p x q : Str) :
    startsWithL (p ++ x) (p ++ q) = startsWithL x q := by
  induction p with
  | nil => rfl
  | cons a t ih => simp [startsWithL, ih]

theorem startsWithL_trans (x p q : Str) (h1 : startsWithL x p = true)
    (h2 : startsWithL p q = true) : startsWithL x q = true := by
  induction q generalizing x p with
  | nil => exact startsWithL_nil_right x
  | cons c qt ih =>
    cases p with
    | nil => simp [startsWithL] at h2
    | cons b pt =>
      cases x with
      | nil => simp [startsWithL] at h1
      | cons a xt =>
        simp only [startsWithL, Bool.and_eq_true, beq_iff_eq] at h1 h2 ⊢
        exact ⟨h1.1.trans h2.1, ih xt pt h1.2 h2.2⟩

theorem startsWithL_agree (x p q : Str) (hp : startsWithL x p = true)
    (hq : startsWithL x q = true) :
    startsWithL p q = true ∨ startsWithL q p = true := by
  induction x generalizing p q with
  | nil =>
    cases p with
    | nil => exact Or.inr (startsWithL_nil_right q)
    | cons a t => simp [startsWithL] at hp
  | cons a xt ih =>
    cases p with
    | nil => exact Or.inr (startsWithL_nil_right q)
    | cons b pt =>
      cases q with
      | nil => exact Or.inl (startsWithL_nil_right _)
      | cons c qt =>
        simp only [startsWithL, Bool.and_eq_true, beq_iff_eq] at hp hq ⊢
        rcases ih pt qt hp.2 hq.2 with h | h
        · exact Or.inl ⟨hp.1.symm.trans hq.1, h⟩
        · exact Or.inr ⟨hq.1.symm.trans hp.1, h⟩

theorem startsWithL_excl (x p q : Str) (hp : startsWithL x p = true)
    (hpq : startsWithL p q = false) (hqp : startsWithL q p = false) :
    startsWithL x q = false := by
  cases h : startsWithL x q
  · rfl
  · rcases startsWithL_agree x p q hp h with h' | h' <;> simp_all

theorem beq_false_of_startsWith (x p lit : Str) (hp : startsWithL x p = true)
    (h : startsWithL lit p = false) : (x == lit) = false := by
  cases he : x == lit
  · rfl
  · have : x = lit := eq_of_beq he
    subst this
    rw [hp] at h
    exact absurd h (by simp)

theorem endsWithL_excl (x s t : Str) (h : endsWithL x t = false)
    (hst : startsWithL s.reverse t.reverse = true) : endsWithL x s = false := by
  unfold endsWithL at h ⊢
  cases hh : startsWithL x.reverse s.reverse
  · rfl
  · rw [startsWithL_trans x.reverse s.reverse t.reverse hh hst] at h
    exact absurd h (by simp)

/-! ### Claims C6, C7, C8: the linker-argument filter -/

/-- C8. For every target context, every rustc version and every toolchain
version, the linker argument filter maps `-lgcc_s` to exactly the single
replacement argument `-lunwind`. -/
theorem c8_lgcc_s_to_lunwind (rustcVer zigVer : SemVer) (ti : TargetInfo) :
    filterLinkerArg "-lgcc_s".toList rustcVer zigVer ti =
      .keep ["-lunwind".toList] := by
  simp [filterLinkerArg]

/-- C7. For every musl-environment target (target string containing `musl`),
the filter drops `-lc` entirely and keeps `-lm` unchanged, for every rustc
and zig version. -/
theorem c7_musl_lc_dropped_lm_kept (tgt : Str) (rustcVer zigVer : SemVer)
    (hmusl : containsL tgt "musl".toList = true) :
    filterLinkerArg "-lc".toList rustcVer zigVer ⟨some tgt⟩ = .skip ∧
    filterLinkerArg "-lm".toList rustcVer zigVer ⟨some tgt⟩ =
      .keep ["-lm".toList] := by
  have h1 : TargetInfo.isMusl ⟨some tgt⟩ = true := by
    simp +decide [TargetInfo.isMusl]; exact hmusl
  constructor <;>
    cases hw : TargetInfo.isWindowsGnu ⟨some tgt⟩ <;>
    cases ha : TargetInfo.isApplePlatform ⟨some tgt⟩ <;>
    cases hf : TargetInfo.isFreebsd ⟨some tgt⟩ <;>
      simp +decide [filterLinkerArg, filterStepWindowsGnu, filterStepMusl,
        filterStepMarch, filterStepApple, filterStepTwoArg, filterStepFreebsd,
        hw, h1, ha, hf]

/-- Witness for C7 at the target `x86_64-unknown-linux-musl`. -/
theorem c7_witness :
    containsL "x86_64-unknown-linux-musl".toList "musl".toList = true ∧
    (filterLinkerArg "-lc".toList ⟨1, 70, 0⟩ ⟨0, 13, 0⟩
        ⟨some "x86_64-unknown-linux-musl".toList⟩ = .skip ∧
     filterLinkerArg "-lm".toList ⟨1, 70, 0⟩ ⟨0, 13, 0⟩
        ⟨some "x86_64-unknown-linux-musl".toList⟩ = .keep ["-lm".toList]) :=
  ⟨by decide,
    c7_musl_lc_dropped_lm_kept "x86_64-unknown-linux-musl".toList
      ⟨1, 70, 0⟩ ⟨0, 13, 0⟩ (by decide)⟩

/-- C6, counterexample. On the target `aarch64-unknown-linux-musl`, the
argument `-march=armv8+self-contained.crt.o` is consumed by the earlier
musl self-contained-object suppression rule, so the filter drops it instead
of rewriting it to the `-mcpu=` form the claim demands for 64-bit ARM. -/
theorem c6_counterexample :
    filterLinkerArg "-march=armv8+self-contained.crt.o".toList ⟨1, 70, 0⟩ ⟨0, 13, 0⟩
      ⟨some "aarch64-unknown-linux-musl".toList⟩ = .skip ∧
    FilteredArg.skip ≠
      FilteredArg.keep ["-mcpu=generic+self-contained.crt.o".toList] := by
  decide

/-- C6, amended: for every `-march=<value>` argument that is not itself
captured by the higher-priority suppression rules (it does not end in
`.rlib` or `.o`): it is dropped for 32-bit ARM and i386 targets, replaced
by the generic RISC-V baseline for riscv64/riscv32 targets, and for 64-bit
ARM targets with a value starting in `armv` it is rewritten to `-mcpu=`
with the feature suffix carried over, adding an assembler-level
pass-through when the features contain `+crypto`. -/
theorem c6_march_rules (tgt value : Str) (rustcVer zigVer : SemVer)
    (hrlib : endsWithL ("-march=".toList ++ value) ".rlib".toList = false)
    (ho : endsWithL ("-march=".toList ++ value) ".o".toList = false) :
    ((TargetInfo.isArm ⟨some tgt⟩ = true ∨ TargetInfo.isI386 ⟨some tgt⟩ = true) →
      filterLinkerArg ("-march=".toList ++ value) rustcVer zigVer ⟨some tgt⟩ = .skip) ∧
    (TargetInfo.isRiscv64 ⟨some tgt⟩ = true →
      filterLinkerArg ("-march=".toList ++ value) rustcVer zigVer ⟨some tgt⟩ =
        .keep ["-march=generic_rv64".toList]) ∧
    (TargetInfo.isRiscv32 ⟨some tgt⟩ = true →
      filterLinkerArg ("-march=".toList ++ value) rustcVer zigVer ⟨some tgt⟩ =
        .keep ["-march=generic_rv32".toList]) ∧
    ((TargetInfo.isAarch64 ⟨some tgt⟩ = true ∨ TargetInfo.isAarch64Be ⟨some tgt⟩ = true) →
      startsWithL value "armv".toList = true →
      filterLinkerArg ("-march=".toList ++ value) rustcVer zigVer ⟨some tgt⟩ =
        (let features : Str :=
          match findCharIdx value '+' with
          | some pos => value.drop pos
          | none => []
        let baseCpu : Str :=
          if TargetInfo.isApplePlatform ⟨some tgt⟩ then TargetInfo.appleCpu ⟨some tgt⟩
          else "generic".toList
        if containsL features "+crypto".toList then
          .keep ["-mcpu=".toList ++ baseCpu ++ features, "-Xassembler".toList,
            "-march=".toList ++ value]
        else
          .keep ["-mcpu=".toList ++ baseCpu ++ features])) := by
  set a := "-march=".toList ++ value with ha
  have hp : startsWithL a "-march=".toList = true := startsWithL_append_self _ _
  have f1 : (a == "-lgcc_s".toList) = false :=
    beq_false_of_startsWith _ _ _ hp (by decide)
  have f2 : startsWithL a "--target=".toList = false :=
    startsWithL_excl _ _ _ hp (by decide) (by decide)
  have f3 : startsWithL a "-e".toList = false :=
    startsWithL_excl _ _ _ hp (by decide) (by decide)
  have f4 : endsWithL a "rsbegin.o".toList = false :=
    endsWithL_excl _ _ _ ho (by decide)
  have f5 : endsWithL a "rsend.o".toList = false :=
    endsWithL_excl _ _ _ ho (by decide)
  have f6 : (a == "-lgcc_eh".toList) = false :=
    beq_false_of_startsWith _ _ _ hp (by decide)
  have f7 : (a == "-Wl,-Bdynamic".toList) = false :=
    beq_false_of_startsWith _ _ _ hp (by decide)
  have f8 : (a == "-lwindows".toList) = false :=
    beq_false_of_startsWith _ _ _ hp (by decide)
  have f9 : (a == "-l:libpthread.a".toList) = false :=
    beq_false_of_startsWith _ _ _ hp (by decide)
  have f10 : (a == "-lgcc".toList) = false :=
    beq_false_of_startsWith _ _ _ hp (by decide)
  have f11 : (a == "-Wl,--disable-auto-image-base".toList) = false :=
    beq_false_of_startsWith _ _ _ hp (by decide)
  have f12 : (a == "-Wl,--dynamicbase".toList) = false :=
    beq_false_of_startsWith _ _ _ hp (by decide)
  have f13 : (a == "-Wl,--large-address-aware".toList) = false :=
    beq_false_of_startsWith _ _ _ hp (by decide)
  have f14 : startsWithL a "-Wl,".toList = false :=
    startsWithL_excl _ _ _ hp (by decide) (by decide)
  have f15 : (a == "-lmsvcrt".toList) = false :=
    beq_false_of_startsWith _ _ _ hp (by decide)
  have f16 : (a == "-Wl,--no-undefined-version".toList) = false :=
    beq_false_of_startsWith _ _ _ hp (by decide)
  have f17 : (a == "-Wl,-znostart-stop-gc".toList) = false :=
    beq_false_of_startsWith _ _ _ hp (by decide)
  have f18 : startsWithL a "-Wl,-plugin-opt".toList = false :=
    startsWithL_excl _ _ _ hp (by decide) (by decide)
  have f19 : (a == "-Wl,-melf_i386".toList) = false :=
    beq_false_of_startsWith _ _ _ hp (by decide)
  have f20 : (a == "-lc".toList) = false :=
    beq_false_of_startsWith _ _ _ hp (by decide)
  have hpre : ∀ r : FilteredArg,
      filterStepMarch a zigVer ⟨some tgt⟩ = r →
      filterLinkerArg a rustcVer zigVer ⟨some tgt⟩ = r := by
    intro r hr
    unfold filterLinkerArg filterStepWindowsGnu filterStepMusl
    simp only [f1, f2, f3, f4, f5, f6, f7, f8, f9, f10, f11, f12, f13, f14, f15,
      f16, f17, f18, f19, f20, hrlib, ho, Bool.false_and, Bool.and_false,
      Bool.false_or, Bool.or_false, if_false, ite_self,
      Bool.false_eq_true, if_neg, hr]
  refine ⟨?_, ?_, ?_, ?_⟩
  · intro h
    apply hpre
    unfold filterStepMarch
    rcases h with h | h <;>
      simp only [hp, h, Bool.true_or, Bool.or_true, eq_self_iff_true, if_true]
  · intro h64
    have harm : TargetInfo.isArm ⟨some tgt⟩ = false := by
      simp only [TargetInfo.isArm, TargetInfo.isRiscv64, Option.map, Option.getD] at h64 ⊢
      exact startsWithL_excl _ _ _ h64 (by decide) (by decide)
    have hi386 : TargetInfo.isI386 ⟨some tgt⟩ = false := by
      simp only [TargetInfo.isI386, TargetInfo.isRiscv64, Option.map, Option.getD] at h64 ⊢
      exact startsWithL_excl _ _ _ h64 (by decide) (by decide)
    apply hpre
    unfold filterStepMarch
    simp only [hp, harm, hi386, h64, Bool.false_or, Bool.or_self,
      Bool.false_eq_true, if_false, eq_self_iff_true, if_true]
  · intro h32
    have harm : TargetInfo.isArm ⟨some tgt⟩ = false := by
      simp only [TargetInfo.isArm, TargetInfo.isRiscv32, Option.map, Option.getD] at h32 ⊢
      exact startsWithL_excl _ _ _ h32 (by decide) (by decide)
    have hi386 : TargetInfo.isI386 ⟨some tgt⟩ = false := by
      simp only [TargetInfo.isI386, TargetInfo.isRiscv32, Option.map, Option.getD] at h32 ⊢
      exact startsWithL_excl _ _ _ h32 (by decide) (by decide)
    have h64 : TargetInfo.isRiscv64 ⟨some tgt⟩ = false := by
      simp only [TargetInfo.isRiscv64, TargetInfo.isRiscv32, Option.map, Option.getD] at h32 ⊢
      exact startsWithL_excl _ _ _ h32 (by decide) (by decide)
    apply hpre
    unfold filterStepMarch
    simp only [hp, harm, hi386, h64, h32, Bool.false_or, Bool.or_self,
      Bool.false_eq_true, if_false, eq_self_iff_true, if_true]
  · intro h64 hv
    have h64' : startsWithL tgt "aarch64".toList = true := by
      rcases h64 with h | h
      · simpa only [TargetInfo.isAarch64, Option.map, Option.getD] using h
      · simp only [TargetInfo.isAarch64Be, Option.map, Option.getD] at h
        exact startsWithL_trans _ _ _ h (by decide)
    have harm : TargetInfo.isArm ⟨some tgt⟩ = false := by
      simp only [TargetInfo.isArm, Option.map, Option.getD]
      exact startsWithL_excl _ _ _ h64' (by decide) (by decide)
    have hi386 : TargetInfo.isI386 ⟨some tgt⟩ = false := by
      simp only [TargetInfo.isI386, Option.map, Option.getD]
      exact startsWithL_excl _ _ _ h64' (by decide) (by decide)
    have hrv64 : TargetInfo.isRiscv64 ⟨some tgt⟩ = false := by
      simp only [TargetInfo.isRiscv64, Option.map, Option.getD]
      exact startsWithL_excl _ _ _ h64' (by decide) (by decide)
    have hrv32 : TargetInfo.isRiscv32 ⟨some tgt⟩ = false := by
      simp only [TargetInfo.isRiscv32, Option.map, Option.getD]
      exact startsWithL_excl _ _ _ h64' (by decide) (by decide)
    have hor : (TargetInfo.isAarch64 ⟨some tgt⟩ || TargetInfo.isAarch64Be ⟨some tgt⟩) = true := by
      rcases h64 with h | h <;> simp [h]
    have harmv : startsWithL a "-march=armv".toList = true := by
      rw [ha, show ("-march=armv".toList = "-march=".toList ++ "armv".toList) from rfl,
        startsWithL_append_both]
      exact hv
    have hdrop : List.drop "-march=".toList.length a = value := by
      rw [ha]
      exact List.drop_left _ _
    apply hpre
    unfold filterStepMarch
    simp only [hp, harm, hi386, hrv64, hrv32, harmv, hor, hdrop, Bool.false_or,
      Bool.or_self, Bool.and_self, Bool.true_and, Bool.and_true,
      Bool.false_eq_true, if_false, eq_self_iff_true, if_true]
    simp [List.append_assoc]

/-- Witness for the amended C6 at the riscv64 target. -/
theorem c6_witness :
    endsWithL ("-march=".toList ++ "rv64gc".toList) ".rlib".toList = false ∧
    endsWithL ("-march=".toList ++ "rv64gc".toList) ".o".toList = false ∧
    TargetInfo.isRiscv64 ⟨some "riscv64gc-unknown-linux-gnu".toList⟩ = true ∧
    filterLinkerArg ("-march=".toList ++ "rv64gc".toList) ⟨1, 70, 0⟩ ⟨0, 13, 0⟩
      ⟨some "riscv64gc-unknown-linux-gnu".toList⟩ =
        .keep ["-march=generic_rv64".toList] :=
  ⟨by decide, by decide, by decide,
    (c6_march_rules "riscv64gc-unknown-linux-gnu".toList "rv64gc".toList
        ⟨1, 70, 0⟩ ⟨0, 13, 0⟩ (by decide) (by decide)).2.1 (by decide)⟩

/-! ### Claim C2: the minimum-ABI suffix validation of `prepare_zig_linker` -/

/-- The error message of the malformed-ABI-suffix bailout in
`prepare_zig_linker`. -/
def malformedTargetError : Str := "Malformed zig target abi suffix.".toList

/-- The ABI-suffix validation stage of `prepare_zig_linker` (`src/zig.rs`):
`target.split_once('.')` splits off the part after the first dot; an empty
suffix is treated as absent; a non-empty suffix must split once more into
two non-empty all-ASCII-digit components, otherwise the function bails with
the malformed-target error. Returns the `(rust_target, abi_suffix)` pair
with the suffix re-prefixed by `.` as in `format!(".{abi_suffix}")`. -/
def checkAbiSuffix (target : Str) : Except Str (Str × Str) :=
  let p := (splitOnceL target '.').getD (target, [])
  if p.2.isEmpty then .ok (p.1, [])
  else
    match splitOnceL p.2 '.' with
    | some (x, y) =>
      if !x.isEmpty && x.all Char.isDigit && !y.isEmpty && y.all Char.isDigit then
        .ok (p.1, '.' :: p.2)
      else
        .error malformedTargetError
    | none => .error malformedTargetError

/-- `Except` equality is decidable; used to evaluate the resolver on
concrete targets. -/
instance {ε α : Type} [DecidableEq ε] [DecidableEq α] : DecidableEq (Except ε α) :=
  fun x y =>
    match x, y with
    | .ok a, .ok b => decidable_of_iff (a = b) (by simp)
    | .ok _, .error _ => isFalse (by simp)
    | .error _, .ok _ => isFalse (by simp)
    | .error e, .error f => decidable_of_iff (e = f) (by simp)

theorem ne_nil_of_isEmpty_false {α : Type} (l : List α) (h : l.isEmpty = false) :
    l ≠ [] := by
  cases l
  · simp at h
  · simp

theorem isEmpty_false_of_ne_nil {α : Type} (l : List α) (h : l ≠ []) :
    l.isEmpty = false := by
  cases l
  · exact absurd rfl h
  · rfl

theorem splitOnceL_some (s a b : Str) (c : Char) (h : splitOnceL s c = some (a, b)) :
    s = a ++ c :: b ∧ c ∉ a := by
  induction s generalizing a b with
  | nil => simp [splitOnceL] at h
  | cons x t ih =>
    by_cases hx : x = c
    · subst hx
      have hs : splitOnceL (x :: t) x = some ([], t) := by simp [splitOnceL]
      rw [hs] at h
      have heq := Option.some.inj h
      have ha : a = [] := (congrArg Prod.fst heq).symm
      have hb : b = t := (congrArg Prod.snd heq).symm
      subst ha; subst hb
      exact ⟨rfl, by simp⟩
    · have hxc : (x == c) = false := by simp [hx]
      simp only [splitOnceL, hxc, Bool.false_eq_true, if_false,
        Option.map_eq_some', Prod.mk.injEq] at h
      obtain ⟨⟨a', b'⟩, hsplit, ha, hb⟩ := h
      subst ha; subst hb
      obtain ⟨heq, hmem⟩ := ih a' b' hsplit
      constructor
      · simp [heq]
      · intro hc
        rcases List.mem_cons.mp hc with hc | hc
        · exact hx hc.symm
        · exact hmem hc

theorem splitOnceL_append_first (n m : Str) (c : Char) (hc : c ∉ n) :
    splitOnceL (n ++ c :: m) c = some (n, m) := by
  induction n with
  | nil => simp [splitOnceL]
  | cons x t ih =>
    have hx : (x == c) = false := by
      simp only [beq_eq_false_iff_ne, ne_eq]
      intro hxc
      exact hc (hxc ▸ List.mem_cons_self x t)
    have ht : c ∉ t := fun hm => hc (List.mem_cons_of_mem _ hm)
    simp [splitOnceL, hx, ih ht]

theorem splitOnceL_none_iff (s : Str) (c : Char) :
    splitOnceL s c = none ↔ c ∉ s := by
  induction s with
  | nil => simp [splitOnceL]
  | cons x t ih =>
    by_cases hx : x = c
    · subst hx
      simp [splitOnceL]
    · have hxc : (x == c) = false := by simp [hx]
      have hmap : splitOnceL (x :: t) c =
          Option.map (fun p => (x :: p.1, p.2)) (splitOnceL t c) := by
        simp [splitOnceL, hxc]
      rw [hmap, Option.map_eq_none', ih]
      constructor
      · intro hnt hmem
        rcases List.mem_cons.mp hmem with he | hm
        · exact hx he.symm
        · exact hnt hm
      · intro hmem hm
        exact hmem (List.mem_cons_of_mem _ hm)

/-- C2, counterexample. The target `x86_64-unknown-linux-gnu.` has a dot
with an empty suffix after it; the claim demands the malformed-target
failure for a present suffix of any shape other than `N.M`, but
`prepare_zig_linker` treats the empty suffix as absent and accepts the
target. -/
theorem c2_counterexample :
    splitOnceL "x86_64-unknown-linux-gnu.".toList '.' =
      some ("x86_64-unknown-linux-gnu".toList, []) ∧
    checkAbiSuffix "x86_64-unknown-linux-gnu.".toList =
      .ok ("x86_64-unknown-linux-gnu".toList, []) := by
  decide

/-- C2, amended: for every target string whose dot-suffix is present and
non-empty, the suffix is accepted exactly when it has the form `N.M` with
`N` and `M` non-empty all-digit components; in every other case
`prepare_zig_linker` fails with the malformed-target error. -/
theorem c2_suffix_validation (target pre suf : Str)
    (h : splitOnceL target '.' = some (pre, suf)) (hne : suf ≠ []) :
    ((∃ n m, suf = n ++ '.' :: m ∧ n ≠ [] ∧ m ≠ [] ∧
        n.all Char.isDigit = true ∧ m.all Char.isDigit = true) →
      checkAbiSuffix target = .ok (pre, '.' :: suf)) ∧
    ((¬ ∃ n m, suf = n ++ '.' :: m ∧ n ≠ [] ∧ m ≠ [] ∧
        n.all Char.isDigit = true ∧ m.all Char.isDigit = true) →
      checkAbiSuffix target = .error malformedTargetError) := by
  have hgetd : (splitOnceL target '.').getD (target, []) = (pre, suf) := by
    rw [h]; rfl
  have hempty : suf.isEmpty = false := isEmpty_false_of_ne_nil suf hne
  unfold checkAbiSuffix
  rw [hgetd]
  simp only [hempty, Bool.false_eq_true, if_false]
  cases hsplit : splitOnceL suf '.' with
  | none =>
    have hnotin : '.' ∉ suf := (splitOnceL_none_iff suf '.').mp hsplit
    constructor
    · rintro ⟨n, m, hdecomp, -, -, -, -⟩
      exact absurd (hdecomp ▸ List.mem_append_right n (List.mem_cons_self '.' m))
        hnotin
    · intro
      rfl
  | some xy =>
    obtain ⟨x, y⟩ := xy
    obtain ⟨hdecomp, hxdot⟩ := splitOnceL_some suf x y '.' hsplit
    by_cases hpred : (!x.isEmpty && x.all Char.isDigit &&
        !y.isEmpty && y.all Char.isDigit) = true
    · constructor
      · intro
        simp only [hpred, if_true]
      · intro hno
        exfalso
        apply hno
        rw [Bool.and_eq_true, Bool.and_eq_true, Bool.and_eq_true] at hpred
        obtain ⟨⟨⟨hxe, hxd⟩, hye⟩, hyd⟩ := hpred
        rw [Bool.not_eq_true'] at hxe hye
        exact ⟨x, y, hdecomp, ne_nil_of_isEmpty_false x hxe,
          ne_nil_of_isEmpty_false y hye, hxd, hyd⟩
    · have hpredf : (!x.isEmpty && x.all Char.isDigit &&
          !y.isEmpty && y.all Char.isDigit) = false := by
        cases hb : (!x.isEmpty && x.all Char.isDigit &&
            !y.isEmpty && y.all Char.isDigit)
        · rfl
        · exact absurd hb hpred
      constructor
      · rintro ⟨n, m, hdecomp', hn, hm, hnd, hmd⟩
        exfalso
        have hdotn : '.' ∉ n := by
          intro hdn
          have := List.all_eq_true.mp hnd '.' hdn
          simp [Char.isDigit] at this
        have h2 : splitOnceL suf '.' = some (n, m) := by
          rw [hdecomp']
          exact splitOnceL_append_first n m '.' hdotn
        rw [hsplit] at h2
        have heq := Option.some.inj h2
        have hxn : x = n := congrArg Prod.fst heq
        have hym : y = m := congrArg Prod.snd heq
        subst hxn; subst hym
        apply hpred
        rw [Bool.and_eq_true, Bool.and_eq_true, Bool.and_eq_true]
        refine ⟨⟨⟨?_, hnd⟩, ?_⟩, hmd⟩
        · rw [Bool.not_eq_true']
          exact isEmpty_false_of_ne_nil x hn
        · rw [Bool.not_eq_true']
          exact isEmpty_false_of_ne_nil y hm
      · intro
        simp only [hpredf, Bool.false_eq_true, if_false]

/-- Witness for the amended C2: `aarch64-apple-darwin.14.0` carries the
well-formed suffix `14.0` and is accepted. -/
theorem c2_witness :
    splitOnceL "aarch64-apple-darwin.14.0".toList '.' =
      some ("aarch64-apple-darwin".toList, "14.0".toList) ∧
    checkAbiSuffix "aarch64-apple-darwin.14.0".toList =
      .ok ("aarch64-apple-darwin".toList, '.' :: "14.0".toList) :=
  ⟨by decide,
    (c2_suffix_validation "aarch64-apple-darwin.14.0".toList
        "aarch64-apple-darwin".toList "14.0".toList (by decide) (by decide)).1
      ⟨"14".toList, "0".toList, by decide, by decide, by decide, by decide,
        by decide⟩⟩

/-! ### Claim C5: content-addressed wrapper script file names -/

/-- UTF-8 encoding of one character (Rust `str::as_bytes`). -/
def utf8EncodeChar (c : Char) : List Nat :=
  let v := c.toNat
  if v < 0x80 then [v]
  else if v < 0x800 then
    [0xC0 ||| (v >>> 6), 0x80 ||| (v &&& 0x3F)]
  else if v < 0x10000 then
    [0xE0 ||| (v >>> 12), 0x80 ||| ((v >>> 6) &&& 0x3F), 0x80 ||| (v &&& 0x3F)]
  else
    [0xF0 ||| (v >>> 18), 0x80 ||| ((v >>> 12) &&& 0x3F),
     0x80 ||| ((v >>> 6) &&& 0x3F), 0x80 ||| (v &&& 0x3F)]

/-- UTF-8 bytes of a string (Rust `str::as_bytes`). -/
def utf8Bytes (s : Str) : List Nat :=
  (s.map utf8EncodeChar).flatten

/-- Modelled from the spec: one shift-and-conditionally-xor round of the
16-bit checksum used to content-address the wrapper scripts. The source
delegates to the external `crc` crate's `CRC_16_IBM_SDLC` parameters
(reflected polynomial `0x8408`). -/
def crc16Step (crc : Nat) : Nat :=
  if crc % 2 == 1 then (crc / 2) ^^^ 0x8408 else crc / 2

/-- Modelled from the spec: folding one byte into the CRC-16/IBM-SDLC
state (xor the byte, then eight polynomial rounds). -/
def crc16Byte (crc b : Nat) : Nat :=
  crc16Step^[8] (crc ^^^ b)

/-- Modelled from the spec: `Crc::<u16>::new(&CRC_16_IBM_SDLC).checksum`,
the hash `prepare_zig_linker` embeds in the wrapper script file name
(init `0xFFFF`, reflected, xorout `0xFFFF`). -/
def crc16X25 (bytes : List Nat) : Nat :=
  (bytes.foldl crc16Byte 0xFFFF) ^^^ 0xFFFF

/-- The modelled checksum matches the published CRC-16/IBM-SDLC check
value on the standard test vector. -/
theorem crc16X25_check_value : crc16X25 (utf8Bytes "123456789".toList) = 0x906E := by
  decide

/-- One lowercase hexadecimal digit, as produced by Rust `{:x}`. -/
def hexChar (d : Nat) : Char :=
  if d < 10 then Char.ofNat (48 + d) else Char.ofNat (87 + d)

/-- Lowercase hexadecimal rendering of a natural number, as produced by
Rust `format!("{:x}", hash)`. -/
def hexStr (n : Nat) : Str :=
  if n = 0 then ['0'] else ((Nat.digits 16 n).map hexChar).reverse

/-- Rust `str::trim_end_matches(char)`. -/
def trimEndMatches (s : Str) (c : Char) : Str :=
  (s.reverse.dropWhile (· == c)).reverse

/-- The `zigcc` wrapper cache file name computed by `prepare_zig_linker`
for a raw target and serialized baked-argument string (Unix file
extension): `zigcc-{file_target}-{hash:x}.sh` with
`file_target = target.trim_end_matches('.')`. -/
def zigCcFileName (target : Str) (ccArgsStr : Str) : Str :=
  "zigcc-".toList ++ trimEndMatches target '.' ++ "-".toList ++
    hexStr (crc16X25 (utf8Bytes ccArgsStr)) ++ ".sh".toList

theorem hexChar_inj_lt : ∀ d1 < 16, ∀ d2 < 16, hexChar d1 = hexChar d2 → d1 = d2 := by
  decide

theorem map_hexChar_inj (l1 : List Nat) (h1 : ∀ d ∈ l1, d < 16) :
    ∀ l2 : List Nat, (∀ d ∈ l2, d < 16) → l1.map hexChar = l2.map hexChar →
      l1 = l2 := by
  induction l1 with
  | nil =>
    intro l2 _ h
    cases l2 with
    | nil => rfl
    | cons b u => simp at h
  | cons a t ih =>
    intro l2 h2 h
    cases l2 with
    | nil => simp at h
    | cons b u =>
      simp only [List.map_cons, List.cons.injEq] at h
      have ha : a = b :=
        hexChar_inj_lt a (h1 a (List.mem_cons_self a t)) b
          (h2 b (List.mem_cons_self b u)) h.1
      have ht : t = u :=
        ih (fun d hd => h1 d (List.mem_cons_of_mem _ hd)) u
          (fun d hd => h2 d (List.mem_cons_of_mem _ hd)) h.2
      rw [ha, ht]

theorem hexStr_inj (n m : Nat) (h : hexStr n = hexStr m) : n = m := by
  by_cases hn : n = 0 <;> by_cases hm : m = 0
  · rw [hn, hm]
  · exfalso
    rw [hexStr, hexStr, if_pos hn, if_neg hm] at h
    have h' : (Nat.digits 16 m).map hexChar = ['0'] := by
      have := congrArg List.reverse h
      simpa using this.symm
    cases hd : Nat.digits 16 m with
    | nil => rw [hd] at h'; simp at h'
    | cons d ds =>
      rw [hd] at h'
      cases ds with
      | nil =>
        simp only [List.map_cons, List.map_nil, List.cons.injEq, and_true] at h'
        have hlt : d < 16 :=
          Nat.digits_lt_base (by norm_num) (hd ▸ List.mem_cons_self d [])
        have hd0 : d = 0 :=
          hexChar_inj_lt d hlt 0 (by norm_num) (by simpa [hexChar] using h')
        have : m = 0 := by
          rw [← Nat.ofDigits_digits 16 m, hd, hd0]
          simp [Nat.ofDigits]
        exact hm this
      | cons d2 ds2 => simp at h'
  · exfalso
    rw [hexStr, hexStr, if_neg hn, if_pos hm] at h
    have h' : (Nat.digits 16 n).map hexChar = ['0'] := by
      have := congrArg List.reverse h
      simpa using this
    cases hd : Nat.digits 16 n with
    | nil => rw [hd] at h'; simp at h'
    | cons d ds =>
      rw [hd] at h'
      cases ds with
      | nil =>
        simp only [List.map_cons, List.map_nil, List.cons.injEq, and_true] at h'
        have hlt : d < 16 :=
          Nat.digits_lt_base (by norm_num) (hd ▸ List.mem_cons_self d [])
        have hd0 : d = 0 :=
          hexChar_inj_lt d hlt 0 (by norm_num) (by simpa [hexChar] using h')
        have : n = 0 := by
          rw [← Nat.ofDigits_digits 16 n, hd, hd0]
          simp [Nat.ofDigits]
        exact hn this
      | cons d2 ds2 => simp at h'
  · rw [hexStr, hexStr, if_neg hn, if_neg hm] at h
    have h' : (Nat.digits 16 n).map hexChar = (Nat.digits 16 m).map hexChar := by
      have := congrArg List.reverse h
      simpa using this
    have hdig : Nat.digits 16 n = Nat.digits 16 m :=
      map_hexChar_inj _ (fun d hd => Nat.digits_lt_base (by norm_num) hd) _
        (fun d hd => Nat.digits_lt_base (by norm_num) hd) h'
    exact Nat.digits_inj_iff.mp hdig

/-- C5, counterexample. Two different baked-flag strings for the same
target (two different `-mcpu` overrides, as produced by a RUSTFLAGS
`target_cpu` setting) have the same 16-bit checksum, hence the same
wrapper file name: the claim that changing any baked flag always changes
the checksum fails (a 16-bit hash must collide). -/
theorem c5_counterexample :
    "-mcpu=aic".toList ≠ "-mcpu=pab".toList ∧
    crc16X25 (utf8Bytes "-mcpu=aic".toList) =
      crc16X25 (utf8Bytes "-mcpu=pab".toList) ∧
    zigCcFileName "aarch64-unknown-linux-gnu".toList "-mcpu=aic".toList =
      zigCcFileName "aarch64-unknown-linux-gnu".toList "-mcpu=pab".toList := by
  refine ⟨by decide, ?_, ?_⟩ <;> (try decide)
  case _ =>
    have hcrc : crc16X25 (utf8Bytes "-mcpu=aic".toList) =
        crc16X25 (utf8Bytes "-mcpu=pab".toList) := by decide
    unfold zigCcFileName
    rw [hcrc]

/-- C5, amended: the cache file name is a deterministic pure function of
the (target, baked-flag-string) pair, and two flag strings with different
16-bit checksums always produce different file names for the same target
(so only a checksum collision can ever let one script overwrite another's
bytes). -/
theorem c5_name_distinct_of_checksum (t s1 s2 : Str)
    (h : crc16X25 (utf8Bytes s1) ≠ crc16X25 (utf8Bytes s2)) :
    zigCcFileName t s1 ≠ zigCcFileName t s2 := by
  intro heq
  apply h
  unfold zigCcFileName at heq
  have h2 := congrArg List.reverse heq
  simp only [List.reverse_append] at h2
  have h3 := congrArg (List.drop ".sh".toList.reverse.length) h2
  rw [List.drop_left, List.drop_left] at h3
  have h4 := congrArg List.reverse h3
  simp only [List.reverse_append, List.reverse_reverse] at h4
  have h5 := congrArg (List.drop ("zigcc-".toList ++ trimEndMatches t '.' ++
    "-".toList).length) h4
  rw [List.drop_left, List.drop_left] at h5
  exact hexStr_inj _ _ h5

/-- Witness for the amended C5: two flag strings with different checksums
give different file names. -/
theorem c5_witness :
    crc16X25 (utf8Bytes "-g".toList) ≠ crc16X25 (utf8Bytes "-g -mcpu=apple_m1".toList) ∧
    zigCcFileName "aarch64-apple-darwin".toList "-g".toList ≠
      zigCcFileName "aarch64-apple-darwin".toList "-g -mcpu=apple_m1".toList :=
  ⟨by decide,
    c5_name_distinct_of_checksum "aarch64-apple-darwin".toList "-g".toList
      "-g -mcpu=apple_m1".toList (by decide)⟩

/-! ### Claim C9: idempotence of the wrapper materializer -/

/-- One decimal digit character. -/
def decChar (d : Nat) : Char := Char.ofNat (48 + d)

/-- Decimal rendering of a natural number (Rust `Display` for integers). -/
def natStr (n : Nat) : Str :=
  if n = 0 then ['0'] else ((Nat.digits 10 n).map decChar).reverse

/-- `semver::Version` `Display`: `major.minor.patch`. -/
def semverStr (v : SemVer) : Str :=
  natStr v.major ++ ".".toList ++ natStr v.minor ++ ".".toList ++ natStr v.patch

/-- The wrapper shell script assembled by `write_linker_wrapper`
(`src/zig.rs`, Unix variant): shebang, zig-version export, SDKROOT
pass-through, and the `exec` line delegating to this program. -/
def buildLinkerWrapperScript (currentExe command args : Str)
    (zigVersion : SemVer) : Str :=
  "#!/bin/sh\n".toList ++
  "export CARGO_ZIGBUILD_ZIG_VERSION=".toList ++ semverStr zigVersion ++ "\n".toList ++
  "if [ -n \"$SDKROOT\" ]; then export SDKROOT; fi\n".toList ++
  "exec \"".toList ++ currentExe ++ "\" zig ".toList ++ command ++
    " -- ".toList ++ args ++ " \"$@\"\n".toList

/-- Result of one `write_linker_wrapper` invocation: the content the
wrapper file holds afterwards, and whether a write was performed (the
source opens and truncates the file only when the existing bytes differ,
precisely to keep the modification time stable for mtime-based caches). -/
structure WrapperWrite where
  content : Str
  wrote : Bool
deriving DecidableEq

/-- `write_linker_wrapper` from `src/zig.rs` (Unix variant), with the
filesystem state passed explicitly: `existing` is the current file content
(`none` when the file does not exist; `fs::read(path).unwrap_or_default()`
turns that into the empty byte string). -/
def writeLinkerWrapper (existing : Option Str) (currentExe command args : Str)
    (zigVersion : SemVer) : WrapperWrite :=
  let buf := buildLinkerWrapperScript currentExe command args zigVersion
  let existingContent := existing.getD []
  { content := buf, wrote := existingContent != buf }

/-- C9. Running the wrapper materializer twice with identical inputs is
idempotent: the second run computes byte-identical content, and because
the file now holds exactly that content, the second run performs no write
(so the file's modification time is not touched). -/
theorem c9_wrapper_write_idempotent (existing : Option Str)
    (currentExe command args : Str) (zigVersion : SemVer) :
    (writeLinkerWrapper
        (some (writeLinkerWrapper existing currentExe command args zigVersion).content)
        currentExe command args zigVersion).content =
      (writeLinkerWrapper existing currentExe command args zigVersion).content ∧
    (writeLinkerWrapper
        (some (writeLinkerWrapper existing currentExe command args zigVersion).content)
        currentExe command args zigVersion).wrote = false := by
  simp [writeLinkerWrapper]

/-! ### Claim C10: linker response files shorter than two bytes -/

/-- Outcome of decoding a linker response file's bytes: `panicked` stands
for the Rust out-of-bounds slice panic in `content_bytes[0..2]`. -/
inductive RespOutcome where
  | panicked
  | bomError
  | utf16Error
  | utf8Error
  | decoded (content : Str)
deriving DecidableEq

/-- Rust `chunks_exact(2)` combined with `u16::from_ne_bytes` on a
little-endian host, as used for UTF-16 response files (a trailing odd byte
is discarded). -/
def u16OfPairsLE : List Nat → List Nat
  | b0 :: b1 :: rest => (b0 + 256 * b1) :: u16OfPairsLE rest
  | _ => []

/-- `String::from_utf16` validity: decodes UTF-16 code units, pairing
surrogates, or fails. -/
def decodeUtf16 : List Nat → Option Str
  | [] => some []
  | u :: rest =>
    if u < 0xD800 ∨ 0xE000 ≤ u then
      (decodeUtf16 rest).map (Char.ofNat u :: ·)
    else if u < 0xDC00 then
      match rest with
      | u2 :: rest2 =>
        if 0xDC00 ≤ u2 ∧ u2 < 0xE000 then
          (decodeUtf16 rest2).map
            (Char.ofNat (0x10000 + (u - 0xD800) * 0x400 + (u2 - 0xDC00)) :: ·)
        else none
      | [] => none
    else none

/-- A UTF-8 continuation byte. -/
def isUtf8Cont (b : Nat) : Prop := 0x80 ≤ b ∧ b ≤ 0xBF

instance (b : Nat) : Decidable (isUtf8Cont b) := by
  unfold isUtf8Cont
  infer_instance

/-- `String::from_utf8` validity: the standard UTF-8 acceptance automaton
(with overlong/surrogate/out-of-range rejection). -/
def decodeUtf8 : List Nat → Option Str
  | [] => some []
  | b :: rest =>
    if b < 0x80 then (decodeUtf8 rest).map (Char.ofNat b :: ·)
    else if 0xC2 ≤ b ∧ b ≤ 0xDF then
      match rest with
      | c1 :: rest1 =>
        if isUtf8Cont c1 then
          (decodeUtf8 rest1).map
            (Char.ofNat ((b - 0xC0) * 0x40 + (c1 - 0x80)) :: ·)
        else none
      | [] => none
    else if 0xE0 ≤ b ∧ b ≤ 0xEF then
      match rest with
      | c1 :: c2 :: rest2 =>
        if (if b = 0xE0 then 0xA0 ≤ c1 ∧ c1 ≤ 0xBF
            else if b = 0xED then 0x80 ≤ c1 ∧ c1 ≤ 0x9F
            else isUtf8Cont c1) ∧ isUtf8Cont c2 then
          (decodeUtf8 rest2).map
            (Char.ofNat ((b - 0xE0) * 0x1000 + (c1 - 0x80) * 0x40 + (c2 - 0x80)) :: ·)
        else none
      | _ => none
    else if 0xF0 ≤ b ∧ b ≤ 0xF4 then
      match rest with
      | c1 :: c2 :: c3 :: rest3 =>
        if (if b = 0xF0 then 0x90 ≤ c1 ∧ c1 ≤ 0xBF
            else if b = 0xF4 then 0x80 ≤ c1 ∧ c1 ≤ 0x8F
            else isUtf8Cont c1) ∧ isUtf8Cont c2 ∧ isUtf8Cont c3 then
          (decodeUtf8 rest3).map
            (Char.ofNat ((b - 0xF0) * 0x40000 + (c1 - 0x80) * 0x1000 +
              (c2 - 0x80) * 0x40 + (c3 - 0x80)) :: ·)
        else none
      | _ => none
    else none

/-- The decoding stage of `Zig::process_linker_response_file`
(`src/zig.rs`): for a Windows-MSVC target the file must start with the
UTF-16 little-endian byte-order mark `[255, 254]` — but the slice
`content_bytes[0..2]` panics when the file holds fewer than two bytes;
other targets decode UTF-8. -/
def processResponseFileContent (contentBytes : List Nat) (ti : TargetInfo) :
    RespOutcome :=
  if ti.isWindowsMsvc then
    if contentBytes.length < 2 then .panicked
    else if ¬ (contentBytes.take 2 = [255, 254]) then .bomError
    else
      match decodeUtf16 (u16OfPairsLE (contentBytes.drop 2)) with
      | some s => .decoded s
      | none => .utf16Error
  else
    match decodeUtf8 contentBytes with
    | some s => .decoded s
    | none => .utf8Error

/-- C10. For a Windows-MSVC target, a response file shorter than two bytes
makes `process_linker_response_file` panic on the out-of-bounds slice
`content_bytes[0..2]` instead of reporting the missing-BOM encoding error,
and the BOM-error path is taken exactly for files of at least two bytes
that do not start with the UTF-16 little-endian byte-order mark. -/
theorem c10_short_response_file_panics (contentBytes : List Nat) (ti : TargetInfo)
    (hmsvc : ti.isWindowsMsvc = true) :
    (contentBytes.length < 2 →
      processResponseFileContent contentBytes ti = .panicked) ∧
    (processResponseFileContent contentBytes ti = .bomError ↔
      2 ≤ contentBytes.length ∧ contentBytes.take 2 ≠ [255, 254]) := by
  unfold processResponseFileContent
  rw [hmsvc]
  simp only [if_true]
  by_cases hlen : contentBytes.length < 2
  · refine ⟨fun _ => by simp [hlen], ?_⟩
    simp only [hlen, if_true]
    constructor
    · intro h
      exact absurd h (by simp)
    · rintro ⟨h2, -⟩
      omega
  · refine ⟨fun h => absurd h hlen, ?_⟩
    simp only [hlen, if_false]
    by_cases hbom : contentBytes.take 2 = [255, 254]
    · have hcond : ¬ ¬ (contentBytes.take 2 = [255, 254]) := not_not_intro hbom
      simp only [hbom, if_neg hcond]
      constructor
      · intro h
        cases hdec : decodeUtf16 (u16OfPairsLE (contentBytes.drop 2)) with
        | some s => rw [hdec] at h; exact absurd h (by simp)
        | none => rw [hdec] at h; exact absurd h (by simp)
      · rintro ⟨-, hne⟩
        exact absurd (hne rfl) not_false
    · rw [if_pos hbom]
      exact ⟨fun _ => ⟨Nat.le_of_not_lt hlen, hbom⟩, fun _ => rfl⟩

/-- Witness for C10: a one-byte response file panics, a two-byte file
without the BOM reports the encoding error. -/
theorem c10_witness :
    TargetInfo.isWindowsMsvc ⟨some "x86_64-pc-windows-msvc".toList⟩ = true ∧
    processResponseFileContent [0] ⟨some "x86_64-pc-windows-msvc".toList⟩ =
      .panicked ∧
    processResponseFileContent [0, 0] ⟨some "x86_64-pc-windows-msvc".toList⟩ =
      .bomError :=
  ⟨by decide,
    (c10_short_response_file_panics [0] ⟨some "x86_64-pc-windows-msvc".toList⟩
      (by decide)).1 (by decide),
    (c10_short_response_file_panics [0, 0] ⟨some "x86_64-pc-windows-msvc".toList⟩
      (by decide)).2.mpr ⟨by decide, by decide⟩⟩

/-! ### Claim C1: the toolchain environment applier never overwrites -/

/-- `env::var_os` / `Command::get_envs` lookup over an association list of
environment entries. -/
def lookupEnv (env : List (Str × Str)) (name : Str) : Option Str :=
  (env.find? (fun p => p.1 == name)).map (·.2)

/-- `Command::env`: stage `name = value`, replacing an existing staged
entry of the same name or appending a new one. `env::set_var` on the
process environment has the same update semantics. -/
def cmdEnvSet (env : List (Str × Str)) (name value : Str) : List (Str × Str) :=
  if env.any (fun p => p.1 == name) then
    env.map (fun p => if p.1 == name then (name, value) else p)
  else
    env ++ [(name, value)]

/-- `Zig::add_env_if_missing` (`src/zig.rs`): stage `name = value` only
when the child command has no staged entry for `name` and the parent
process environment has no value for it. -/
def addEnvIfMissing (parentEnv cmdEnv : List (Str × Str)) (name value : Str) :
    List (Str × Str) :=
  if !(cmdEnv.any (fun p => p.1 == name)) && (lookupEnv parentEnv name).isNone then
    cmdEnvSet cmdEnv name value
  else
    cmdEnv

/-- `struct ZigWrapper`: the resolved wrapper paths for one target. -/
structure ZigWrapperPaths where
  cc : Str
  cxx : Str
  ar : Str
  ranlib : Str
  lib : Str
deriving DecidableEq

/-- External collaborators of `apply_command_env`, passed explicitly: host
facts (`is_mingw_shell`, `cfg!(windows)`, `which::which("ninja")`,
`rustc_version::version_meta`), and the fallible helpers it calls
(`prepare_zig_linker`, `setup_cmake_toolchain`, `has_system_dlltool`,
`env::join_paths`, `macos_sdk_root`, `collect_zig_cc_options`,
`shell_words::join/split/quote`). -/
structure ApplyEnvCtx where
  isMingwShell : Bool
  cfgWindows : Bool
  ninjaFound : Bool
  hostTarget : Str
  rustcVersionStr : Str
  rustcChannelNightly : Bool
  prepareZigLinker : Str → Option ZigWrapperPaths
  toSlashLossy : Str → Str
  setupCmakeToolchain : Str → Bool → Option Str
  hasSystemDlltool : Str → Bool
  joinPathsWithCacheDir : Str → Option Str
  macosSdkRoot : Option Str
  collectZigCcOptions : Str → Option (List Str)
  shellJoin : List Str → Str
  shellSplitOk : Str → Bool
  shellQuote : Str → Str

/-- The environment state threaded through `apply_command_env`: the
process environment (mutated by `env::set_var` for the bindgen variables)
and the environment staged on the child `Command`. -/
structure EnvState where
  processEnv : List (Str × Str)
  cmdEnv : List (Str × Str)
deriving DecidableEq

/-- `parsed_target.replace('-', "_")`. -/
def envTargetOf (parsedTarget : Str) : Str :=
  parsedTarget.map (fun c => if c == '-' then '_' else c)

/-- The per-target compiler/linker/archiver assignments of
`apply_command_env`: `CC_*`, `CXX_*`, `CARGO_TARGET_*_LINKER` (skipped for
wasm targets), `RANLIB_*`, and — only when zig-ar handling is enabled —
`AR_*` (the import-library tool for MSVC ABIs, the archiver otherwise).
All go through `add_env_if_missing`. -/
def stageCompilerVars (ctx : ApplyEnvCtx) (enableZigAr : Bool)
    (zw : ZigWrapperPaths) (penv : List (Str × Str)) (parsedTarget envTarget : Str)
    (cmd : List (Str × Str)) : List (Str × Str) :=
  let cc := if ctx.isMingwShell then ctx.toSlashLossy zw.cc else zw.cc
  let cxx := if ctx.isMingwShell then ctx.toSlashLossy zw.cxx else zw.cxx
  let cmd := addEnvIfMissing penv cmd ("CC_".toList ++ envTarget) cc
  let cmd := addEnvIfMissing penv cmd ("CXX_".toList ++ envTarget) cxx
  let cmd :=
    if !(containsL parsedTarget "wasm".toList) then
      addEnvIfMissing penv cmd
        ("CARGO_TARGET_".toList ++ envTarget.map Char.toUpper ++ "_LINKER".toList) cc
    else cmd
  let cmd := addEnvIfMissing penv cmd ("RANLIB_".toList ++ envTarget) zw.ranlib
  if enableZigAr then
    if containsL parsedTarget "msvc".toList then
      addEnvIfMissing penv cmd ("AR_".toList ++ envTarget) zw.lib
    else
      addEnvIfMissing penv cmd ("AR_".toList ++ envTarget) zw.ar
  else cmd

/-- The CMake toolchain-file assignment of `apply_command_env`: staged with
`cmd.env` only when none of the four recognized variables is present in
the parent process environment (the staged command environment is not
consulted). -/
def stageCmakeToolchainFile (ctx : ApplyEnvCtx) (enableZigAr : Bool)
    (penv : List (Str × Str)) (parsedTarget envTarget : Str)
    (cmd : List (Str × Str)) : List (Str × Str) :=
  if (lookupEnv penv ("CMAKE_TOOLCHAIN_FILE_".toList ++ envTarget)).isNone &&
      (lookupEnv penv ("CMAKE_TOOLCHAIN_FILE_".toList ++ parsedTarget)).isNone &&
      (lookupEnv penv "TARGET_CMAKE_TOOLCHAIN_FILE".toList).isNone &&
      (lookupEnv penv "CMAKE_TOOLCHAIN_FILE".toList).isNone then
    match ctx.setupCmakeToolchain parsedTarget enableZigAr with
    | some cmakeToolchainFile =>
      cmdEnvSet cmd ("CMAKE_TOOLCHAIN_FILE_".toList ++ envTarget) cmakeToolchainFile
    | none => cmd
  else cmd

/-- The Windows-host CMake generator assignment (`cmd.env`, guarded only by
the parent environment and the presence of ninja). -/
def stageCmakeGenerator (ctx : ApplyEnvCtx) (penv : List (Str × Str))
    (cmd : List (Str × Str)) : List (Str × Str) :=
  if ctx.cfgWindows && (lookupEnv penv "CMAKE_GENERATOR".toList).isNone &&
      ctx.ninjaFound then
    cmdEnvSet cmd "CMAKE_GENERATOR".toList "Ninja".toList
  else cmd

/-- The windows-gnu glue of `apply_command_env`: unconditionally stages
`WINAPI_NO_BUNDLED_LIBRARIES=1` with `cmd.env`, and, when no system
dlltool exists, prepends the cache directory to `PATH`. -/
def stageWindowsGnu (ctx : ApplyEnvCtx) (penv : List (Str × Str))
    (parsedTarget rawTarget : Str) (cmd : List (Str × Str)) : List (Str × Str) :=
  if containsL rawTarget "windows-gnu".toList then
    let cmd := cmdEnvSet cmd "WINAPI_NO_BUNDLED_LIBRARIES".toList "1".toList
    if !ctx.hasSystemDlltool parsedTarget then
      match ctx.joinPathsWithCacheDir ((lookupEnv penv "PATH".toList).getD []) with
      | some newPath => cmdEnvSet cmd "PATH".toList newPath
      | none => cmd
    else cmd
  else cmd

/-- The apple-darwin `PKG_CONFIG_SYSROOT_DIR` assignment (`cmd.env`,
guarded only by the parent environment). -/
def stagePkgConfig (ctx : ApplyEnvCtx) (penv : List (Str × Str))
    (rawTarget : Str) (cmd : List (Str × Str)) : List (Str × Str) :=
  if containsL rawTarget "apple-darwin".toList then
    match ctx.macosSdkRoot with
    | some sdkroot =>
      if (lookupEnv penv "PKG_CONFIG_SYSROOT_DIR".toList).isNone then
        cmdEnvSet cmd "PKG_CONFIG_SYSROOT_DIR".toList sdkroot
      else cmd
    | none => cmd
  else cmd

/-- The target-applies-to-host flags staged unconditionally with `cmd.env`
when the requested target equals the host target. -/
def stageHostTarget (ctx : ApplyEnvCtx) (parsedTarget : Str)
    (cmd : List (Str × Str)) : List (Str × Str) :=
  if ctx.hostTarget == parsedTarget then
    let cmd :=
      if !ctx.rustcChannelNightly then
        cmdEnvSet cmd "__CARGO_TEST_CHANNEL_OVERRIDE_DO_NOT_USE_THIS".toList
          "nightly".toList
      else cmd
    let cmd := cmdEnvSet cmd "CARGO_UNSTABLE_TARGET_APPLIES_TO_HOST".toList
      "true".toList
    cmdEnvSet cmd "CARGO_TARGET_APPLIES_TO_HOST".toList "false".toList
  else cmd

/-- One `env::set_var` of a bindgen extra-clang-args variable: the current
value (or the plain `BINDGEN_EXTRA_CLANG_ARGS` fallback) is kept — quoted
as a whole if it does not shell-split — and the escaped options are
appended after a space. -/
def bindgenSetVar (ctx : ApplyEnvCtx) (penv : List (Str × Str)) (name : Str)
    (fallbackValue : Option Str) (escapedOptions : Str) : List (Str × Str) :=
  match (lookupEnv penv name).or fallbackValue with
  | some value0 =>
    let value1 := if !ctx.shellSplitOk value0 then ctx.shellQuote value0 else value0
    let value2 :=
      if value1.isEmpty then escapedOptions
      else value1 ++ " ".toList ++ escapedOptions
    cmdEnvSet penv name value2
  | none => cmdEnvSet penv name escapedOptions

/-- One iteration of the target loop in `apply_command_env`
(`src/zig.rs`): resolve the wrapper, stage the per-target variables, apply
the platform glue, and finally mutate the process environment for the
bindgen pass-through. `setup_os_deps` only writes cache files and touches
no environment, so it does not appear. -/
def applyEnvTarget (ctx : ApplyEnvCtx) (enableZigAr : Bool) (st : EnvState)
    (parsedTarget rawTarget : Str) : Option EnvState := do
  let zw ← ctx.prepareZigLinker rawTarget
  let envTarget := envTargetOf parsedTarget
  let penv := st.processEnv
  let cmd := stageCompilerVars ctx enableZigAr zw penv parsedTarget envTarget st.cmdEnv
  let cmd := stageCmakeToolchainFile ctx enableZigAr penv parsedTarget envTarget cmd
  let cmd := stageCmakeGenerator ctx penv cmd
  let cmd := stageWindowsGnu ctx penv parsedTarget rawTarget cmd
  let cmd := stagePkgConfig ctx penv rawTarget cmd
  let cmd := stageHostTarget ctx parsedTarget cmd
  let options0 ← ctx.collectZigCcOptions rawTarget
  let options :=
    if containsL rawTarget "apple-darwin".toList then
      options0 ++ ["-DTARGET_OS_IPHONE=0".toList]
    else options0
  let escapedOptions := ctx.shellJoin options
  let fallbackValue := lookupEnv penv "BINDGEN_EXTRA_CLANG_ARGS".toList
  let penv := bindgenSetVar ctx penv
    ("BINDGEN_EXTRA_CLANG_ARGS_".toList ++ envTarget) fallbackValue escapedOptions
  let penv := bindgenSetVar ctx penv
    ("BINDGEN_EXTRA_CLANG_ARGS_".toList ++ parsedTarget) fallbackValue escapedOptions
  some { processEnv := penv, cmdEnv := cmd }

/-- The target loop of `apply_command_env`. -/
def applyEnvTargets (ctx : ApplyEnvCtx) (enableZigAr : Bool) :
    List (Str × Str) → EnvState → Option EnvState
  | [], st => some st
  | (parsedTarget, rawTarget) :: rest, st =>
    (applyEnvTarget ctx enableZigAr st parsedTarget rawTarget).bind
      (applyEnvTargets ctx enableZigAr rest)

/-- `Zig::apply_command_env` (`src/zig.rs`), from the point where the raw
target list is fixed: strip ABI suffixes to get the rust targets, export
the rustc version (skip-if-already-set), then run the per-target loop.
Returns the final process environment and staged command environment. -/
def applyCommandEnv (ctx : ApplyEnvCtx) (rawTargets : List Str)
    (enableZigAr : Bool) (parentEnv cmdEnv0 : List (Str × Str)) :
    Option EnvState :=
  let rustTargets := rawTargets.map (fun t =>
    ((splitOnceL t '.').map Prod.fst).getD t)
  let cmd1 := addEnvIfMissing parentEnv cmdEnv0
    "CARGO_ZIGBUILD_RUSTC_VERSION".toList ctx.rustcVersionStr
  applyEnvTargets ctx enableZigAr (rustTargets.zip rawTargets)
    { processEnv := parentEnv, cmdEnv := cmd1 }


theorem lookupEnv_any (env : List (Str × Str)) (name : Str) (v : Str)
    (h : lookupEnv env name = some v) :
    env.any (fun p => p.1 == name) = true := by
  unfold lookupEnv at h
  cases hf : env.find? (fun p => p.1 == name) with
  | none => rw [hf] at h; simp at h
  | some p =>
    have hmem := List.mem_of_find?_eq_some hf
    have hp := List.find?_some hf
    exact List.any_eq_true.mpr ⟨p, hmem, hp⟩

theorem lookupEnv_map_replace_ne (env : List (Str × Str)) (k v name : Str)
    (h : name ≠ k) :
    lookupEnv (env.map (fun p => if p.1 == k then (k, v) else p)) name =
      lookupEnv env name := by
  induction env with
  | nil => rfl
  | cons a t ih =>
    by_cases hak : a.1 = k
    · have hak' : (a.1 == k) = true := by simp [hak]
      have hkn : (k == name) = false := by
        simp only [beq_eq_false_iff_ne, ne_eq]
        exact fun hkn => h hkn.symm
      have han : (a.1 == name) = false := by
        rw [hak]
        exact hkn
      simp only [List.map_cons, hak', if_true, lookupEnv, List.find?]
      rw [show ((k, v).1 == name) = false from hkn, show (a.1 == name) = false from han]
      exact ih
    · have hak' : (a.1 == k) = false := by simp [hak]
      simp only [List.map_cons, hak', Bool.false_eq_true, if_false, lookupEnv,
        List.find?]
      cases han : a.1 == name
      · exact ih
      · rfl

theorem lookupEnv_append_single (env : List (Str × Str)) (k v name : Str) :
    lookupEnv (env ++ [(k, v)]) name =
      ((lookupEnv env name).or (if k == name then some v else none)) := by
  induction env with
  | nil =>
    simp only [List.nil_append, lookupEnv, List.find?]
    cases hkn : k == name <;> simp
  | cons a t ih =>
    simp only [List.cons_append, lookupEnv, List.find?]
    cases han : a.1 == name
    · exact ih
    · rfl

theorem lookupEnv_cmdEnvSet_ne (env : List (Str × Str)) (k v name : Str)
    (h : name ≠ k) :
    lookupEnv (cmdEnvSet env k v) name = lookupEnv env name := by
  unfold cmdEnvSet
  by_cases hany : env.any (fun p => p.1 == k) = true
  · rw [if_pos hany]
    exact lookupEnv_map_replace_ne env k v name h
  · rw [if_neg hany, lookupEnv_append_single]
    have : (k == name) = false := by
      simp only [beq_eq_false_iff_ne, ne_eq]
      exact fun hkn => h hkn.symm
    rw [this]
    cases lookupEnv env name <;> rfl

theorem lookupEnv_cmdEnvSet_self (env : List (Str × Str)) (k v : Str) :
    lookupEnv (cmdEnvSet env k v) k = some v := by
  unfold cmdEnvSet
  by_cases hany : env.any (fun p => p.1 == k) = true
  · rw [if_pos hany]
    obtain ⟨p, hmem, hp⟩ := List.any_eq_true.mp hany
    induction env with
    | nil => simp at hmem
    | cons a t ih =>
      rcases List.mem_cons.mp hmem with rfl | hmem'
      · simp only [List.map_cons, hp, if_true, lookupEnv, List.find?, beq_self_eq_true]
        rfl
      · by_cases hak : (a.1 == k) = true
        · simp only [List.map_cons, hak, if_true, lookupEnv, List.find?, beq_self_eq_true]
          rfl
        · have hak' : (a.1 == k) = false := by
            cases hb : a.1 == k
            · rfl
            · exact absurd hb hak
          simp only [List.map_cons, hak', Bool.false_eq_true, if_false,
            lookupEnv, List.find?, hak']
          exact ih (List.any_eq_true.mpr ⟨p, hmem', hp⟩) hmem'
  · rw [if_neg hany, lookupEnv_append_single]
    have hnone : lookupEnv env k = none := by
      cases hl : lookupEnv env k with
      | none => rfl
      | some w => exact absurd (lookupEnv_any env k w hl) hany
    rw [hnone, beq_self_eq_true]
    rfl

theorem lookupEnv_cmdEnvSet_isSome (env : List (Str × Str)) (k v name : Str)
    (h : (lookupEnv env name).isSome = true) :
    (lookupEnv (cmdEnvSet env k v) name).isSome = true := by
  by_cases hkn : name = k
  · subst hkn
    rw [lookupEnv_cmdEnvSet_self]
    rfl
  · rw [lookupEnv_cmdEnvSet_ne env k v name hkn]
    exact h

theorem addEnvIfMissing_staged (parentEnv cmdEnv : List (Str × Str))
    (k val name v : Str) (hst : lookupEnv cmdEnv name = some v) :
    lookupEnv (addEnvIfMissing parentEnv cmdEnv k val) name = some v := by
  unfold addEnvIfMissing
  by_cases hcond : (!(cmdEnv.any (fun p => p.1 == k)) &&
      (lookupEnv parentEnv k).isNone) = true
  · rw [if_pos hcond]
    by_cases hkn : name = k
    · subst hkn
      have := lookupEnv_any cmdEnv name v hst
      rw [Bool.and_eq_true, Bool.not_eq_true'] at hcond
      rw [this] at hcond
      exact absurd hcond.1 (by simp)
    · rw [lookupEnv_cmdEnvSet_ne cmdEnv k val name hkn]
      exact hst
  · rw [if_neg hcond]
    exact hst

theorem addEnvIfMissing_absent (parentEnv cmdEnv : List (Str × Str))
    (k val name : Str) (hpar : (lookupEnv parentEnv name).isSome = true)
    (hst : lookupEnv cmdEnv name = none) :
    lookupEnv (addEnvIfMissing parentEnv cmdEnv k val) name = none := by
  unfold addEnvIfMissing
  by_cases hcond : (!(cmdEnv.any (fun p => p.1 == k)) &&
      (lookupEnv parentEnv k).isNone) = true
  · rw [if_pos hcond]
    by_cases hkn : name = k
    · subst hkn
      rw [Bool.and_eq_true] at hcond
      rw [Option.isNone_iff_eq_none] at hcond
      rw [hcond.2] at hpar
      exact absurd hpar (by simp)
    · rw [lookupEnv_cmdEnvSet_ne cmdEnv k val name hkn]
      exact hst
  · rw [if_neg hcond]
    exact hst



theorem ne_of_startsWith_false (name p x : Str) (h : startsWithL name p = false) :
    name ≠ p ++ x := by
  intro he
  rw [he, startsWithL_append_self] at h
  exact absurd h (by simp)

theorem stageCompilerVars_staged (ctx : ApplyEnvCtx) (enableZigAr : Bool)
    (zw : ZigWrapperPaths) (penv : List (Str × Str)) (parsedTarget envTarget : Str)
    (cmd : List (Str × Str)) (name v : Str)
    (hst : lookupEnv cmd name = some v) :
    lookupEnv (stageCompilerVars ctx enableZigAr zw penv parsedTarget envTarget cmd)
      name = some v := by
  unfold stageCompilerVars
  repeat first
  | exact hst
  | apply addEnvIfMissing_staged
  | split

theorem stageCompilerVars_absent (ctx : ApplyEnvCtx) (enableZigAr : Bool)
    (zw : ZigWrapperPaths) (penv : List (Str × Str)) (parsedTarget envTarget : Str)
    (cmd : List (Str × Str)) (name : Str)
    (hpar : (lookupEnv penv name).isSome = true)
    (hst : lookupEnv cmd name = none) :
    lookupEnv (stageCompilerVars ctx enableZigAr zw penv parsedTarget envTarget cmd)
      name = none := by
  unfold stageCompilerVars
  repeat first
  | exact hst
  | apply addEnvIfMissing_absent _ _ _ _ _ hpar
  | split

theorem stageCmakeToolchainFile_staged (ctx : ApplyEnvCtx) (enableZigAr : Bool)
    (penv : List (Str × Str)) (parsedTarget envTarget : Str)
    (cmd : List (Str × Str)) (name v : Str)
    (hst : lookupEnv cmd name = some v)
    (hpr : startsWithL name "CMAKE_TOOLCHAIN_FILE_".toList = false) :
    lookupEnv (stageCmakeToolchainFile ctx enableZigAr penv parsedTarget envTarget cmd)
      name = some v := by
  unfold stageCmakeToolchainFile
  by_cases hguard : ((lookupEnv penv ("CMAKE_TOOLCHAIN_FILE_".toList ++ envTarget)).isNone &&
      (lookupEnv penv ("CMAKE_TOOLCHAIN_FILE_".toList ++ parsedTarget)).isNone &&
      (lookupEnv penv "TARGET_CMAKE_TOOLCHAIN_FILE".toList).isNone &&
      (lookupEnv penv "CMAKE_TOOLCHAIN_FILE".toList).isNone) = true
  · rw [if_pos hguard]
    cases hset : ctx.setupCmakeToolchain parsedTarget enableZigAr with
    | some f =>
      simp only [hset]
      rw [lookupEnv_cmdEnvSet_ne _ _ _ _ (ne_of_startsWith_false name _ envTarget hpr)]
      exact hst
    | none =>
      simp only [hset]
      exact hst
  · rw [if_neg hguard]
    exact hst

theorem stageCmakeToolchainFile_absent (ctx : ApplyEnvCtx) (enableZigAr : Bool)
    (penv : List (Str × Str)) (parsedTarget envTarget : Str)
    (cmd : List (Str × Str)) (name : Str)
    (hpar : (lookupEnv penv name).isSome = true)
    (hst : lookupEnv cmd name = none) :
    lookupEnv (stageCmakeToolchainFile ctx enableZigAr penv parsedTarget envTarget cmd)
      name = none := by
  unfold stageCmakeToolchainFile
  by_cases hguard : ((lookupEnv penv ("CMAKE_TOOLCHAIN_FILE_".toList ++ envTarget)).isNone &&
      (lookupEnv penv ("CMAKE_TOOLCHAIN_FILE_".toList ++ parsedTarget)).isNone &&
      (lookupEnv penv "TARGET_CMAKE_TOOLCHAIN_FILE".toList).isNone &&
      (lookupEnv penv "CMAKE_TOOLCHAIN_FILE".toList).isNone) = true
  · rw [if_pos hguard]
    cases hset : ctx.setupCmakeToolchain parsedTarget enableZigAr with
    | some f =>
      simp only [hset]
      by_cases hn : name = "CMAKE_TOOLCHAIN_FILE_".toList ++ envTarget
      · exfalso
        rw [Bool.and_eq_true, Bool.and_eq_true, Bool.and_eq_true] at hguard
        have h1 := hguard.1.1.1
        rw [← hn, Option.isNone_iff_eq_none] at h1
        rw [h1] at hpar
        exact absurd hpar (by simp)
      · rw [lookupEnv_cmdEnvSet_ne _ _ _ _ hn]
        exact hst
    | none =>
      simp only [hset]
      exact hst
  · rw [if_neg hguard]
    exact hst

theorem stageCmakeGenerator_staged (ctx : ApplyEnvCtx) (penv : List (Str × Str))
    (cmd : List (Str × Str)) (name v : Str)
    (hst : lookupEnv cmd name = some v)
    (hne : name ≠ "CMAKE_GENERATOR".toList) :
    lookupEnv (stageCmakeGenerator ctx penv cmd) name = some v := by
  unfold stageCmakeGenerator
  split
  · rw [lookupEnv_cmdEnvSet_ne _ _ _ _ hne]
    exact hst
  · exact hst

theorem stageCmakeGenerator_absent (ctx : ApplyEnvCtx) (penv : List (Str × Str))
    (cmd : List (Str × Str)) (name : Str)
    (hpar : (lookupEnv penv name).isSome = true)
    (hst : lookupEnv cmd name = none) :
    lookupEnv (stageCmakeGenerator ctx penv cmd) name = none := by
  unfold stageCmakeGenerator
  split
  case isTrue hguard =>
    by_cases hn : name = "CMAKE_GENERATOR".toList
    · exfalso
      rw [Bool.and_eq_true, Bool.and_eq_true] at hguard
      have h1 := hguard.1.2
      rw [← hn, Option.isNone_iff_eq_none] at h1
      rw [h1] at hpar
      exact absurd hpar (by simp)
    · rw [lookupEnv_cmdEnvSet_ne _ _ _ _ hn]
      exact hst
  case isFalse => exact hst

theorem stageWindowsGnu_staged (ctx : ApplyEnvCtx) (penv : List (Str × Str))
    (parsedTarget rawTarget : Str) (cmd : List (Str × Str)) (name v : Str)
    (hst : lookupEnv cmd name = some v)
    (hn1 : name ≠ "WINAPI_NO_BUNDLED_LIBRARIES".toList)
    (hn2 : name ≠ "PATH".toList) :
    lookupEnv (stageWindowsGnu ctx penv parsedTarget rawTarget cmd) name = some v := by
  unfold stageWindowsGnu
  have hwin : lookupEnv (cmdEnvSet cmd "WINAPI_NO_BUNDLED_LIBRARIES".toList
      "1".toList) name = some v := by
    rw [lookupEnv_cmdEnvSet_ne _ _ _ _ hn1]
    exact hst
  split
  · split
    · split
      · rw [lookupEnv_cmdEnvSet_ne _ _ _ _ hn2]
        exact hwin
      · exact hwin
    · exact hwin
  · exact hst

theorem stageWindowsGnu_absent (ctx : ApplyEnvCtx) (penv : List (Str × Str))
    (parsedTarget rawTarget : Str) (cmd : List (Str × Str)) (name : Str)
    (hst : lookupEnv cmd name = none)
    (hn1 : name ≠ "WINAPI_NO_BUNDLED_LIBRARIES".toList)
    (hn2 : name ≠ "PATH".toList) :
    lookupEnv (stageWindowsGnu ctx penv parsedTarget rawTarget cmd) name = none := by
  unfold stageWindowsGnu
  have hwin : lookupEnv (cmdEnvSet cmd "WINAPI_NO_BUNDLED_LIBRARIES".toList
      "1".toList) name = none := by
    rw [lookupEnv_cmdEnvSet_ne _ _ _ _ hn1]
    exact hst
  split
  · split
    · split
      · rw [lookupEnv_cmdEnvSet_ne _ _ _ _ hn2]
        exact hwin
      · exact hwin
    · exact hwin
  · exact hst

theorem stagePkgConfig_staged (ctx : ApplyEnvCtx) (penv : List (Str × Str))
    (rawTarget : Str) (cmd : List (Str × Str)) (name v : Str)
    (hst : lookupEnv cmd name = some v)
    (hne : name ≠ "PKG_CONFIG_SYSROOT_DIR".toList) :
    lookupEnv (stagePkgConfig ctx penv rawTarget cmd) name = some v := by
  unfold stagePkgConfig
  split
  · split
    · split
      · rw [lookupEnv_cmdEnvSet_ne _ _ _ _ hne]
        exact hst
      · exact hst
    · exact hst
  · exact hst

theorem stagePkgConfig_absent (ctx : ApplyEnvCtx) (penv : List (Str × Str))
    (rawTarget : Str) (cmd : List (Str × Str)) (name : Str)
    (hpar : (lookupEnv penv name).isSome = true)
    (hst : lookupEnv cmd name = none) :
    lookupEnv (stagePkgConfig ctx penv rawTarget cmd) name = none := by
  unfold stagePkgConfig
  split
  · split
    case h_1 sdkroot heq =>
      split
      case isTrue hguard =>
        by_cases hn : name = "PKG_CONFIG_SYSROOT_DIR".toList
        · exfalso
          rw [← hn, Option.isNone_iff_eq_none] at hguard
          rw [hguard] at hpar
          exact absurd hpar (by simp)
        · rw [lookupEnv_cmdEnvSet_ne _ _ _ _ hn]
          exact hst
      case isFalse => exact hst
    case h_2 => exact hst
  · exact hst

theorem stageHostTarget_staged (ctx : ApplyEnvCtx) (parsedTarget : Str)
    (cmd : List (Str × Str)) (name v : Str)
    (hst : lookupEnv cmd name = some v)
    (hn1 : name ≠ "__CARGO_TEST_CHANNEL_OVERRIDE_DO_NOT_USE_THIS".toList)
    (hn2 : name ≠ "CARGO_UNSTABLE_TARGET_APPLIES_TO_HOST".toList)
    (hn3 : name ≠ "CARGO_TARGET_APPLIES_TO_HOST".toList) :
    lookupEnv (stageHostTarget ctx parsedTarget cmd) name = some v := by
  unfold stageHostTarget
  split
  · rw [lookupEnv_cmdEnvSet_ne _ _ _ _ hn3,
      lookupEnv_cmdEnvSet_ne _ _ _ _ hn2]
    split
    · rw [lookupEnv_cmdEnvSet_ne _ _ _ _ hn1]
      exact hst
    · exact hst
  · exact hst

theorem stageHostTarget_absent (ctx : ApplyEnvCtx) (parsedTarget : Str)
    (cmd : List (Str × Str)) (name : Str)
    (hst : lookupEnv cmd name = none)
    (hn1 : name ≠ "__CARGO_TEST_CHANNEL_OVERRIDE_DO_NOT_USE_THIS".toList)
    (hn2 : name ≠ "CARGO_UNSTABLE_TARGET_APPLIES_TO_HOST".toList)
    (hn3 : name ≠ "CARGO_TARGET_APPLIES_TO_HOST".toList) :
    lookupEnv (stageHostTarget ctx parsedTarget cmd) name = none := by
  unfold stageHostTarget
  split
  · rw [lookupEnv_cmdEnvSet_ne _ _ _ _ hn3,
      lookupEnv_cmdEnvSet_ne _ _ _ _ hn2]
    split
    · rw [lookupEnv_cmdEnvSet_ne _ _ _ _ hn1]
      exact hst
    · exact hst
  · exact hst

theorem bindgenSetVar_isSome (ctx : ApplyEnvCtx) (penv : List (Str × Str))
    (k : Str) (fallbackValue : Option Str) (escapedOptions : Str) (name : Str)
    (hpar : (lookupEnv penv name).isSome = true) :
    (lookupEnv (bindgenSetVar ctx penv k fallbackValue escapedOptions) name).isSome =
      true := by
  unfold bindgenSetVar
  split
  · exact lookupEnv_cmdEnvSet_isSome _ _ _ _ hpar
  · exact lookupEnv_cmdEnvSet_isSome _ _ _ _ hpar



theorem applyEnvTarget_staged (ctx : ApplyEnvCtx) (enableZigAr : Bool)
    (st : EnvState) (parsedTarget rawTarget : Str) (st' : EnvState)
    (heq : applyEnvTarget ctx enableZigAr st parsedTarget rawTarget = some st')
    (name v : Str) (hst : lookupEnv st.cmdEnv name = some v)
    (hn1 : name ≠ "WINAPI_NO_BUNDLED_LIBRARIES".toList)
    (hn2 : name ≠ "PATH".toList)
    (hn3 : name ≠ "__CARGO_TEST_CHANNEL_OVERRIDE_DO_NOT_USE_THIS".toList)
    (hn4 : name ≠ "CARGO_UNSTABLE_TARGET_APPLIES_TO_HOST".toList)
    (hn5 : name ≠ "CARGO_TARGET_APPLIES_TO_HOST".toList)
    (hn6 : name ≠ "PKG_CONFIG_SYSROOT_DIR".toList)
    (hn7 : name ≠ "CMAKE_GENERATOR".toList)
    (hpr : startsWithL name "CMAKE_TOOLCHAIN_FILE_".toList = false) :
    lookupEnv st'.cmdEnv name = some v := by
  unfold applyEnvTarget at heq
  cases hz : ctx.prepareZigLinker rawTarget with
  | none => rw [hz] at heq; simp at heq
  | some zw =>
    rw [hz] at heq
    cases hc : ctx.collectZigCcOptions rawTarget with
    | none => rw [hc] at heq; simp at heq
    | some opts =>
      rw [hc] at heq
      simp only [Option.bind_eq_bind, Option.some_bind, Option.some.injEq] at heq
      subst heq
      refine stageHostTarget_staged _ _ _ _ _ ?_ hn3 hn4 hn5
      refine stagePkgConfig_staged _ _ _ _ _ _ ?_ hn6
      refine stageWindowsGnu_staged _ _ _ _ _ _ _ ?_ hn1 hn2
      refine stageCmakeGenerator_staged _ _ _ _ _ ?_ hn7
      refine stageCmakeToolchainFile_staged _ _ _ _ _ _ _ _ ?_ hpr
      exact stageCompilerVars_staged _ _ _ _ _ _ _ _ _ hst

theorem applyEnvTarget_absent (ctx : ApplyEnvCtx) (enableZigAr : Bool)
    (st : EnvState) (parsedTarget rawTarget : Str) (st' : EnvState)
    (heq : applyEnvTarget ctx enableZigAr st parsedTarget rawTarget = some st')
    (name : Str)
    (hpar : (lookupEnv st.processEnv name).isSome = true)
    (hst : lookupEnv st.cmdEnv name = none)
    (hn1 : name ≠ "WINAPI_NO_BUNDLED_LIBRARIES".toList)
    (hn2 : name ≠ "PATH".toList)
    (hn3 : name ≠ "__CARGO_TEST_CHANNEL_OVERRIDE_DO_NOT_USE_THIS".toList)
    (hn4 : name ≠ "CARGO_UNSTABLE_TARGET_APPLIES_TO_HOST".toList)
    (hn5 : name ≠ "CARGO_TARGET_APPLIES_TO_HOST".toList) :
    lookupEnv st'.cmdEnv name = none ∧
    (lookupEnv st'.processEnv name).isSome = true := by
  unfold applyEnvTarget at heq
  cases hz : ctx.prepareZigLinker rawTarget with
  | none => rw [hz] at heq; simp at heq
  | some zw =>
    rw [hz] at heq
    cases hc : ctx.collectZigCcOptions rawTarget with
    | none => rw [hc] at heq; simp at heq
    | some opts =>
      rw [hc] at heq
      simp only [Option.bind_eq_bind, Option.some_bind, Option.some.injEq] at heq
      subst heq
      constructor
      · refine stageHostTarget_absent _ _ _ _ ?_ hn3 hn4 hn5
        refine stagePkgConfig_absent _ _ _ _ _ hpar ?_
        refine stageWindowsGnu_absent _ _ _ _ _ _ ?_ hn1 hn2
        refine stageCmakeGenerator_absent _ _ _ _ hpar ?_
        refine stageCmakeToolchainFile_absent _ _ _ _ _ _ _ hpar ?_
        exact stageCompilerVars_absent _ _ _ _ _ _ _ _ hpar hst
      · exact bindgenSetVar_isSome _ _ _ _ _ _
          (bindgenSetVar_isSome _ _ _ _ _ _ hpar)

theorem applyEnvTargets_staged (ctx : ApplyEnvCtx) (enableZigAr : Bool)
    (name v : Str)
    (hn1 : name ≠ "WINAPI_NO_BUNDLED_LIBRARIES".toList)
    (hn2 : name ≠ "PATH".toList)
    (hn3 : name ≠ "__CARGO_TEST_CHANNEL_OVERRIDE_DO_NOT_USE_THIS".toList)
    (hn4 : name ≠ "CARGO_UNSTABLE_TARGET_APPLIES_TO_HOST".toList)
    (hn5 : name ≠ "CARGO_TARGET_APPLIES_TO_HOST".toList)
    (hn6 : name ≠ "PKG_CONFIG_SYSROOT_DIR".toList)
    (hn7 : name ≠ "CMAKE_GENERATOR".toList)
    (hpr : startsWithL name "CMAKE_TOOLCHAIN_FILE_".toList = false) :
    ∀ (targets : List (Str × Str)) (st st' : EnvState),
      applyEnvTargets ctx enableZigAr targets st = some st' →
      lookupEnv st.cmdEnv name = some v →
      lookupEnv st'.cmdEnv name = some v := by
  intro targets
  induction targets with
  | nil =>
    intro st st' heq hst
    unfold applyEnvTargets at heq
    cases heq
    exact hst
  | cons pr rest ih =>
    intro st st' heq hst
    obtain ⟨p, r⟩ := pr
    unfold applyEnvTargets at heq
    cases hstep : applyEnvTarget ctx enableZigAr st p r with
    | none => rw [hstep] at heq; simp at heq
    | some stMid =>
      rw [hstep] at heq
      simp only [Option.some_bind] at heq
      exact ih stMid st' heq
        (applyEnvTarget_staged ctx enableZigAr st p r stMid hstep name v hst
          hn1 hn2 hn3 hn4 hn5 hn6 hn7 hpr)

theorem applyEnvTargets_absent (ctx : ApplyEnvCtx) (enableZigAr : Bool)
    (name : Str)
    (hn1 : name ≠ "WINAPI_NO_BUNDLED_LIBRARIES".toList)
    (hn2 : name ≠ "PATH".toList)
    (hn3 : name ≠ "__CARGO_TEST_CHANNEL_OVERRIDE_DO_NOT_USE_THIS".toList)
    (hn4 : name ≠ "CARGO_UNSTABLE_TARGET_APPLIES_TO_HOST".toList)
    (hn5 : name ≠ "CARGO_TARGET_APPLIES_TO_HOST".toList) :
    ∀ (targets : List (Str × Str)) (st st' : EnvState),
      applyEnvTargets ctx enableZigAr targets st = some st' →
      (lookupEnv st.processEnv name).isSome = true →
      lookupEnv st.cmdEnv name = none →
      lookupEnv st'.cmdEnv name = none := by
  intro targets
  induction targets with
  | nil =>
    intro st st' heq hpar hst
    unfold applyEnvTargets at heq
    cases heq
    exact hst
  | cons pr rest ih =>
    intro st st' heq hpar hst
    obtain ⟨p, r⟩ := pr
    unfold applyEnvTargets at heq
    cases hstep : applyEnvTarget ctx enableZigAr st p r with
    | none => rw [hstep] at heq; simp at heq
    | some stMid =>
      rw [hstep] at heq
      simp only [Option.some_bind] at heq
      obtain ⟨hmid1, hmid2⟩ := applyEnvTarget_absent ctx enableZigAr st p r stMid
        hstep name hpar hst hn1 hn2 hn3 hn4 hn5
      exact ih stMid st' heq hmid2 hmid1



/-- C1, counterexample context: a Linux host with all fallible helpers
resolving trivially. -/
def sampleCtx : ApplyEnvCtx where
  isMingwShell := false
  cfgWindows := false
  ninjaFound := false
  hostTarget := "x86_64-unknown-linux-gnu".toList
  rustcVersionStr := "1.70.0".toList
  rustcChannelNightly := false
  prepareZigLinker := fun _ => some
    ⟨"/cache/zigcc.sh".toList, "/cache/zigcxx.sh".toList, "/cache/ar".toList,
      "/cache/zigranlib.sh".toList, "/cache/lib".toList⟩
  toSlashLossy := id
  setupCmakeToolchain := fun _ _ => none
  hasSystemDlltool := fun _ => true
  joinPathsWithCacheDir := fun _ => none
  macosSdkRoot := none
  collectZigCcOptions := fun _ => some []
  shellJoin := fun _ => []
  shellSplitOk := fun _ => true
  shellQuote := id

/-- C1, counterexample. `WINAPI_NO_BUNDLED_LIBRARIES` is staged with the
caller's value `0` on the child command, yet for a windows-gnu target
`apply_command_env` overwrites it with `1` via a plain `cmd.env` call,
refuting "the applier never overwrites" for staged variables. -/
theorem c1_counterexample :
    lookupEnv [("WINAPI_NO_BUNDLED_LIBRARIES".toList, "0".toList)]
        "WINAPI_NO_BUNDLED_LIBRARIES".toList = some "0".toList ∧
    (applyCommandEnv sampleCtx ["x86_64-pc-windows-gnu".toList] false []
        [("WINAPI_NO_BUNDLED_LIBRARIES".toList, "0".toList)]).map
        (fun st => lookupEnv st.cmdEnv "WINAPI_NO_BUNDLED_LIBRARIES".toList) =
      some (some "1".toList) ∧
    "0".toList ≠ "1".toList := by
  refine ⟨by decide, ?_, by decide⟩
  decide

/-- C1, amended: every variable staged through the skip-if-already-set
helper keeps any existing value, and across a whole `apply_command_env`
run a variable already staged on the child command keeps its staged value
— unless it is one of the directly-`cmd.env`-assigned variables
(`WINAPI_NO_BUNDLED_LIBRARIES`, `PATH`, the target-applies-to-host trio,
`PKG_CONFIG_SYSROOT_DIR`, `CMAKE_GENERATOR`, or the
`CMAKE_TOOLCHAIN_FILE_*` family, whose guards consult only the parent
environment). Symmetrically, a variable present in the parent environment
and not staged is never staged by the run (outside the directly-assigned
names), so the parent value wins. -/
theorem c1_apply_command_env_no_overwrite (ctx : ApplyEnvCtx)
    (rawTargets : List Str) (enableZigAr : Bool)
    (parentEnv cmdEnv0 : List (Str × Str)) (name : Str) (st : EnvState)
    (hrun : applyCommandEnv ctx rawTargets enableZigAr parentEnv cmdEnv0 = some st)
    (hn1 : name ≠ "WINAPI_NO_BUNDLED_LIBRARIES".toList)
    (hn2 : name ≠ "PATH".toList)
    (hn3 : name ≠ "__CARGO_TEST_CHANNEL_OVERRIDE_DO_NOT_USE_THIS".toList)
    (hn4 : name ≠ "CARGO_UNSTABLE_TARGET_APPLIES_TO_HOST".toList)
    (hn5 : name ≠ "CARGO_TARGET_APPLIES_TO_HOST".toList) :
    (∀ v, lookupEnv cmdEnv0 name = some v →
      name ≠ "PKG_CONFIG_SYSROOT_DIR".toList →
      name ≠ "CMAKE_GENERATOR".toList →
      startsWithL name "CMAKE_TOOLCHAIN_FILE_".toList = false →
      lookupEnv st.cmdEnv name = some v) ∧
    ((lookupEnv parentEnv name).isSome = true →
      lookupEnv cmdEnv0 name = none →
      lookupEnv st.cmdEnv name = none) := by
  unfold applyCommandEnv at hrun
  constructor
  · intro v hst hn6 hn7 hpr
    exact applyEnvTargets_staged ctx enableZigAr name v hn1 hn2 hn3 hn4 hn5 hn6
      hn7 hpr _ _ st hrun
      (addEnvIfMissing_staged parentEnv cmdEnv0 _ _ name v hst)
  · intro hpar hst
    exact applyEnvTargets_absent ctx enableZigAr name hn1 hn2 hn3 hn4 hn5 _ _ st
      hrun hpar
      (addEnvIfMissing_absent parentEnv cmdEnv0 _ _ name hpar hst)

/-- Witness for the amended C1: a staged `CC_<target>` value survives a
full run untouched. -/
theorem c1_witness :
    (applyCommandEnv sampleCtx ["aarch64-unknown-linux-musl".toList] false []
        [("CC_aarch64_unknown_linux_musl".toList, "/usr/bin/mycc".toList)]).map
        (fun st => lookupEnv st.cmdEnv "CC_aarch64_unknown_linux_musl".toList) =
      some (some "/usr/bin/mycc".toList) := by
  cases heval : applyCommandEnv sampleCtx ["aarch64-unknown-linux-musl".toList]
      false [] [("CC_aarch64_unknown_linux_musl".toList, "/usr/bin/mycc".toList)] with
  | none => exact absurd heval (by decide)
  | some st =>
    have hpres := (c1_apply_command_env_no_overwrite sampleCtx
        ["aarch64-unknown-linux-musl".toList] false []
        [("CC_aarch64_unknown_linux_musl".toList, "/usr/bin/mycc".toList)]
        "CC_aarch64_unknown_linux_musl".toList st heval (by decide) (by decide)
        (by decide) (by decide) (by decide)).1 "/usr/bin/mycc".toList
        (by decide) (by decide) (by decide) (by decide)
    simp only [Option.map_some']
    rw [hpres]


/-! ### Claims C3, C4: the Mach-O load-command editor
(`src/macos/install_name_tool.rs`)

Byte buffers (`Vec<u8>`) are `List Nat`; the container context
(`goblin::container::Ctx`) is reduced to the pointer width, the container
being little-endian on every supported Apple architecture. -/

/-- The container context: 64-bit or 32-bit pointer width. -/
structure MachCtx where
  is64 : Bool
deriving DecidableEq

/-- `header_size`: `SIZEOF_HEADER_64`/`SIZEOF_HEADER_32`. -/
def machHeaderSize (ctx : MachCtx) : Nat :=
  if ctx.is64 then 32 else 28

/-- Rust `usize::next_multiple_of` (for positive `n`). -/
def nextMultipleOf (n size : Nat) : Nat :=
  (size + n - 1) / n * n

/-- `align_to_ctx`: align to 8 bytes for 64-bit containers, 4 for 32-bit. -/
def alignToCtx (size : Nat) (ctx : MachCtx) : Nat :=
  if ctx.is64 then nextMultipleOf 8 size else nextMultipleOf 4 size

/-- Little-endian serialization of a `u32`. -/
def u32Bytes (v : Nat) : List Nat :=
  [v % 256, v / 256 % 256, v / 65536 % 256, v / 16777216 % 256]

/-- Little-endian read of a `u32` at a byte offset; `none` when fewer than
four bytes are available. -/
def readU32 (buf : List Nat) (off : Nat) : Option Nat :=
  match buf.drop off with
  | b0 :: b1 :: b2 :: b3 :: _ => some (b0 + 256 * b1 + 65536 * b2 + 16777216 * b3)
  | _ => none

/-- `goblin::mach::header::Header` (unified 64-bit shape; `reserved` is
zero for 32-bit containers and not serialized there). -/
structure MachHeader where
  magic : Nat
  cputype : Nat
  cpusubtype : Nat
  filetype : Nat
  ncmds : Nat
  sizeofcmds : Nat
  flags : Nat
  reserved : Nat
deriving DecidableEq

/-- Serialization of the header, as written back by
`buffer.pwrite_with(*header, 0, ctx)`. -/
def headerBytes (ctx : MachCtx) (h : MachHeader) : List Nat :=
  u32Bytes h.magic ++ u32Bytes h.cputype ++ u32Bytes h.cpusubtype ++
  u32Bytes h.filetype ++ u32Bytes h.ncmds ++ u32Bytes h.sizeofcmds ++
  u32Bytes h.flags ++ (if ctx.is64 then u32Bytes h.reserved else [])

/-- `buffer.pwrite_with(*header, 0, ctx)`: overwrite the first
`header_size` bytes; errors (scroll `TooBig`) when the buffer is shorter
than a header. -/
def writeHeader (buffer : List Nat) (h : MachHeader) (ctx : MachCtx) :
    Option (List Nat) :=
  if machHeaderSize ctx ≤ buffer.length then
    some (headerBytes ctx h ++ buffer.drop (machHeaderSize ctx))
  else none

/-- `remove_load_command` (`src/macos/install_name_tool.rs`): drain the
command's bytes, decrement `ncmds`/`sizeofcmds` (u32 wrapping, as in a
release build), re-pad with zero bytes after the remaining commands, and
rewrite the header. Out-of-range `drain`/`split_off` panics are `none`. -/
def removeLoadCommand (buffer : List Nat) (header : MachHeader) (ctx : MachCtx)
    (cmdOffset cmdsize : Nat) : Option (List Nat × MachHeader) :=
  if cmdOffset + cmdsize ≤ buffer.length then
    let buffer := buffer.take cmdOffset ++ buffer.drop (cmdOffset + cmdsize)
    let header := { header with
      ncmds := (header.ncmds + 2 ^ 32 - 1) % 2 ^ 32,
      sizeofcmds := (header.sizeofcmds + 2 ^ 32 - cmdsize % 2 ^ 32) % 2 ^ 32 }
    let paddingOffset := machHeaderSize ctx + header.sizeofcmds
    if paddingOffset ≤ buffer.length then
      let buffer := buffer.take paddingOffset ++ List.replicate cmdsize 0 ++
        buffer.drop paddingOffset
      (writeHeader buffer header ctx).map (·, header)
    else none
  else none

/-- `insert_load_command` (`src/macos/install_name_tool.rs`): increment
`ncmds`/`sizeofcmds`, splice the new command bytes in at `offset`, drain
an equal amount of trailing padding when (and only when) enough bytes
follow, and rewrite the header. -/
def insertLoadCommand (buffer : List Nat) (header : MachHeader) (ctx : MachCtx)
    (offset : Nat) (cmdData : List Nat) : Option (List Nat × MachHeader) :=
  let newCmdSize := cmdData.length
  let header := { header with
    ncmds := (header.ncmds + 1) % 2 ^ 32,
    sizeofcmds := (header.sizeofcmds + newCmdSize) % 2 ^ 32 }
  if offset ≤ buffer.length then
    let buffer := buffer.take offset ++ cmdData ++ buffer.drop offset
    let drainStart := machHeaderSize ctx + header.sizeofcmds
    let drainEnd := drainStart + newCmdSize
    let buffer :=
      if drainEnd ≤ buffer.length then
        buffer.take drainStart ++ buffer.drop drainEnd
      else buffer
    (writeHeader buffer header ctx).map (·, header)
  else none

/-- `goblin::mach::load_command` constants for the command kinds the
editor handles. -/
def lcRpath : Nat := 0x8000001C

/-- `LC_ID_DYLIB`. -/
def lcIdDylib : Nat := 0xD

/-- `LC_LOAD_DYLIB`. -/
def lcLoadDylib : Nat := 0xC

/-- `LC_LOAD_WEAK_DYLIB`. -/
def lcLoadWeakDylib : Nat := 0x80000018

/-- `LC_REEXPORT_DYLIB`. -/
def lcReexportDylib : Nat := 0x8000001F

/-- `LC_LAZY_LOAD_DYLIB`. -/
def lcLazyLoadDylib : Nat := 0x20

/-- `LC_LOAD_UPWARD_DYLIB`. -/
def lcLoadUpwardDylib : Nat := 0x80000023

/-- `SIZEOF_RPATH_COMMAND`. -/
def sizeofRpathCommand : Nat := 12

/-- `build_rpath_command`: serialize an `LC_RPATH` command for `path`,
4-byte-rounding the nul-terminated string and aligning the whole command
to the pointer width; fails when the path contains an interior nul
(`CStr::from_bytes_with_nul`). -/
def buildRpathCommand (path : List Nat) (ctx : MachCtx) : Option (List Nat) :=
  if path.contains 0 then none
  else
    let strSize := nextMultipleOf 4 (path.length + 1)
    let cmdsize := alignToCtx (sizeofRpathCommand + strSize) ctx
    some (u32Bytes lcRpath ++ u32Bytes cmdsize ++ u32Bytes sizeofRpathCommand ++
      path ++ [0] ++
      List.replicate (cmdsize - sizeofRpathCommand - path.length - 1) 0)

/-- `build_dylib_command`: serialize a dylib command (24-byte fixed part,
then the nul-terminated name), keeping the old command's kind, timestamp
and versions. -/
def buildDylibCommand (name : List Nat) (cmd timestamp currentVersion
    compatVersion : Nat) (ctx : MachCtx) : Option (List Nat) :=
  if name.contains 0 then none
  else
    let strSize := nextMultipleOf 4 (name.length + 1)
    let cmdsize := alignToCtx (24 + strSize) ctx
    some (u32Bytes cmd ++ u32Bytes cmdsize ++ u32Bytes 24 ++
      u32Bytes timestamp ++ u32Bytes currentVersion ++ u32Bytes compatVersion ++
      name ++ [0] ++ List.replicate (cmdsize - 24 - name.length - 1) 0)

/-- One parsed load-command descriptor: file offset, command kind, and
command size, as in goblin's `LoadCommand` list. -/
structure LC where
  offset : Nat
  cmd : Nat
  cmdsize : Nat
deriving DecidableEq

/-- Modelled from the spec: goblin's Mach-O header parse (`MachO::parse` /
`parse_magic_and_ctx`), restricted to little-endian containers: the magic
selects the pointer width; the header fields are read little-endian. -/
def parseHeader (buf : List Nat) : Option (MachCtx × MachHeader) := do
  let magic ← readU32 buf 0
  let ctx ← if magic = 0xFEEDFACF then some (⟨true⟩ : MachCtx)
    else if magic = 0xFEEDFACE then some (⟨false⟩ : MachCtx)
    else none
  let cputype ← readU32 buf 4
  let cpusubtype ← readU32 buf 8
  let filetype ← readU32 buf 12
  let ncmds ← readU32 buf 16
  let sizeofcmds ← readU32 buf 20
  let flags ← readU32 buf 24
  let reserved ← if ctx.is64 then readU32 buf 28 else some 0
  some (ctx,
    { magic := magic
      cputype := cputype
      cpusubtype := cpusubtype
      filetype := filetype
      ncmds := ncmds
      sizeofcmds := sizeofcmds
      flags := flags
      reserved := reserved })

/-- Modelled from the spec: goblin's sequential load-command table walk:
`ncmds` records, each carrying its kind at offset 0 and its byte size at
offset 4; a record must be at least 8 bytes and lie within the buffer. -/
def parseCmds (buf : List Nat) : Nat → Nat → Option (List LC)
  | 0, _ => some []
  | fuel + 1, off => do
    let cmd ← readU32 buf off
    let cmdsize ← readU32 buf (off + 4)
    if 8 ≤ cmdsize ∧ off + cmdsize ≤ buf.length then
      let rest ← parseCmds buf fuel (off + cmdsize)
      some (⟨off, cmd, cmdsize⟩ :: rest)
    else none

/-- Modelled from the spec: `MachO::parse` reduced to what the editor
consults — the header and the load-command descriptors. -/
def parseImage (buf : List Nat) : Option (MachCtx × MachHeader × List LC) := do
  let (ctx, h) ← parseHeader buf
  let cmds ← parseCmds buf h.ncmds (machHeaderSize ctx)
  some (ctx, h, cmds)

/-- `read_dylib_name`/`read_rpath_path`: the bytes from
`lc.offset + strOff` up to the first nul, bounded by the command's end
(paths are kept as raw bytes; the source converts to `&str` only for the
comparison). -/
def lcReadString (buf : List Nat) (lcOff strOff cmdsize : Nat) : List Nat :=
  ((buf.drop (lcOff + strOff)).take (cmdsize - strOff)).takeWhile (fun b => b ≠ 0)

/-- The name field of a dylib command (offset-of-name at byte 8). -/
def dylibName (buf : List Nat) (lc : LC) : Option (List Nat) :=
  (readU32 buf (lc.offset + 8)).map (fun nameOff =>
    lcReadString buf lc.offset nameOff lc.cmdsize)

/-- The path field of an `LC_RPATH` command (offset-of-path at byte 8). -/
def rpathPath (buf : List Nat) (lc : LC) : Option (List Nat) :=
  (readU32 buf (lc.offset + 8)).map (fun pathOff =>
    lcReadString buf lc.offset pathOff lc.cmdsize)

/-- The dylib-load command kinds matched by the `-change` operation. -/
def isDylibLoadCmd (c : Nat) : Bool :=
  c == lcLoadDylib || c == lcLoadWeakDylib || c == lcReexportDylib ||
  c == lcLazyLoadDylib || c == lcLoadUpwardDylib

/-- One editor operation of `process_single_macho`. -/
inductive EditOp where
  | changeId (newId : List Nat)
  | changeDep (oldName newName : List Nat)
  | changeRpath (oldPath newPath : List Nat)
  | deleteRpath (path : List Nat)
  | addRpath (path : List Nat)
deriving DecidableEq

/-- One editing step of `process_single_macho`
(`src/macos/install_name_tool.rs`): parse the image afresh, locate the
target command (first match wins; no match is the hard `bail!` error),
build the replacement, then remove/insert and rewrite the header. -/
def applyEditOp (buf : List Nat) (op : EditOp) : Option (List Nat) := do
  let (ctx, header, cmds) ← parseImage buf
  match op with
  | .changeId newId => do
    let lc ← cmds.find? (fun lc => lc.cmd == lcIdDylib)
    let timestamp ← readU32 buf (lc.offset + 12)
    let currentVersion ← readU32 buf (lc.offset + 16)
    let compatVersion ← readU32 buf (lc.offset + 20)
    let newCmdBuf ← buildDylibCommand newId lc.cmd timestamp currentVersion
      compatVersion ctx
    let (buf1, h1) ← removeLoadCommand buf header ctx lc.offset lc.cmdsize
    (insertLoadCommand buf1 h1 ctx lc.offset newCmdBuf).map (·.1)
  | .changeDep oldName newName => do
    let lc ← cmds.find? (fun lc =>
      isDylibLoadCmd lc.cmd && dylibName buf lc == some oldName)
    let timestamp ← readU32 buf (lc.offset + 12)
    let currentVersion ← readU32 buf (lc.offset + 16)
    let compatVersion ← readU32 buf (lc.offset + 20)
    let newCmdBuf ← buildDylibCommand newName lc.cmd timestamp currentVersion
      compatVersion ctx
    let (buf1, h1) ← removeLoadCommand buf header ctx lc.offset lc.cmdsize
    (insertLoadCommand buf1 h1 ctx lc.offset newCmdBuf).map (·.1)
  | .changeRpath oldPath newPath => do
    let lc ← cmds.find? (fun lc =>
      lc.cmd == lcRpath && rpathPath buf lc == some oldPath)
    let newCmdBuf ← buildRpathCommand newPath ctx
    let (buf1, h1) ← removeLoadCommand buf header ctx lc.offset lc.cmdsize
    (insertLoadCommand buf1 h1 ctx lc.offset newCmdBuf).map (·.1)
  | .deleteRpath path => do
    let lc ← cmds.find? (fun lc =>
      lc.cmd == lcRpath && rpathPath buf lc == some path)
    (removeLoadCommand buf header ctx lc.offset lc.cmdsize).map (·.1)
  | .addRpath path => do
    let insertOffset := machHeaderSize ctx + header.sizeofcmds
    let newCmdBuf ← buildRpathCommand path ctx
    (insertLoadCommand buf header ctx insertOffset newCmdBuf).map (·.1)

/-- The rpaths of an image, in command-table order (what the `-rpath`,
`-add_rpath`, `-delete_rpath` logic observes). -/
def rpathsOf (buf : List Nat) : Option (List (List Nat)) := do
  let (_, _, cmds) ← parseImage buf
  (cmds.filter (fun lc => lc.cmd == lcRpath)).mapM (rpathPath buf)


theorem u32Bytes_length (v : Nat) : (u32Bytes v).length = 4 := rfl

theorem headerBytes_length (ctx : MachCtx) (h : MachHeader) :
    (headerBytes ctx h).length = machHeaderSize ctx := by
  cases hc : ctx.is64 <;>
    simp [headerBytes, machHeaderSize, hc, u32Bytes]

theorem readU32_cons4 (b0 b1 b2 b3 : Nat) (tl : List Nat) :
    readU32 (b0 :: b1 :: b2 :: b3 :: tl) 0 =
      some (b0 + 256 * b1 + 65536 * b2 + 16777216 * b3) := rfl

theorem readU32_u32Bytes (v : Nat) (rest : List Nat) (hv : v < 2 ^ 32) :
    readU32 (u32Bytes v ++ rest) 0 = some v := by
  show readU32 (v % 256 :: v / 256 % 256 :: v / 65536 % 256 ::
    v / 16777216 % 256 :: rest) 0 = some v
  rw [readU32_cons4]
  congr 1
  omega

theorem readU32_append_right (xs ys : List Nat) (k : Nat) :
    readU32 (xs ++ ys) (xs.length + k) = readU32 ys k := by
  unfold readU32
  rw [List.drop_append k]

theorem exists_cons4_of_le_length (as : List Nat) (h : 4 ≤ as.length) :
    ∃ b0 b1 b2 b3 tl, as = b0 :: b1 :: b2 :: b3 :: tl := by
  match as with
  | b0 :: b1 :: b2 :: b3 :: tl => exact ⟨b0, b1, b2, b3, tl, rfl⟩
  | [] | [_] | [_, _] | [_, _, _] => simp at h

theorem readU32_append_left (xs ys : List Nat) (k : Nat) (h : k + 4 ≤ xs.length) :
    readU32 (xs ++ ys) k = readU32 xs k := by
  unfold readU32
  rw [List.drop_append_eq_append_drop]
  have hk : k ≤ xs.length := by omega
  have h4 : 4 ≤ (xs.drop k).length := by
    rw [List.length_drop]
    omega
  obtain ⟨b0, b1, b2, b3, tl, heq⟩ := exists_cons4_of_le_length _ h4
  rw [heq]
  rfl

theorem readU32_take (xs : List Nat) (m k : Nat) (h : k + 4 ≤ m)
    (hm : m ≤ xs.length) :
    readU32 (xs.take m) k = readU32 xs k := by
  conv_rhs => rw [← List.take_append_drop m xs]
  rw [readU32_append_left]
  rw [List.length_take]
  omega

theorem readU32_lt (buf : List Nat) (off v : Nat)
    (hbytes : ∀ b ∈ buf, b < 256) (h : readU32 buf off = some v) :
    v < 2 ^ 32 := by
  unfold readU32 at h
  cases hd : buf.drop off with
  | nil => rw [hd] at h; simp at h
  | cons b0 tl0 =>
    match tl0, hd with
    | b1 :: b2 :: b3 :: tl, hd =>
      rw [hd] at h
      have hmem : ∀ x ∈ buf.drop off, x < 256 :=
        fun x hx => hbytes x (List.mem_of_mem_drop hx)
      rw [hd] at hmem
      have h0 := hmem b0 (by simp)
      have h1 := hmem b1 (by simp)
      have h2 := hmem b2 (by simp)
      have h3 := hmem b3 (by simp)
      simp only [Option.some.injEq] at h
      omega
    | [], hd => rw [hd] at h; simp at h
    | [_], hd => rw [hd] at h; simp at h
    | [_, _], hd => rw [hd] at h; simp at h

theorem readU32_eq_some_decomp (buf : List Nat) (off v : Nat)
    (hbytes : ∀ b ∈ buf, b < 256) (h : readU32 buf off = some v) :
    buf = buf.take off ++ u32Bytes v ++ (buf.drop (off + 4)) ∧ off + 4 ≤ buf.length := by
  unfold readU32 at h
  cases hd : buf.drop off with
  | nil => rw [hd] at h; simp at h
  | cons b0 tl0 =>
    match tl0, hd with
    | b1 :: b2 :: b3 :: tl, hd =>
      rw [hd] at h
      simp only [Option.some.injEq] at h
      have hmem : ∀ x ∈ buf.drop off, x < 256 :=
        fun x hx => hbytes x (List.mem_of_mem_drop hx)
      rw [hd] at hmem
      have h0 := hmem b0 (by simp)
      have h1 := hmem b1 (by simp)
      have h2 := hmem b2 (by simp)
      have h3 := hmem b3 (by simp)
      have hu : u32Bytes v = [b0, b1, b2, b3] := by
        unfold u32Bytes
        subst h
        simp only [List.cons.injEq, and_true]
        refine ⟨by omega, by omega, by omega, by omega⟩
      have hlen : off ≤ buf.length := by
        by_contra hc
        rw [List.drop_eq_nil_of_le (by omega)] at hd
        simp at hd
      have hdrop4 : buf.drop (off + 4) = tl := by
        have h2 := List.drop_drop 4 off buf
        rw [hd] at h2
        simp only [List.drop_succ_cons, List.drop_zero] at h2
        exact h2.symm
      constructor
      · conv_lhs => rw [← List.take_append_drop off buf]
        rw [hd, hu, hdrop4]
        simp
      · have := congrArg List.length hd
        rw [List.length_drop] at this
        simp at this
        omega
    | [], hd => rw [hd] at h; simp at h
    | [_], hd => rw [hd] at h; simp at h
    | [_, _], hd => rw [hd] at h; simp at h



/-- A serialized load command: at least eight bytes, with its own length
stored little-endian at offset 4. -/
def CmdBlockOk (b : List Nat) : Prop :=
  8 ≤ b.length ∧ readU32 b 4 = some b.length

/-- The command kind stored at offset 0 of a serialized load command. -/
def blockCmd (b : List Nat) : Nat :=
  (readU32 b 0).getD 0

/-- The descriptors of a sequence of serialized load commands laid out
contiguously from `base`. -/
def descsOf (base : Nat) : List (List Nat) → List LC
  | [] => []
  | b :: bs => ⟨base, blockCmd b, b.length⟩ :: descsOf (base + b.length) bs

/-- Total byte size of a list of descriptors. -/
def sumSizes (cmds : List LC) : Nat :=
  (cmds.map LC.cmdsize).sum

/-- The magic number of a container. -/
def magicOf (ctx : MachCtx) : Nat :=
  if ctx.is64 then 0xFEEDFACF else 0xFEEDFACE

theorem descsOf_length (base : Nat) (blocks : List (List Nat)) :
    (descsOf base blocks).length = blocks.length := by
  induction blocks generalizing base with
  | nil => rfl
  | cons b bs ih => simp [descsOf, ih]

theorem sumSizes_descsOf (base : Nat) (blocks : List (List Nat)) :
    sumSizes (descsOf base blocks) = blocks.flatten.length := by
  induction blocks generalizing base with
  | nil => rfl
  | cons b bs ih =>
    simp only [descsOf, sumSizes, List.map_cons, List.sum_cons,
      List.flatten_cons, List.length_append]
    rw [← ih (base + b.length)]
    rfl

theorem readU32_block_isSome (b : List Nat) (k : Nat) (h : k + 4 ≤ b.length) :
    ∃ v, readU32 b k = some v := by
  unfold readU32
  have h4 : 4 ≤ (b.drop k).length := by
    rw [List.length_drop]
    omega
  obtain ⟨b0, b1, b2, b3, tl, heq⟩ := exists_cons4_of_le_length _ h4
  rw [heq]
  exact ⟨_, rfl⟩

theorem parseCmds_decomposed (blocks : List (List Nat)) :
    ∀ (pre tail : List Nat) (buf : List Nat),
      buf = pre ++ blocks.flatten ++ tail →
      (∀ b ∈ blocks, CmdBlockOk b) →
      parseCmds buf blocks.length pre.length = some (descsOf pre.length blocks) := by
  induction blocks with
  | nil =>
    intro pre tail buf hbuf hok
    rfl
  | cons b bs ih =>
    intro pre tail buf hbuf hok
    obtain ⟨hb8, hbsz⟩ := hok b (List.mem_cons_self b bs)
    have hbuf' : buf = pre ++ b ++ (bs.flatten ++ tail) := by
      rw [hbuf, List.flatten_cons]
      simp [List.append_assoc]
    have hcmd : readU32 buf pre.length = some (blockCmd b) := by
      obtain ⟨v, hv⟩ := readU32_block_isSome b 0 (by omega)
      have : readU32 buf pre.length = readU32 b 0 := by
        rw [hbuf', List.append_assoc]
        have := readU32_append_right pre (b ++ (bs.flatten ++ tail)) 0
        simp only [Nat.add_zero] at this
        rw [this]
        exact readU32_append_left b (bs.flatten ++ tail) 0 (by omega)
      rw [this, hv]
      unfold blockCmd
      rw [hv]
      rfl
    have hsz : readU32 buf (pre.length + 4) = some b.length := by
      have : readU32 buf (pre.length + 4) = readU32 b 4 := by
        rw [hbuf', List.append_assoc]
        rw [readU32_append_right pre (b ++ (bs.flatten ++ tail)) 4]
        exact readU32_append_left b (bs.flatten ++ tail) 4 (by omega)
      rw [this, hbsz]
    have hlen : buf.length = pre.length + b.length + (bs.flatten.length + tail.length) := by
      rw [hbuf']
      simp only [List.length_append]
    rw [List.length_cons, parseCmds, hcmd]
    simp only [Option.bind_eq_bind, Option.some_bind, hsz]
    rw [if_pos (⟨hb8, by omega⟩ : 8 ≤ b.length ∧ pre.length + b.length ≤ buf.length)]
    have hrec : parseCmds buf bs.length (pre.length + b.length) =
        some (descsOf (pre.length + b.length) bs) := by
      have := ih (pre ++ b) tail buf (by rw [hbuf']; simp [List.append_assoc])
        (fun b' hb' => hok b' (List.mem_cons_of_mem _ hb'))
      simpa using this
    rw [hrec]
    simp only [Option.some_bind, descsOf]



theorem readU32_skip4 (c rest : List Nat) (k : Nat) (hc : c.length = 4) :
    readU32 (c ++ rest) (4 + k) = readU32 rest k := by
  rw [show 4 + k = c.length + k from by omega]
  exact readU32_append_right c rest k

theorem magicOf_lt (ctx : MachCtx) : magicOf ctx < 2 ^ 32 := by
  cases hc : ctx.is64 <;> simp [magicOf, hc]

theorem parseHeader_headerBytes (ctx : MachCtx) (h : MachHeader) (tail : List Nat)
    (hmagic : h.magic = magicOf ctx)
    (h1 : h.cputype < 2 ^ 32) (h2 : h.cpusubtype < 2 ^ 32)
    (h3 : h.filetype < 2 ^ 32) (h4 : h.ncmds < 2 ^ 32)
    (h5 : h.sizeofcmds < 2 ^ 32) (h6 : h.flags < 2 ^ 32)
    (h7 : h.reserved < 2 ^ 32) (hres : ctx.is64 = false → h.reserved = 0) :
    parseHeader (headerBytes ctx h ++ tail) = some (ctx, h) := by
  have e : headerBytes ctx h ++ tail = u32Bytes h.magic ++ (u32Bytes h.cputype ++
      (u32Bytes h.cpusubtype ++ (u32Bytes h.filetype ++ (u32Bytes h.ncmds ++
      (u32Bytes h.sizeofcmds ++ (u32Bytes h.flags ++
      ((if ctx.is64 then u32Bytes h.reserved else []) ++ tail))))))) := by
    simp [headerBytes, List.append_assoc]
  have hm : h.magic < 2 ^ 32 := hmagic ▸ magicOf_lt ctx
  have r0 : readU32 (headerBytes ctx h ++ tail) 0 = some h.magic := by
    rw [e]; exact readU32_u32Bytes _ _ hm
  have r4 : readU32 (headerBytes ctx h ++ tail) 4 = some h.cputype := by
    rw [e, show (4 : Nat) = 4 + 0 from rfl, readU32_skip4 _ _ _ (u32Bytes_length _)]
    exact readU32_u32Bytes _ _ h1
  have r8 : readU32 (headerBytes ctx h ++ tail) 8 = some h.cpusubtype := by
    rw [e, show (8 : Nat) = 4 + (4 + 0) from rfl, readU32_skip4 _ _ _ (u32Bytes_length _),
      readU32_skip4 _ _ _ (u32Bytes_length _)]
    exact readU32_u32Bytes _ _ h2
  have r12 : readU32 (headerBytes ctx h ++ tail) 12 = some h.filetype := by
    rw [e, show (12 : Nat) = 4 + (4 + (4 + 0)) from rfl, readU32_skip4 _ _ _ (u32Bytes_length _),
      readU32_skip4 _ _ _ (u32Bytes_length _), readU32_skip4 _ _ _ (u32Bytes_length _)]
    exact readU32_u32Bytes _ _ h3
  have r16 : readU32 (headerBytes ctx h ++ tail) 16 = some h.ncmds := by
    rw [e, show (16 : Nat) = 4 + (4 + (4 + (4 + 0))) from rfl,
      readU32_skip4 _ _ _ (u32Bytes_length _), readU32_skip4 _ _ _ (u32Bytes_length _), readU32_skip4 _ _ _ (u32Bytes_length _),
      readU32_skip4 _ _ _ (u32Bytes_length _)]
    exact readU32_u32Bytes _ _ h4
  have r20 : readU32 (headerBytes ctx h ++ tail) 20 = some h.sizeofcmds := by
    rw [e, show (20 : Nat) = 4 + (4 + (4 + (4 + (4 + 0)))) from rfl,
      readU32_skip4 _ _ _ (u32Bytes_length _), readU32_skip4 _ _ _ (u32Bytes_length _), readU32_skip4 _ _ _ (u32Bytes_length _),
      readU32_skip4 _ _ _ (u32Bytes_length _), readU32_skip4 _ _ _ (u32Bytes_length _)]
    exact readU32_u32Bytes _ _ h5
  have r24 : readU32 (headerBytes ctx h ++ tail) 24 = some h.flags := by
    rw [e, show (24 : Nat) = 4 + (4 + (4 + (4 + (4 + (4 + 0))))) from rfl,
      readU32_skip4 _ _ _ (u32Bytes_length _), readU32_skip4 _ _ _ (u32Bytes_length _), readU32_skip4 _ _ _ (u32Bytes_length _),
      readU32_skip4 _ _ _ (u32Bytes_length _), readU32_skip4 _ _ _ (u32Bytes_length _), readU32_skip4 _ _ _ (u32Bytes_length _)]
    exact readU32_u32Bytes _ _ h6
  unfold parseHeader
  rw [r0]
  simp only [Option.bind_eq_bind, Option.some_bind]
  cases hc : ctx.is64 with
  | true =>
    have r28 : readU32 (headerBytes ctx h ++ tail) 28 = some h.reserved := by
      rw [e, show (28 : Nat) = 4 + (4 + (4 + (4 + (4 + (4 + (4 + 0)))))) from rfl,
        readU32_skip4 _ _ _ (u32Bytes_length _), readU32_skip4 _ _ _ (u32Bytes_length _), readU32_skip4 _ _ _ (u32Bytes_length _),
        readU32_skip4 _ _ _ (u32Bytes_length _), readU32_skip4 _ _ _ (u32Bytes_length _), readU32_skip4 _ _ _ (u32Bytes_length _),
        readU32_skip4 _ _ _ (u32Bytes_length _)]
      rw [hc]
      simp only [if_true]
      exact readU32_u32Bytes _ _ h7
    rw [hmagic]
    have hctx : ctx = ⟨true⟩ := by cases ctx; simp_all
    subst hctx
    simp only [magicOf, if_true]
    rw [r4, r8, r12, r16, r20, r24]
    simp only [Option.some_bind]
    rw [r28]
    simp only [Option.some_bind, Option.some.injEq, Prod.mk.injEq]
    refine ⟨trivial, ?_⟩
    have hm' : h.magic = 4277009103 := by rw [hmagic]; rfl
    rw [← hm']
  | false =>
    rw [hmagic]
    have hctx : ctx = ⟨false⟩ := by cases ctx; simp_all
    subst hctx
    simp only [magicOf, if_false]
    norm_num
    rw [r4, r8, r12, r16, r20, r24]
    simp only [Option.some_bind, Option.some.injEq, Prod.mk.injEq]
    refine ⟨trivial, ?_⟩
    have hm' : h.magic = 4277009102 := by rw [hmagic]; rfl
    rw [← hm', ← hres rfl]



theorem parseImage_decomposed (ctx : MachCtx) (h : MachHeader)
    (blocks : List (List Nat)) (rest buf : List Nat)
    (hbuf : buf = headerBytes ctx h ++ blocks.flatten ++ rest)
    (hok : ∀ b ∈ blocks, CmdBlockOk b)
    (hncmds : h.ncmds = blocks.length)
    (hmagic : h.magic = magicOf ctx)
    (h1 : h.cputype < 2 ^ 32) (h2 : h.cpusubtype < 2 ^ 32)
    (h3 : h.filetype < 2 ^ 32) (h4 : h.ncmds < 2 ^ 32)
    (h5 : h.sizeofcmds < 2 ^ 32) (h6 : h.flags < 2 ^ 32)
    (h7 : h.reserved < 2 ^ 32) (hres : ctx.is64 = false → h.reserved = 0) :
    parseImage buf = some (ctx, h, descsOf (machHeaderSize ctx) blocks) := by
  unfold parseImage
  have hph : parseHeader buf = some (ctx, h) := by
    rw [hbuf, List.append_assoc]
    exact parseHeader_headerBytes ctx h _ hmagic h1 h2 h3 h4 h5 h6 h7 hres
  rw [hph]
  simp only [Option.bind_eq_bind, Option.some_bind]
  have hpc : parseCmds buf h.ncmds (machHeaderSize ctx) =
      some (descsOf (machHeaderSize ctx) blocks) := by
    rw [hncmds, show machHeaderSize ctx = (headerBytes ctx h).length from
      (headerBytes_length ctx h).symm]
    exact parseCmds_decomposed blocks (headerBytes ctx h) rest buf hbuf hok
  rw [hpc]
  rfl

theorem readU32_le_length (buf : List Nat) (off v : Nat)
    (h : readU32 buf off = some v) : off + 4 ≤ buf.length := by
  unfold readU32 at h
  cases hd : buf.drop off with
  | nil => rw [hd] at h; simp at h
  | cons b0 tl0 =>
    match tl0, hd with
    | b1 :: b2 :: b3 :: tl, hd =>
      have := congrArg List.length hd
      rw [List.length_drop] at this
      simp at this
      omega
    | [], hd => rw [hd] at h; simp at h
    | [_], hd => rw [hd] at h; simp at h
    | [_, _], hd => rw [hd] at h; simp at h

theorem readU32_drop (buf : List Nat) (off k : Nat) :
    readU32 (buf.drop off) k = readU32 buf (off + k) := by
  unfold readU32
  rw [List.drop_drop]

theorem parseHeader_sound (buf : List Nat) (ctx : MachCtx) (h : MachHeader)
    (hbytes : ∀ b ∈ buf, b < 256) (hp : parseHeader buf = some (ctx, h)) :
    machHeaderSize ctx ≤ buf.length ∧ h.magic = magicOf ctx ∧
    (ctx.is64 = false → h.reserved = 0) ∧
    h.cputype < 2 ^ 32 ∧ h.cpusubtype < 2 ^ 32 ∧ h.filetype < 2 ^ 32 ∧
    h.ncmds < 2 ^ 32 ∧ h.sizeofcmds < 2 ^ 32 ∧ h.flags < 2 ^ 32 ∧
    h.reserved < 2 ^ 32 := by
  unfold parseHeader at hp
  simp only [Option.bind_eq_bind] at hp
  cases r0 : readU32 buf 0 with
  | none => rw [r0] at hp; simp at hp
  | some magic0 =>
  rw [r0] at hp
  simp only [Option.some_bind] at hp
  cases r4 : readU32 buf 4 with
  | none => rw [r4] at hp; simp at hp
  | some cputype0 =>
  rw [r4] at hp
  cases r8 : readU32 buf 8 with
  | none => rw [r8] at hp; simp at hp
  | some cpusubtype0 =>
  rw [r8] at hp
  cases r12 : readU32 buf 12 with
  | none => rw [r12] at hp; simp at hp
  | some filetype0 =>
  rw [r12] at hp
  cases r16 : readU32 buf 16 with
  | none => rw [r16] at hp; simp at hp
  | some ncmds0 =>
  rw [r16] at hp
  cases r20 : readU32 buf 20 with
  | none => rw [r20] at hp; simp at hp
  | some sizeofcmds0 =>
  rw [r20] at hp
  cases r24 : readU32 buf 24 with
  | none => rw [r24] at hp; simp at hp
  | some flags0 =>
  rw [r24] at hp
  by_cases hm64 : magic0 = 0xFEEDFACF
  · rw [if_pos hm64] at hp
    simp only [Option.some_bind] at hp
    cases r28 : readU32 buf 28 with
    | none => rw [r28] at hp; simp at hp
    | some reserved0 =>
    rw [r28] at hp
    simp only [reduceIte, Option.some_bind, Option.some.injEq, Prod.mk.injEq] at hp
    obtain ⟨hctx, hh⟩ := hp
    subst hctx
    subst hh
    have hl := readU32_le_length buf 28 reserved0 r28
    refine ⟨?_, ?_, ?_, ?_, ?_, ?_, ?_, ?_, ?_, ?_⟩
    · simp [machHeaderSize]; omega
    · simp [magicOf, hm64]
    · simp
    · exact readU32_lt buf 4 _ hbytes r4
    · exact readU32_lt buf 8 _ hbytes r8
    · exact readU32_lt buf 12 _ hbytes r12
    · exact readU32_lt buf 16 _ hbytes r16
    · exact readU32_lt buf 20 _ hbytes r20
    · exact readU32_lt buf 24 _ hbytes r24
    · exact readU32_lt buf 28 _ hbytes r28
  · rw [if_neg hm64] at hp
    by_cases hm32 : magic0 = 0xFEEDFACE
    · rw [if_pos hm32] at hp
      simp only [Option.some_bind, Bool.false_eq_true, if_false, Option.some.injEq,
        Prod.mk.injEq] at hp
      obtain ⟨hctx, hh⟩ := hp
      subst hctx
      subst hh
      have hl := readU32_le_length buf 24 flags0 r24
      refine ⟨?_, ?_, ?_, ?_, ?_, ?_, ?_, ?_, ?_, ?_⟩
      · simp [machHeaderSize]; omega
      · simp [magicOf, hm32]
      · exact fun _ => rfl
      · exact readU32_lt buf 4 _ hbytes r4
      · exact readU32_lt buf 8 _ hbytes r8
      · exact readU32_lt buf 12 _ hbytes r12
      · exact readU32_lt buf 16 _ hbytes r16
      · exact readU32_lt buf 20 _ hbytes r20
      · exact readU32_lt buf 24 _ hbytes r24
      · simp
    · rw [if_neg hm32] at hp
      simp at hp


theorem parseCmds_sound (buf : List Nat) :
    ∀ (n off : Nat) (cmds : List LC), parseCmds buf n off = some cmds →
    ∃ blocks : List (List Nat),
      cmds = descsOf off blocks ∧ (∀ b ∈ blocks, CmdBlockOk b) ∧
      blocks.length = n ∧
      buf.drop off = blocks.flatten ++ buf.drop (off + blocks.flatten.length) ∧
      (off ≤ buf.length → off + blocks.flatten.length ≤ buf.length) := by
  intro n
  induction n with
  | zero =>
    intro off cmds hp
    rw [parseCmds] at hp
    refine ⟨[], ?_, by simp, rfl, by simp, by simp⟩
    simp only [Option.some.injEq] at hp
    rw [← hp]
    rfl
  | succ fuel ih =>
    intro off cmds hp
    rw [parseCmds] at hp
    simp only [Option.bind_eq_bind] at hp
    cases rc : readU32 buf off with
    | none => rw [rc] at hp; simp at hp
    | some cmd =>
    rw [rc] at hp
    simp only [Option.some_bind] at hp
    cases rs : readU32 buf (off + 4) with
    | none => rw [rs] at hp; simp at hp
    | some cmdsize =>
    rw [rs] at hp
    simp only [Option.some_bind] at hp
    by_cases hg : 8 ≤ cmdsize ∧ off + cmdsize ≤ buf.length
    case neg => rw [if_neg hg] at hp; simp at hp
    rw [if_pos hg] at hp
    cases hr : parseCmds buf fuel (off + cmdsize) with
    | none => rw [hr] at hp; simp at hp
    | some rest =>
    rw [hr] at hp
    simp only [Option.some_bind, Option.some.injEq] at hp
    obtain ⟨blocks', hdesc, hok, hlen, hdec, hle⟩ := ih (off + cmdsize) rest hr
    have hdlen : cmdsize ≤ (buf.drop off).length := by
      rw [List.length_drop]; omega
    set b : List Nat := (buf.drop off).take cmdsize with hb
    have hblen : b.length = cmdsize := by
      rw [hb, List.length_take]; omega
    have hbr0 : readU32 b 0 = some cmd := by
      rw [hb, readU32_take (buf.drop off) cmdsize 0 (by omega) hdlen,
        readU32_drop]
      simpa using rc
    have hbr4 : readU32 b 4 = some b.length := by
      rw [hb, readU32_take (buf.drop off) cmdsize 4 (by omega) hdlen,
        readU32_drop, hblen]
      exact rs
    refine ⟨b :: blocks', ?_, ?_, ?_, ?_, ?_⟩
    · rw [← hp, descsOf]
      have hcmd : blockCmd b = cmd := by rw [blockCmd, hbr0]; rfl
      rw [hcmd, hblen, ← hdesc]
    · intro x hx
      rcases List.mem_cons.mp hx with hx | hx
      · subst hx
        exact ⟨by omega, hbr4⟩
      · exact hok x hx
    · simp [hlen]
    · have hsplit : buf.drop off = b ++ buf.drop (off + cmdsize) := by
        rw [hb]
        conv_lhs => rw [← List.take_append_drop cmdsize (buf.drop off)]
        rw [List.drop_drop]
      rw [hsplit, hdec]
      simp only [List.flatten_cons, List.append_assoc, List.length_append,
        hblen]
      rw [Nat.add_assoc]
    · intro _
      have := hle (by omega)
      simp only [List.flatten_cons, List.length_append, hblen]
      omega


theorem parseImage_sound (buf : List Nat) (ctx : MachCtx) (h : MachHeader)
    (cmds : List LC) (hbytes : ∀ b ∈ buf, b < 256)
    (hp : parseImage buf = some (ctx, h, cmds)) :
    ∃ blocks : List (List Nat),
      cmds = descsOf (machHeaderSize ctx) blocks ∧
      (∀ b ∈ blocks, CmdBlockOk b) ∧
      blocks.length = h.ncmds ∧
      buf = buf.take (machHeaderSize ctx) ++ blocks.flatten ++
        buf.drop (machHeaderSize ctx + blocks.flatten.length) ∧
      machHeaderSize ctx + blocks.flatten.length ≤ buf.length ∧
      h.magic = magicOf ctx ∧ (ctx.is64 = false → h.reserved = 0) ∧
      h.cputype < 2 ^ 32 ∧ h.cpusubtype < 2 ^ 32 ∧ h.filetype < 2 ^ 32 ∧
      h.ncmds < 2 ^ 32 ∧ h.sizeofcmds < 2 ^ 32 ∧ h.flags < 2 ^ 32 ∧
      h.reserved < 2 ^ 32 := by
  unfold parseImage at hp
  simp only [Option.bind_eq_bind] at hp
  cases hh : parseHeader buf with
  | none => rw [hh] at hp; simp at hp
  | some ph =>
  obtain ⟨ctx0, h0⟩ := ph
  rw [hh] at hp
  simp only [Option.some_bind] at hp
  cases hc : parseCmds buf h0.ncmds (machHeaderSize ctx0) with
  | none => rw [hc] at hp; simp at hp
  | some cmds0 =>
  rw [hc] at hp
  simp only [Option.some_bind, Option.some.injEq, Prod.mk.injEq] at hp
  obtain ⟨hctx, hh0, hcmds⟩ := hp
  subst hctx; subst hh0; subst hcmds
  obtain ⟨hle, hmagic, hres, b1, b2, b3, b4, b5, b6, b7⟩ :=
    parseHeader_sound buf ctx0 h0 hbytes hh
  obtain ⟨blocks, hdesc, hok, hlen, hdec, hlt⟩ :=
    parseCmds_sound buf h0.ncmds (machHeaderSize ctx0) cmds0 hc
  refine ⟨blocks, hdesc, hok, hlen, ?_, hlt hle, hmagic, hres,
    b1, b2, b3, b4, b5, b6, b7⟩
  conv_lhs => rw [← List.take_append_drop (machHeaderSize ctx0) buf]
  rw [hdec, List.append_assoc]

theorem mem_descsOf_split (base : Nat) (blocks : List (List Nat)) (lc : LC)
    (h : lc ∈ descsOf base blocks) :
    ∃ bs1 b bs2, blocks = bs1 ++ b :: bs2 ∧
      lc.offset = base + bs1.flatten.length ∧ lc.cmdsize = b.length ∧
      lc.cmd = blockCmd b := by
  induction blocks generalizing base with
  | nil => simp [descsOf] at h
  | cons b bs ih =>
    rw [descsOf] at h
    rcases List.mem_cons.mp h with h | h
    · exact ⟨[], b, bs, rfl, by rw [h]; simp, by rw [h], by rw [h]⟩
    · obtain ⟨bs1, b0, bs2, hbs, hoff, hsz, hcmd⟩ := ih (base + b.length) h
      exact ⟨b :: bs1, b0, bs2, by rw [hbs]; rfl,
        by rw [hoff]; simp only [List.flatten_cons, List.length_append]; omega,
        hsz, hcmd⟩

theorem nextMultipleOf_ge (n s : Nat) (hn : 0 < n) :
    s ≤ nextMultipleOf n s := by
  unfold nextMultipleOf
  have h1 := Nat.div_add_mod (s + n - 1) n
  have h2 : (s + n - 1) % n < n := Nat.mod_lt _ hn
  have h3 : (s + n - 1) / n * n = n * ((s + n - 1) / n) := Nat.mul_comm _ _
  omega

theorem alignToCtx_ge (s : Nat) (ctx : MachCtx) : s ≤ alignToCtx s ctx := by
  unfold alignToCtx
  cases ctx.is64 <;> simp <;> exact nextMultipleOf_ge _ _ (by omega)


theorem writeHeader_eq (buffer : List Nat) (h : MachHeader) (ctx : MachCtx)
    (hle : machHeaderSize ctx ≤ buffer.length) :
    writeHeader buffer h ctx =
      some (headerBytes ctx h ++ buffer.drop (machHeaderSize ctx)) := by
  unfold writeHeader
  rw [if_pos hle]

/-- The header after a load command of size `sz` is removed (no wrapping). -/
def shrinkHeader (header : MachHeader) (sz : Nat) : MachHeader :=
  { header with ncmds := header.ncmds - 1, sizeofcmds := header.sizeofcmds - sz }

/-- The header after a load command of size `sz` is inserted (no wrapping). -/
def growHeader (header : MachHeader) (sz : Nat) : MachHeader :=
  { header with ncmds := header.ncmds + 1, sizeofcmds := header.sizeofcmds + sz }

theorem removeLoadCommand_decomposed (ctx : MachCtx) (header : MachHeader)
    (hdr bs1f b bs2f rest : List Nat)
    (hhdr : hdr.length = machHeaderSize ctx)
    (hsz : header.sizeofcmds = bs1f.length + b.length + bs2f.length)
    (hn1 : 1 ≤ header.ncmds) (hn2 : header.ncmds < 2 ^ 32)
    (hs2 : header.sizeofcmds < 2 ^ 32) :
    removeLoadCommand (hdr ++ bs1f ++ b ++ bs2f ++ rest) header ctx
        (hdr.length + bs1f.length) b.length =
      some (headerBytes ctx (shrinkHeader header b.length) ++
        (bs1f ++ (bs2f ++ (List.replicate b.length 0 ++ rest))),
        shrinkHeader header b.length) := by
  have hp32 : (2 : Nat) ^ 32 = 4294967296 := by norm_num
  set B : List Nat := hdr ++ bs1f ++ b ++ bs2f ++ rest with hB
  have hlenB : B.length =
      hdr.length + bs1f.length + b.length + bs2f.length + rest.length := by
    rw [hB]; simp [List.length_append]; omega
  have hnc : (header.ncmds + 2 ^ 32 - 1) % 2 ^ 32 = header.ncmds - 1 := by
    rw [hp32] at *; omega
  have hsc : (header.sizeofcmds + 2 ^ 32 - b.length % 2 ^ 32) % 2 ^ 32 =
      header.sizeofcmds - b.length := by
    rw [hp32] at *; omega
  have ht : B.take (hdr.length + bs1f.length) = hdr ++ bs1f := by
    have hB2 : B = (hdr ++ bs1f) ++ (b ++ (bs2f ++ rest)) := by
      rw [hB]; simp [List.append_assoc]
    rw [hB2, List.take_left' (by simp [List.length_append])]
  have hd : B.drop (hdr.length + bs1f.length + b.length) = bs2f ++ rest := by
    have hB2 : B = ((hdr ++ bs1f) ++ b) ++ (bs2f ++ rest) := by
      rw [hB]; simp [List.append_assoc]
    rw [hB2, List.drop_left' (by simp [List.length_append]; try omega)]
  simp only [removeLoadCommand, shrinkHeader]
  rw [if_pos (show hdr.length + bs1f.length + b.length ≤ B.length by omega)]
  rw [ht, hd, hsc, hnc]
  have ht2 : ((hdr ++ bs1f) ++ (bs2f ++ rest)).take
      (machHeaderSize ctx + (header.sizeofcmds - b.length)) =
      (hdr ++ bs1f) ++ bs2f := by
    have hg : (hdr ++ bs1f) ++ (bs2f ++ rest) =
        ((hdr ++ bs1f) ++ bs2f) ++ rest := by simp [List.append_assoc]
    rw [hg, List.take_left' (by simp [List.length_append]; try omega)]
  have hd2 : ((hdr ++ bs1f) ++ (bs2f ++ rest)).drop
      (machHeaderSize ctx + (header.sizeofcmds - b.length)) = rest := by
    have hg : (hdr ++ bs1f) ++ (bs2f ++ rest) =
        ((hdr ++ bs1f) ++ bs2f) ++ rest := by simp [List.append_assoc]
    rw [hg, List.drop_left' (by simp [List.length_append]; try omega)]
  rw [if_pos (show machHeaderSize ctx + (header.sizeofcmds - b.length) ≤
      ((hdr ++ bs1f) ++ (bs2f ++ rest)).length by
    simp [List.length_append]; omega)]
  rw [ht2, hd2]
  rw [writeHeader_eq _ _ _ (show machHeaderSize ctx ≤
      (hdr ++ bs1f ++ bs2f ++ List.replicate b.length 0 ++ rest).length by
    simp [List.length_append]; omega)]
  have hd3 : List.drop (machHeaderSize ctx)
      (hdr ++ bs1f ++ bs2f ++ List.replicate b.length 0 ++ rest) =
      bs1f ++ (bs2f ++ (List.replicate b.length 0 ++ rest)) := by
    have hg : hdr ++ bs1f ++ bs2f ++ List.replicate b.length 0 ++ rest =
        hdr ++ (bs1f ++ (bs2f ++ (List.replicate b.length 0 ++ rest))) := by
      simp [List.append_assoc]
    rw [hg, List.drop_left' hhdr]
  rw [hd3]
  rfl

theorem insertLoadCommand_decomposed (ctx : MachCtx) (header : MachHeader)
    (hdr bs1f newCmd bs2f rest : List Nat)
    (hhdr : hdr.length = machHeaderSize ctx)
    (hsz : header.sizeofcmds = bs1f.length + bs2f.length)
    (hs2 : header.sizeofcmds + newCmd.length < 2 ^ 32)
    (hn2 : header.ncmds + 1 < 2 ^ 32)
    (hdrain : newCmd.length ≤ rest.length) :
    insertLoadCommand (hdr ++ bs1f ++ bs2f ++ rest) header ctx
        (hdr.length + bs1f.length) newCmd =
      some (headerBytes ctx (growHeader header newCmd.length) ++
        (bs1f ++ (newCmd ++ (bs2f ++ rest.drop newCmd.length))),
        growHeader header newCmd.length) := by
  have hp32 : (2 : Nat) ^ 32 = 4294967296 := by norm_num
  set B : List Nat := hdr ++ bs1f ++ bs2f ++ rest with hB
  have hlenB : B.length =
      hdr.length + bs1f.length + bs2f.length + rest.length := by
    rw [hB]; simp [List.length_append]; omega
  have hnc : (header.ncmds + 1) % 2 ^ 32 = header.ncmds + 1 := by
    rw [hp32] at *; omega
  have hsc : (header.sizeofcmds + newCmd.length) % 2 ^ 32 =
      header.sizeofcmds + newCmd.length := by
    rw [hp32] at *; omega
  have ht : B.take (hdr.length + bs1f.length) = hdr ++ bs1f := by
    have hB2 : B = (hdr ++ bs1f) ++ (bs2f ++ rest) := by
      rw [hB]; simp [List.append_assoc]
    rw [hB2, List.take_left' (by simp [List.length_append])]
  have hd : B.drop (hdr.length + bs1f.length) = bs2f ++ rest := by
    have hB2 : B = (hdr ++ bs1f) ++ (bs2f ++ rest) := by
      rw [hB]; simp [List.append_assoc]
    rw [hB2, List.drop_left' (by simp [List.length_append]; try omega)]
  simp only [insertLoadCommand, growHeader]
  rw [hnc, hsc]
  rw [if_pos (show hdr.length + bs1f.length ≤ B.length by omega)]
  rw [ht, hd]
  have hg1 : (hdr ++ bs1f) ++ newCmd ++ (bs2f ++ rest) =
      (((hdr ++ bs1f) ++ newCmd) ++ bs2f) ++ rest := by
    simp [List.append_assoc]
  rw [if_pos (show machHeaderSize ctx +
        (header.sizeofcmds + newCmd.length) + newCmd.length ≤
        ((hdr ++ bs1f) ++ newCmd ++ (bs2f ++ rest)).length by
    simp [List.length_append]; omega)]
  have ht2 : ((hdr ++ bs1f) ++ newCmd ++ (bs2f ++ rest)).take
      (machHeaderSize ctx + (header.sizeofcmds + newCmd.length)) =
      ((hdr ++ bs1f) ++ newCmd) ++ bs2f := by
    rw [hg1, List.take_left' (by simp [List.length_append]; try omega)]
  have hd2 : ((hdr ++ bs1f) ++ newCmd ++ (bs2f ++ rest)).drop
      (machHeaderSize ctx + (header.sizeofcmds + newCmd.length) +
        newCmd.length) = rest.drop newCmd.length := by
    rw [hg1]
    have hlen : ((((hdr ++ bs1f) ++ newCmd) ++ bs2f)).length =
        machHeaderSize ctx + (header.sizeofcmds + newCmd.length) := by
      simp [List.length_append]; omega
    rw [← hlen, List.drop_append]
  rw [ht2, hd2]
  simp only [writeHeader]
  rw [if_pos (show machHeaderSize ctx ≤
      (((hdr ++ bs1f) ++ newCmd) ++ bs2f ++ rest.drop newCmd.length).length by
    simp [List.length_append]; omega)]
  have hd3 : ((((hdr ++ bs1f) ++ newCmd) ++ bs2f) ++ rest.drop newCmd.length).drop
      (machHeaderSize ctx) =
      bs1f ++ (newCmd ++ (bs2f ++ rest.drop newCmd.length)) := by
    have hg : (((hdr ++ bs1f) ++ newCmd) ++ bs2f) ++ rest.drop newCmd.length =
        hdr ++ (bs1f ++ (newCmd ++ (bs2f ++ rest.drop newCmd.length))) := by
      simp [List.append_assoc]
    rw [hg, List.drop_left' hhdr]
  rw [show (((hdr ++ bs1f) ++ newCmd) ++ bs2f ++ rest.drop newCmd.length) =
      ((((hdr ++ bs1f) ++ newCmd) ++ bs2f) ++ rest.drop newCmd.length) from rfl,
    hd3]
  rfl


/-- The nul-terminated string field of a serialized load command, read
relative to the block itself. -/
def blockString (b : List Nat) (strOff : Nat) : List Nat :=
  ((b.drop strOff).take (b.length - strOff)).takeWhile (fun x => x ≠ 0)

/-- The path of a serialized `LC_RPATH` command, read inside the block. -/
def blockRpath (b : List Nat) : Option (List Nat) :=
  (readU32 b 8).map (blockString b)

/-- The path of a serialized `LC_RPATH` command, with a default. -/
def pathOfBlock (b : List Nat) : List Nat :=
  blockString b ((readU32 b 8).getD 0)

/-- The rpath list of a serialized command table. -/
def rpathsBlocks (blocks : List (List Nat)) : List (List Nat) :=
  (blocks.filter (fun b => blockCmd b == lcRpath)).map pathOfBlock

theorem blockRpath_eq_pathOfBlock (b : List Nat) (h12 : 12 ≤ b.length) :
    blockRpath b = some (pathOfBlock b) := by
  have hs := readU32_block_isSome b 8 (by omega)
  cases hr : readU32 b 8 with
  | none => rw [hr] at hs; simp at hs
  | some v => simp [blockRpath, pathOfBlock, hr]

theorem lcReadString_local (pre b suf : List Nat) (strOff : Nat) :
    lcReadString (pre ++ b ++ suf) pre.length strOff b.length =
      blockString b strOff := by
  unfold lcReadString blockString
  congr 1
  have h1 : (pre ++ b ++ suf).drop (pre.length + strOff) =
      (b ++ suf).drop strOff := by
    rw [List.append_assoc, List.drop_append]
  rw [h1, List.drop_append_eq_append_drop, List.take_append_eq_append_take]
  have h2 : (b.drop strOff).length = b.length - strOff := by
    simp [List.length_drop]
  rw [h2, Nat.sub_self, List.take_zero, List.append_nil]

theorem rpathPath_local (pre b suf : List Nat) (c : Nat)
    (h12 : 12 ≤ b.length) :
    rpathPath (pre ++ b ++ suf) ⟨pre.length, c, b.length⟩ = blockRpath b := by
  unfold rpathPath blockRpath
  have hr : readU32 (pre ++ b ++ suf) (pre.length + 8) = readU32 b 8 := by
    rw [List.append_assoc, readU32_append_right]
    exact readU32_append_left b suf 8 (by omega)
  show (readU32 (pre ++ b ++ suf) (pre.length + 8)).map _ = _
  rw [hr]
  cases hv : readU32 b 8 with
  | none => rfl
  | some v =>
    simp only [Option.map_some]
    exact congrArg some (lcReadString_local pre b suf v)

theorem takeWhile_append_zero (p t : List Nat) (hp : ∀ x ∈ p, x ≠ 0) :
    (p ++ 0 :: t).takeWhile (fun x => x ≠ 0) = p := by
  induction p with
  | nil => simp
  | cons a as ih =>
    have ha : a ≠ 0 := hp a (List.mem_cons_self a as)
    simp only [List.cons_append, List.takeWhile_cons]
    rw [if_pos (by simpa using ha)]
    rw [ih (fun x hx => hp x (List.mem_cons_of_mem a hx))]

theorem readU32_in_second_chunk (xs ys : List Nat) (k v : Nat) (hk : xs.length = k)
    (h : readU32 ys 0 = some v) : readU32 (xs ++ ys) k = some v := by
  subst hk
  have := readU32_append_right xs ys 0
  rw [Nat.add_zero] at this
  rw [this, h]

theorem buildRpathCommand_spec (p : List Nat) (ctx : MachCtx) (d : List Nat)
    (hd : buildRpathCommand p ctx = some d)
    (hlt : alignToCtx (sizeofRpathCommand + nextMultipleOf 4 (p.length + 1))
      ctx < 2 ^ 32) :
    d.length = alignToCtx (sizeofRpathCommand + nextMultipleOf 4 (p.length + 1))
      ctx ∧ CmdBlockOk d ∧ blockCmd d = lcRpath ∧ 12 ≤ d.length ∧
    blockRpath d = some p := by
  unfold buildRpathCommand at hd
  by_cases hz : p.contains 0
  · rw [if_pos hz] at hd; simp at hd
  rw [if_neg hz] at hd
  simp only [Option.some.injEq] at hd
  set cs := alignToCtx (sizeofRpathCommand + nextMultipleOf 4 (p.length + 1))
    ctx with hcs
  have hge1 : p.length + 1 ≤ nextMultipleOf 4 (p.length + 1) :=
    nextMultipleOf_ge 4 _ (by omega)
  have hge : sizeofRpathCommand + p.length + 1 ≤ cs := by
    have := alignToCtx_ge (sizeofRpathCommand + nextMultipleOf 4 (p.length + 1))
      ctx
    simp only [sizeofRpathCommand] at *
    omega
  have hdlen : d.length = cs := by
    rw [← hd]
    simp only [List.length_append, u32Bytes, List.length_cons,
      List.length_nil, List.length_replicate, sizeofRpathCommand] at *
    omega
  have hnul : ∀ x ∈ p, x ≠ 0 := by
    intro x hx hx0
    refine hz ?_
    have h0 : (0 : Nat) ∈ p := by rw [← hx0]; exact hx
    simpa using h0
  have hr0 : readU32 d 0 = some lcRpath := by
    rw [← hd]
    have : u32Bytes lcRpath ++ u32Bytes cs ++ u32Bytes sizeofRpathCommand ++
        p ++ [0] ++ List.replicate (cs - sizeofRpathCommand - p.length - 1) 0 =
        u32Bytes lcRpath ++ (u32Bytes cs ++ u32Bytes sizeofRpathCommand ++
          p ++ [0] ++ List.replicate (cs - sizeofRpathCommand - p.length - 1) 0)
        := by simp [List.append_assoc]
    rw [this]
    exact readU32_u32Bytes lcRpath _ (by simp [lcRpath])
  have hr4 : readU32 d 4 = some cs := by
    rw [← hd]
    have : u32Bytes lcRpath ++ u32Bytes cs ++ u32Bytes sizeofRpathCommand ++
        p ++ [0] ++ List.replicate (cs - sizeofRpathCommand - p.length - 1) 0 =
        u32Bytes lcRpath ++ (u32Bytes cs ++ (u32Bytes sizeofRpathCommand ++
          p ++ [0] ++ List.replicate (cs - sizeofRpathCommand - p.length - 1) 0))
        := by simp [List.append_assoc]
    rw [this]
    exact readU32_in_second_chunk _ _ 4 _ (u32Bytes_length _)
      (readU32_u32Bytes cs _ hlt)
  have hr8 : readU32 d 8 = some sizeofRpathCommand := by
    rw [← hd]
    have : u32Bytes lcRpath ++ u32Bytes cs ++ u32Bytes sizeofRpathCommand ++
        p ++ [0] ++ List.replicate (cs - sizeofRpathCommand - p.length - 1) 0 =
        (u32Bytes lcRpath ++ u32Bytes cs) ++ (u32Bytes sizeofRpathCommand ++
          (p ++ [0] ++ List.replicate (cs - sizeofRpathCommand - p.length - 1) 0))
        := by simp [List.append_assoc]
    rw [this]
    exact readU32_in_second_chunk _ _ 8 _ (by simp [u32Bytes])
      (readU32_u32Bytes sizeofRpathCommand _ (by simp [sizeofRpathCommand]))
  refine ⟨hdlen, ⟨by simp only [sizeofRpathCommand] at hge; omega,
    by rw [hr4, hdlen]⟩, by rw [blockCmd, hr0]; rfl,
    by simp only [sizeofRpathCommand] at hge; omega, ?_⟩
  rw [blockRpath, hr8]
  show some (blockString d sizeofRpathCommand) = some p
  refine congrArg some ?_
  unfold blockString
  have hdrop : d.drop sizeofRpathCommand =
      p ++ 0 :: List.replicate (cs - sizeofRpathCommand - p.length - 1) 0 := by
    rw [← hd]
    have : u32Bytes lcRpath ++ u32Bytes cs ++ u32Bytes sizeofRpathCommand ++
        p ++ [0] ++ List.replicate (cs - sizeofRpathCommand - p.length - 1) 0 =
        (u32Bytes lcRpath ++ u32Bytes cs ++ u32Bytes sizeofRpathCommand) ++
          (p ++ 0 :: List.replicate (cs - sizeofRpathCommand - p.length - 1) 0)
        := by simp [List.append_assoc]
    rw [this]
    exact List.drop_left' (by simp [u32Bytes, sizeofRpathCommand])
  rw [hdrop]
  have hlen2 : (p ++ 0 :: List.replicate
      (cs - sizeofRpathCommand - p.length - 1) 0).length =
      d.length - sizeofRpathCommand := by
    simp only [List.length_append, List.length_cons, List.length_replicate,
      sizeofRpathCommand] at *
    omega
  rw [← hlen2, List.take_length]
  exact takeWhile_append_zero p _ hnul

theorem buildDylibCommand_spec (name : List Nat)
    (cmd timestamp currentVersion compatVersion : Nat) (ctx : MachCtx)
    (d : List Nat)
    (hd : buildDylibCommand name cmd timestamp currentVersion compatVersion
      ctx = some d)
    (hlt : alignToCtx (24 + nextMultipleOf 4 (name.length + 1)) ctx < 2 ^ 32) :
    d.length = alignToCtx (24 + nextMultipleOf 4 (name.length + 1)) ctx ∧
    CmdBlockOk d := by
  unfold buildDylibCommand at hd
  by_cases hz : name.contains 0
  · rw [if_pos hz] at hd; simp at hd
  rw [if_neg hz] at hd
  simp only [Option.some.injEq] at hd
  set cs := alignToCtx (24 + nextMultipleOf 4 (name.length + 1)) ctx with hcs
  have hge1 : name.length + 1 ≤ nextMultipleOf 4 (name.length + 1) :=
    nextMultipleOf_ge 4 _ (by omega)
  have hge : 24 + name.length + 1 ≤ cs := by
    have := alignToCtx_ge (24 + nextMultipleOf 4 (name.length + 1)) ctx
    omega
  have hdlen : d.length = cs := by
    rw [← hd]
    simp only [List.length_append, u32Bytes, List.length_cons,
      List.length_nil, List.length_replicate] at *
    omega
  have hr4 : readU32 d 4 = some cs := by
    rw [← hd]
    have : u32Bytes cmd ++ u32Bytes cs ++ u32Bytes 24 ++ u32Bytes timestamp ++
        u32Bytes currentVersion ++ u32Bytes compatVersion ++
        name ++ [0] ++ List.replicate (cs - 24 - name.length - 1) 0 =
        u32Bytes cmd ++ (u32Bytes cs ++ (u32Bytes 24 ++ u32Bytes timestamp ++
          u32Bytes currentVersion ++ u32Bytes compatVersion ++
          name ++ [0] ++ List.replicate (cs - 24 - name.length - 1) 0)) := by
      simp [List.append_assoc]
    rw [this]
    exact readU32_in_second_chunk _ _ 4 _ (u32Bytes_length _)
      (readU32_u32Bytes cs _ hlt)
  exact ⟨hdlen, ⟨by omega, by rw [hr4, hdlen]⟩⟩
theorem block_mem_descsOf (blocks : List (List Nat)) :
    ∀ (base : Nat) (b : List Nat), b ∈ blocks →
    ∃ off, (⟨off, blockCmd b, b.length⟩ : LC) ∈ descsOf base blocks := by
  induction blocks with
  | nil => intro base b h; simp at h
  | cons x xs ih =>
    intro base b h
    rcases List.mem_cons.mp h with h | h
    · subst h
      exact ⟨base, by rw [descsOf]; exact List.mem_cons_self _ _⟩
    · obtain ⟨off, hmem⟩ := ih (base + x.length) b h
      exact ⟨off, by rw [descsOf]; exact List.mem_cons_of_mem _ hmem⟩

theorem mapM_rpath_descsOf (blocks : List (List Nat)) :
    ∀ (pre rest buf : List Nat),
    buf = pre ++ blocks.flatten ++ rest →
    (∀ b ∈ blocks, blockCmd b = lcRpath → 12 ≤ b.length) →
    ((descsOf pre.length blocks).filter (fun lc => lc.cmd == lcRpath)).mapM
        (rpathPath buf) = some (rpathsBlocks blocks) := by
  induction blocks with
  | nil => intro pre rest buf _ _; rfl
  | cons b bs ih =>
    intro pre rest buf hbuf hrp
    have hbuf2 : buf = (pre ++ b) ++ bs.flatten ++ rest := by
      rw [hbuf]; simp [List.flatten_cons, List.append_assoc]
    have hih := ih (pre ++ b) rest buf hbuf2
      (fun x hx h => hrp x (List.mem_cons_of_mem b hx) h)
    rw [List.length_append] at hih
    by_cases hcmd : blockCmd b = lcRpath
    · have hpath : rpathPath buf ⟨pre.length, blockCmd b, b.length⟩ =
          some (pathOfBlock b) := by
        have h12 : 12 ≤ b.length := hrp b (List.mem_cons_self b bs) hcmd
        have hbuf3 : buf = pre ++ b ++ (bs.flatten ++ rest) := by
          rw [hbuf]; simp [List.flatten_cons, List.append_assoc]
        rw [hbuf3, rpathPath_local pre b (bs.flatten ++ rest) (blockCmd b) h12]
        exact blockRpath_eq_pathOfBlock b h12
      have hfc : (descsOf pre.length (b :: bs)).filter
          (fun lc => lc.cmd == lcRpath) =
          (⟨pre.length, blockCmd b, b.length⟩ : LC) ::
            (descsOf (pre.length + b.length) bs).filter
              (fun lc => lc.cmd == lcRpath) := by
        rw [descsOf]
        rw [List.filter_cons_of_pos]
        simp [hcmd]
      have hrb : rpathsBlocks (b :: bs) = pathOfBlock b :: rpathsBlocks bs := by
        rw [rpathsBlocks, rpathsBlocks, List.filter_cons_of_pos, List.map_cons]
        simp [hcmd]
      rw [hfc, List.mapM_cons]
      simp only [Option.bind_eq_bind]
      rw [hpath]
      simp only [Option.some_bind]
      rw [hih]
      simp only [Option.some_bind]
      rw [hrb]
      rfl
    · have hfc : (descsOf pre.length (b :: bs)).filter
          (fun lc => lc.cmd == lcRpath) =
          (descsOf (pre.length + b.length) bs).filter
            (fun lc => lc.cmd == lcRpath) := by
        rw [descsOf]
        rw [List.filter_cons_of_neg]
        simp [hcmd]
      have hrb : rpathsBlocks (b :: bs) = rpathsBlocks bs := by
        rw [rpathsBlocks, rpathsBlocks, List.filter_cons_of_neg]
        simp [hcmd]
      rw [hfc, hih, hrb]


/-- The byte size of the command an edit operation inserts (zero for a
pure deletion), as produced by `build_rpath_command`/`build_dylib_command`. -/
def opGrow (ctx : MachCtx) (op : EditOp) : Nat :=
  match op with
  | .changeId newId => alignToCtx (24 + nextMultipleOf 4 (newId.length + 1)) ctx
  | .changeDep _ newName =>
      alignToCtx (24 + nextMultipleOf 4 (newName.length + 1)) ctx
  | .changeRpath _ newPath =>
      alignToCtx (sizeofRpathCommand + nextMultipleOf 4 (newPath.length + 1)) ctx
  | .deleteRpath _ => 0
  | .addRpath path =>
      alignToCtx (sizeofRpathCommand + nextMultipleOf 4 (path.length + 1)) ctx

theorem remove_on_split (ctx : MachCtx) (h : MachHeader) (pre tail : List Nat)
    (bs1 bs2 : List (List Nat)) (b : List Nat)
    (hpre : pre.length = machHeaderSize ctx)
    (hsz : h.sizeofcmds = bs1.flatten.length + b.length + bs2.flatten.length)
    (hn1 : 1 ≤ h.ncmds) (hn2 : h.ncmds < 2 ^ 32)
    (hs2 : h.sizeofcmds < 2 ^ 32) :
    removeLoadCommand (pre ++ (bs1 ++ b :: bs2).flatten ++ tail) h ctx
        (pre.length + bs1.flatten.length) b.length =
      some (headerBytes ctx (shrinkHeader h b.length) ++
        (bs1.flatten ++ (bs2.flatten ++ (List.replicate b.length 0 ++ tail))),
        shrinkHeader h b.length) := by
  have hshape : pre ++ (bs1 ++ b :: bs2).flatten ++ tail =
      pre ++ bs1.flatten ++ b ++ bs2.flatten ++ tail := by
    simp [List.flatten_append, List.flatten_cons, List.append_assoc]
  rw [hshape]
  exact removeLoadCommand_decomposed ctx h pre bs1.flatten b bs2.flatten tail
    hpre hsz hn1 hn2 hs2

theorem insert_after_remove (ctx : MachCtx) (h1 : MachHeader)
    (bs1f bs2f mid newCmd : List Nat)
    (hsz : h1.sizeofcmds = bs1f.length + bs2f.length)
    (hs2 : h1.sizeofcmds + newCmd.length < 2 ^ 32)
    (hn2 : h1.ncmds + 1 < 2 ^ 32)
    (hdrain : newCmd.length ≤ mid.length)
    (off : Nat) (hoff : off = machHeaderSize ctx + bs1f.length) :
    insertLoadCommand (headerBytes ctx h1 ++ (bs1f ++ (bs2f ++ mid))) h1 ctx
        off newCmd =
      some (headerBytes ctx (growHeader h1 newCmd.length) ++
        (bs1f ++ (newCmd ++ (bs2f ++ mid.drop newCmd.length))),
        growHeader h1 newCmd.length) := by
  have hshape : headerBytes ctx h1 ++ (bs1f ++ (bs2f ++ mid)) =
      headerBytes ctx h1 ++ bs1f ++ bs2f ++ mid := by
    simp [List.append_assoc]
  rw [hshape, hoff, show machHeaderSize ctx + bs1f.length =
    (headerBytes ctx h1).length + bs1f.length from by rw [headerBytes_length]]
  exact insertLoadCommand_decomposed ctx h1 (headerBytes ctx h1) bs1f newCmd
    bs2f mid (headerBytes_length ctx h1) hsz hs2 hn2 hdrain

theorem insert_at_end (ctx : MachCtx) (h : MachHeader) (pre tail : List Nat)
    (blocks : List (List Nat)) (newCmd : List Nat)
    (hpre : pre.length = machHeaderSize ctx)
    (hsz : h.sizeofcmds = blocks.flatten.length)
    (hs2 : h.sizeofcmds + newCmd.length < 2 ^ 32)
    (hn2 : h.ncmds + 1 < 2 ^ 32)
    (hdrain : newCmd.length ≤ tail.length) :
    insertLoadCommand (pre ++ blocks.flatten ++ tail) h ctx
        (machHeaderSize ctx + h.sizeofcmds) newCmd =
      some (headerBytes ctx (growHeader h newCmd.length) ++
        (blocks.flatten ++ (newCmd ++ tail.drop newCmd.length)),
        growHeader h newCmd.length) := by
  have hoff : machHeaderSize ctx + h.sizeofcmds =
      pre.length + blocks.flatten.length := by
    rw [hpre, hsz]
  have hshape : pre ++ blocks.flatten ++ tail =
      pre ++ blocks.flatten ++ [] ++ tail := by simp
  rw [hoff, hshape]
  have := insertLoadCommand_decomposed ctx h pre blocks.flatten newCmd []
    tail hpre (by rw [hsz]; simp) hs2 hn2 hdrain
  simpa using this

/-- C3: for a well-formed Mach-O image (parse succeeds; the header
invariant `sizeofcmds = sum of command sizes` holds; the counters do not
wrap; and at least the size of any command the edit inserts is available
as slack after the command table), every successful single edit keeps the
total buffer length and leaves `ncmds`/`sizeofcmds` equal to the count
and total byte size of the load commands present after the edit. The
slack hypothesis is forced by `c3_counterexample`. -/
theorem c3_edit_preserves_layout (buf out : List Nat) (op : EditOp)
    (ctx : MachCtx) (h : MachHeader) (cmds : List LC)
    (hbytes : ∀ x ∈ buf, x < 256)
    (hparse : parseImage buf = some (ctx, h, cmds))
    (hsz : h.sizeofcmds = sumSizes cmds)
    (hn1 : h.ncmds + 1 < 2 ^ 32)
    (hs1 : h.sizeofcmds + opGrow ctx op < 2 ^ 32)
    (hslack : machHeaderSize ctx + h.sizeofcmds + opGrow ctx op ≤ buf.length)
    (hout : applyEditOp buf op = some out) :
    out.length = buf.length ∧
    ∃ h2 cmds2, parseImage out = some (ctx, h2, cmds2) ∧
      h2.ncmds = cmds2.length ∧ h2.sizeofcmds = sumSizes cmds2 := by
  obtain ⟨blocks, hdesc, hok, hlen, hdec, hle, hmagic, hres,
    bb1, bb2, bb3, bb4, bb5, bb6, bb7⟩ :=
    parseImage_sound buf ctx h cmds hbytes hparse
  set pre : List Nat := buf.take (machHeaderSize ctx) with hpre_def
  set tail : List Nat := buf.drop (machHeaderSize ctx + blocks.flatten.length)
    with htail_def
  have hpre : pre.length = machHeaderSize ctx := by
    rw [hpre_def, List.length_take]
    omega
  have htail : tail.length =
      buf.length - (machHeaderSize ctx + blocks.flatten.length) := by
    rw [htail_def, List.length_drop]
  have hflat : h.sizeofcmds = blocks.flatten.length := by
    rw [hsz, hdesc, sumSizes_descsOf]
  cases op with
  | changeId newId =>
    unfold applyEditOp at hout
    rw [hparse] at hout
    simp only [Option.bind_eq_bind, Option.some_bind] at hout
    cases hfind : cmds.find? (fun lc => lc.cmd == lcIdDylib) with
    | none => rw [hfind] at hout; simp at hout
    | some lc =>
    rw [hfind] at hout
    simp only [Option.some_bind] at hout
    cases hts : readU32 buf (lc.offset + 12) with
    | none => rw [hts] at hout; simp at hout
    | some ts =>
    rw [hts] at hout
    simp only [Option.some_bind] at hout
    cases hcv : readU32 buf (lc.offset + 16) with
    | none => rw [hcv] at hout; simp at hout
    | some cv =>
    rw [hcv] at hout
    simp only [Option.some_bind] at hout
    cases hcp : readU32 buf (lc.offset + 20) with
    | none => rw [hcp] at hout; simp at hout
    | some cp =>
    rw [hcp] at hout
    simp only [Option.some_bind] at hout
    cases hbld : buildDylibCommand newId lc.cmd ts cv cp ctx with
    | none => rw [hbld] at hout; simp at hout
    | some newCmd =>
    rw [hbld] at hout
    simp only [Option.some_bind] at hout
    have hmem := List.mem_of_find?_eq_some hfind
    rw [hdesc] at hmem
    obtain ⟨bs1, b, bs2, hsplit, hoff, hcsz, hcmdeq⟩ :=
      mem_descsOf_split _ _ _ hmem
    obtain ⟨hbldlen, hbok⟩ := buildDylibCommand_spec newId lc.cmd ts cv cp ctx
      newCmd hbld (by simp only [opGrow] at hs1; omega)
    have hgrow : newCmd.length = opGrow ctx (.changeId newId) := by
      rw [hbldlen]; rfl
    have hsum : h.sizeofcmds =
        bs1.flatten.length + b.length + bs2.flatten.length := by
      rw [hflat, hsplit]
      simp [List.flatten_append, List.flatten_cons]
      omega
    have hn0 : 1 ≤ h.ncmds := by
      rw [← hlen, hsplit]
      simp
      omega
    rw [hdec, hsplit, hoff, hcsz, ← hpre] at hout
    rw [remove_on_split ctx h pre tail bs1 bs2 b hpre hsum hn0 (by omega)
      bb5] at hout
    simp only [Option.some_bind] at hout
    rw [insert_after_remove ctx (shrinkHeader h b.length) bs1.flatten
      bs2.flatten (List.replicate b.length 0 ++ tail) newCmd
      (by simp only [shrinkHeader]; omega)
      (by simp only [shrinkHeader]; omega)
      (by simp only [shrinkHeader]; omega)
      (by rw [List.length_append, List.length_replicate, htail]; omega)
      (pre.length + bs1.flatten.length) (by rw [hpre])] at hout
    simp only [Option.map_some', Option.some.injEq] at hout
    subst hout
    refine ⟨?_, growHeader (shrinkHeader h b.length) newCmd.length,
      descsOf (machHeaderSize ctx) (bs1 ++ newCmd :: bs2), ?_, ?_, ?_⟩
    · simp only [List.length_append, headerBytes_length, List.length_drop,
        List.length_replicate]
      omega
    · refine parseImage_decomposed ctx _ (bs1 ++ newCmd :: bs2)
        ((List.replicate b.length 0 ++ tail).drop newCmd.length) _
        (by simp [List.flatten_append, List.flatten_cons, List.append_assoc])
        ?_ ?_ ?_ ?_ ?_ ?_ ?_ ?_ ?_ ?_ ?_
      · intro x hx
        rcases List.mem_append.mp hx with hx | hx
        · exact hok x (by rw [hsplit]; exact List.mem_append_left _ hx)
        · rcases List.mem_cons.mp hx with hx | hx
          · rw [hx]; exact hbok
          · exact hok x (by rw [hsplit]; exact
              List.mem_append_right _ (List.mem_cons_of_mem _ hx))
      · have hbl : blocks.length = bs1.length + 1 + bs2.length := by
          rw [hsplit]; simp; omega
        simp only [growHeader, shrinkHeader, List.length_append,
          List.length_cons]
        omega
      · simpa [growHeader, shrinkHeader] using hmagic
      · simpa [growHeader, shrinkHeader] using bb1
      · simpa [growHeader, shrinkHeader] using bb2
      · simpa [growHeader, shrinkHeader] using bb3
      · simp only [growHeader, shrinkHeader]
        omega
      · simp only [growHeader, shrinkHeader]
        omega
      · simpa [growHeader, shrinkHeader] using bb6
      · simpa [growHeader, shrinkHeader] using bb7
      · intro hf
        simpa [growHeader, shrinkHeader] using hres hf
    · rw [descsOf_length]
      simp only [growHeader, shrinkHeader, List.length_append,
        List.length_cons]
      have hbl : blocks.length = bs1.length + 1 + bs2.length := by
        rw [hsplit]; simp; omega
      omega
    · rw [sumSizes_descsOf]
      simp only [growHeader, shrinkHeader, List.flatten_append,
        List.flatten_cons, List.length_append]
      omega
  | changeDep oldName newName =>
    unfold applyEditOp at hout
    rw [hparse] at hout
    simp only [Option.bind_eq_bind, Option.some_bind] at hout
    cases hfind : cmds.find? (fun lc =>
        isDylibLoadCmd lc.cmd && dylibName buf lc == some oldName) with
    | none => rw [hfind] at hout; simp at hout
    | some lc =>
    rw [hfind] at hout
    simp only [Option.some_bind] at hout
    cases hts : readU32 buf (lc.offset + 12) with
    | none => rw [hts] at hout; simp at hout
    | some ts =>
    rw [hts] at hout
    simp only [Option.some_bind] at hout
    cases hcv : readU32 buf (lc.offset + 16) with
    | none => rw [hcv] at hout; simp at hout
    | some cv =>
    rw [hcv] at hout
    simp only [Option.some_bind] at hout
    cases hcp : readU32 buf (lc.offset + 20) with
    | none => rw [hcp] at hout; simp at hout
    | some cp =>
    rw [hcp] at hout
    simp only [Option.some_bind] at hout
    cases hbld : buildDylibCommand newName lc.cmd ts cv cp ctx with
    | none => rw [hbld] at hout; simp at hout
    | some newCmd =>
    rw [hbld] at hout
    simp only [Option.some_bind] at hout
    have hmem := List.mem_of_find?_eq_some hfind
    rw [hdesc] at hmem
    obtain ⟨bs1, b, bs2, hsplit, hoff, hcsz, hcmdeq⟩ :=
      mem_descsOf_split _ _ _ hmem
    obtain ⟨hbldlen, hbok⟩ := buildDylibCommand_spec newName lc.cmd ts cv cp
      ctx newCmd hbld (by simp only [opGrow] at hs1; omega)
    have hgrow : newCmd.length = opGrow ctx (.changeDep oldName newName) := by
      rw [hbldlen]; rfl
    have hsum : h.sizeofcmds =
        bs1.flatten.length + b.length + bs2.flatten.length := by
      rw [hflat, hsplit]
      simp [List.flatten_append, List.flatten_cons]
      omega
    have hn0 : 1 ≤ h.ncmds := by
      rw [← hlen, hsplit]
      simp
      omega
    rw [hdec, hsplit, hoff, hcsz, ← hpre] at hout
    rw [remove_on_split ctx h pre tail bs1 bs2 b hpre hsum hn0 (by omega)
      bb5] at hout
    simp only [Option.some_bind] at hout
    rw [insert_after_remove ctx (shrinkHeader h b.length) bs1.flatten
      bs2.flatten (List.replicate b.length 0 ++ tail) newCmd
      (by simp only [shrinkHeader]; omega)
      (by simp only [shrinkHeader]; omega)
      (by simp only [shrinkHeader]; omega)
      (by rw [List.length_append, List.length_replicate, htail]; omega)
      (pre.length + bs1.flatten.length) (by rw [hpre])] at hout
    simp only [Option.map_some', Option.some.injEq] at hout
    subst hout
    refine ⟨?_, growHeader (shrinkHeader h b.length) newCmd.length,
      descsOf (machHeaderSize ctx) (bs1 ++ newCmd :: bs2), ?_, ?_, ?_⟩
    · simp only [List.length_append, headerBytes_length, List.length_drop,
        List.length_replicate]
      omega
    · refine parseImage_decomposed ctx _ (bs1 ++ newCmd :: bs2)
        ((List.replicate b.length 0 ++ tail).drop newCmd.length) _
        (by simp [List.flatten_append, List.flatten_cons, List.append_assoc])
        ?_ ?_ ?_ ?_ ?_ ?_ ?_ ?_ ?_ ?_ ?_
      · intro x hx
        rcases List.mem_append.mp hx with hx | hx
        · exact hok x (by rw [hsplit]; exact List.mem_append_left _ hx)
        · rcases List.mem_cons.mp hx with hx | hx
          · rw [hx]; exact hbok
          · exact hok x (by rw [hsplit]; exact
              List.mem_append_right _ (List.mem_cons_of_mem _ hx))
      · have hbl : blocks.length = bs1.length + 1 + bs2.length := by
          rw [hsplit]; simp; omega
        simp only [growHeader, shrinkHeader, List.length_append,
          List.length_cons]
        omega
      · simpa [growHeader, shrinkHeader] using hmagic
      · simpa [growHeader, shrinkHeader] using bb1
      · simpa [growHeader, shrinkHeader] using bb2
      · simpa [growHeader, shrinkHeader] using bb3
      · simp only [growHeader, shrinkHeader]
        omega
      · simp only [growHeader, shrinkHeader]
        omega
      · simpa [growHeader, shrinkHeader] using bb6
      · simpa [growHeader, shrinkHeader] using bb7
      · intro hf
        simpa [growHeader, shrinkHeader] using hres hf
    · rw [descsOf_length]
      simp only [growHeader, shrinkHeader, List.length_append,
        List.length_cons]
      have hbl : blocks.length = bs1.length + 1 + bs2.length := by
        rw [hsplit]; simp; omega
      omega
    · rw [sumSizes_descsOf]
      simp only [growHeader, shrinkHeader, List.flatten_append,
        List.flatten_cons, List.length_append]
      omega
  | changeRpath oldPath newPath =>
    unfold applyEditOp at hout
    rw [hparse] at hout
    simp only [Option.bind_eq_bind, Option.some_bind] at hout
    cases hfind : cmds.find? (fun lc =>
        lc.cmd == lcRpath && rpathPath buf lc == some oldPath) with
    | none => rw [hfind] at hout; simp at hout
    | some lc =>
    rw [hfind] at hout
    simp only [Option.some_bind] at hout
    cases hbld : buildRpathCommand newPath ctx with
    | none => rw [hbld] at hout; simp at hout
    | some newCmd =>
    rw [hbld] at hout
    simp only [Option.some_bind] at hout
    have hmem := List.mem_of_find?_eq_some hfind
    rw [hdesc] at hmem
    obtain ⟨bs1, b, bs2, hsplit, hoff, hcsz, hcmdeq⟩ :=
      mem_descsOf_split _ _ _ hmem
    obtain ⟨hbldlen, hbok, _, _, _⟩ := buildRpathCommand_spec newPath ctx
      newCmd hbld (by simp only [opGrow] at hs1; omega)
    have hgrow : newCmd.length = opGrow ctx (.changeRpath oldPath newPath) := by
      rw [hbldlen]; rfl
    have hsum : h.sizeofcmds =
        bs1.flatten.length + b.length + bs2.flatten.length := by
      rw [hflat, hsplit]
      simp [List.flatten_append, List.flatten_cons]
      omega
    have hn0 : 1 ≤ h.ncmds := by
      rw [← hlen, hsplit]
      simp
      omega
    rw [hdec, hsplit, hoff, hcsz, ← hpre] at hout
    rw [remove_on_split ctx h pre tail bs1 bs2 b hpre hsum hn0 (by omega)
      bb5] at hout
    simp only [Option.some_bind] at hout
    rw [insert_after_remove ctx (shrinkHeader h b.length) bs1.flatten
      bs2.flatten (List.replicate b.length 0 ++ tail) newCmd
      (by simp only [shrinkHeader]; omega)
      (by simp only [shrinkHeader]; omega)
      (by simp only [shrinkHeader]; omega)
      (by rw [List.length_append, List.length_replicate, htail]; omega)
      (pre.length + bs1.flatten.length) (by rw [hpre])] at hout
    simp only [Option.map_some', Option.some.injEq] at hout
    subst hout
    refine ⟨?_, growHeader (shrinkHeader h b.length) newCmd.length,
      descsOf (machHeaderSize ctx) (bs1 ++ newCmd :: bs2), ?_, ?_, ?_⟩
    · simp only [List.length_append, headerBytes_length, List.length_drop,
        List.length_replicate]
      omega
    · refine parseImage_decomposed ctx _ (bs1 ++ newCmd :: bs2)
        ((List.replicate b.length 0 ++ tail).drop newCmd.length) _
        (by simp [List.flatten_append, List.flatten_cons, List.append_assoc])
        ?_ ?_ ?_ ?_ ?_ ?_ ?_ ?_ ?_ ?_ ?_
      · intro x hx
        rcases List.mem_append.mp hx with hx | hx
        · exact hok x (by rw [hsplit]; exact List.mem_append_left _ hx)
        · rcases List.mem_cons.mp hx with hx | hx
          · rw [hx]; exact hbok
          · exact hok x (by rw [hsplit]; exact
              List.mem_append_right _ (List.mem_cons_of_mem _ hx))
      · have hbl : blocks.length = bs1.length + 1 + bs2.length := by
          rw [hsplit]; simp; omega
        simp only [growHeader, shrinkHeader, List.length_append,
          List.length_cons]
        omega
      · simpa [growHeader, shrinkHeader] using hmagic
      · simpa [growHeader, shrinkHeader] using bb1
      · simpa [growHeader, shrinkHeader] using bb2
      · simpa [growHeader, shrinkHeader] using bb3
      · simp only [growHeader, shrinkHeader]
        omega
      · simp only [growHeader, shrinkHeader]
        omega
      · simpa [growHeader, shrinkHeader] using bb6
      · simpa [growHeader, shrinkHeader] using bb7
      · intro hf
        simpa [growHeader, shrinkHeader] using hres hf
    · rw [descsOf_length]
      simp only [growHeader, shrinkHeader, List.length_append,
        List.length_cons]
      have hbl : blocks.length = bs1.length + 1 + bs2.length := by
        rw [hsplit]; simp; omega
      omega
    · rw [sumSizes_descsOf]
      simp only [growHeader, shrinkHeader, List.flatten_append,
        List.flatten_cons, List.length_append]
      omega
  | deleteRpath path =>
    unfold applyEditOp at hout
    rw [hparse] at hout
    simp only [Option.bind_eq_bind, Option.some_bind] at hout
    cases hfind : cmds.find? (fun lc =>
        lc.cmd == lcRpath && rpathPath buf lc == some path) with
    | none => rw [hfind] at hout; simp at hout
    | some lc =>
    rw [hfind] at hout
    simp only [Option.some_bind] at hout
    have hmem := List.mem_of_find?_eq_some hfind
    rw [hdesc] at hmem
    obtain ⟨bs1, b, bs2, hsplit, hoff, hcsz, hcmdeq⟩ :=
      mem_descsOf_split _ _ _ hmem
    have hsum : h.sizeofcmds =
        bs1.flatten.length + b.length + bs2.flatten.length := by
      rw [hflat, hsplit]
      simp [List.flatten_append, List.flatten_cons]
      omega
    have hn0 : 1 ≤ h.ncmds := by
      rw [← hlen, hsplit]
      simp
      omega
    rw [hdec, hsplit, hoff, hcsz, ← hpre] at hout
    rw [remove_on_split ctx h pre tail bs1 bs2 b hpre hsum hn0 (by omega)
      bb5] at hout
    simp only [Option.map_some', Option.some.injEq] at hout
    subst hout
    refine ⟨?_, shrinkHeader h b.length,
      descsOf (machHeaderSize ctx) (bs1 ++ bs2), ?_, ?_, ?_⟩
    · simp only [List.length_append, headerBytes_length,
        List.length_replicate]
      omega
    · refine parseImage_decomposed ctx _ (bs1 ++ bs2)
        (List.replicate b.length 0 ++ tail) _
        (by simp [List.flatten_append, List.flatten_cons, List.append_assoc])
        ?_ ?_ ?_ ?_ ?_ ?_ ?_ ?_ ?_ ?_ ?_
      · intro x hx
        rcases List.mem_append.mp hx with hx | hx
        · exact hok x (by rw [hsplit]; exact List.mem_append_left _ hx)
        · exact hok x (by rw [hsplit]; exact
            List.mem_append_right _ (List.mem_cons_of_mem _ hx))
      · have hbl : blocks.length = bs1.length + 1 + bs2.length := by
          rw [hsplit]; simp; omega
        simp only [shrinkHeader, List.length_append]
        omega
      · simpa [shrinkHeader] using hmagic
      · simpa [shrinkHeader] using bb1
      · simpa [shrinkHeader] using bb2
      · simpa [shrinkHeader] using bb3
      · simp only [shrinkHeader]
        omega
      · simp only [shrinkHeader]
        omega
      · simpa [shrinkHeader] using bb6
      · simpa [shrinkHeader] using bb7
      · intro hf
        simpa [shrinkHeader] using hres hf
    · rw [descsOf_length]
      simp only [shrinkHeader, List.length_append]
      have hbl : blocks.length = bs1.length + 1 + bs2.length := by
        rw [hsplit]; simp; omega
      omega
    · rw [sumSizes_descsOf]
      simp only [shrinkHeader, List.flatten_append, List.length_append]
      omega
  | addRpath path =>
    unfold applyEditOp at hout
    rw [hparse] at hout
    simp only [Option.bind_eq_bind, Option.some_bind] at hout
    cases hbld : buildRpathCommand path ctx with
    | none => rw [hbld] at hout; simp at hout
    | some newCmd =>
    rw [hbld] at hout
    simp only [Option.some_bind] at hout
    obtain ⟨hbldlen, hbok, _, _, _⟩ := buildRpathCommand_spec path ctx
      newCmd hbld (by simp only [opGrow] at hs1; omega)
    have hgrow : newCmd.length = opGrow ctx (.addRpath path) := by
      rw [hbldlen]; rfl
    rw [hdec] at hout
    rw [insert_at_end ctx h pre tail blocks newCmd hpre hflat
      (by omega) hn1 (by rw [htail]; omega)] at hout
    simp only [Option.map_some', Option.some.injEq] at hout
    subst hout
    refine ⟨?_, growHeader h newCmd.length,
      descsOf (machHeaderSize ctx) (blocks ++ [newCmd]), ?_, ?_, ?_⟩
    · simp only [List.length_append, headerBytes_length, List.length_drop]
      omega
    · refine parseImage_decomposed ctx _ (blocks ++ [newCmd])
        (tail.drop newCmd.length) _
        (by simp [List.flatten_append, List.flatten_cons, List.append_assoc])
        ?_ ?_ ?_ ?_ ?_ ?_ ?_ ?_ ?_ ?_ ?_
      · intro x hx
        rcases List.mem_append.mp hx with hx | hx
        · exact hok x hx
        · rcases List.mem_cons.mp hx with hx | hx
          · rw [hx]; exact hbok
          · simp at hx
      · simp only [growHeader, List.length_append, List.length_cons,
          List.length_nil]
        omega
      · simpa [growHeader] using hmagic
      · simpa [growHeader] using bb1
      · simpa [growHeader] using bb2
      · simpa [growHeader] using bb3
      · simp only [growHeader]
        omega
      · simp only [growHeader]
        omega
      · simpa [growHeader] using bb6
      · simpa [growHeader] using bb7
      · intro hf
        simpa [growHeader] using hres hf
    · rw [descsOf_length]
      simp only [growHeader, List.length_append, List.length_cons,
        List.length_nil]
      omega
    · rw [sumSizes_descsOf]
      simp only [growHeader, List.flatten_append, List.flatten_cons,
        List.flatten_nil, List.length_append, List.append_nil]
      omega

/-- A minimal 64-bit Mach-O header for the C3/C4 images. -/
def c3Header : MachHeader :=
  { magic := 0xFEEDFACF, cputype := 0x0100000C, cpusubtype := 0,
    filetype := 6, ncmds := 1, sizeofcmds := 24, flags := 0, reserved := 0 }

/-- A serialized 24-byte `LC_RPATH` command with path `/old`. -/
def oldRpathBlock : List Nat :=
  u32Bytes lcRpath ++ u32Bytes 24 ++ u32Bytes 12 ++
    [47, 111, 108, 100] ++ [0] ++ List.replicate 7 0

/-- A 56-byte Mach-O image whose command table is followed by no padding
at all: the load commands run right up to the end of the file. -/
def c3Image : List Nat := headerBytes ⟨true⟩ c3Header ++ oldRpathBlock

/-- The same image followed by 64 bytes of section data, so the edits
have slack to drain. -/
def bigImage : List Nat := c3Image ++ List.replicate 64 7

/-- C3 counterexample: on the padding-less image, Add-Runpath succeeds
but the resulting buffer is longer than the input (the drain branch of
`insert_load_command` is skipped when too few bytes follow), refuting
the unconditional size-preservation claim. -/
theorem c3_counterexample :
    (applyEditOp c3Image (.addRpath [47, 120])).isSome = true ∧
    ((applyEditOp c3Image (.addRpath [47, 120])).getD []).length ≠
      c3Image.length := by
  decide

/-- Witness: the amended C3 theorem applied to the padded image and a
concrete Add-Runpath edit. -/
theorem c3_witness :
    ((applyEditOp bigImage (.addRpath [47, 120])).getD []).length =
      bigImage.length :=
  (c3_edit_preserves_layout bigImage
    ((applyEditOp bigImage (.addRpath [47, 120])).getD [])
    (.addRpath [47, 120]) ⟨true⟩ c3Header
    [⟨32, lcRpath, 24⟩] (by decide) (by decide) (by decide) (by decide)
    (by decide) (by decide) (by decide)).1

/-- Helper: the rpath list of a concatenated command table splits. -/
theorem rpathsBlocks_append (xs ys : List (List Nat)) :
    rpathsBlocks (xs ++ ys) = rpathsBlocks xs ++ rpathsBlocks ys := by
  simp [rpathsBlocks, List.filter_append]

/-- Helper: the rpath list of a table headed by an rpath command. -/
theorem rpathsBlocks_cons_pos (b : List Nat) (bs : List (List Nat))
    (h : blockCmd b = lcRpath) :
    rpathsBlocks (b :: bs) = pathOfBlock b :: rpathsBlocks bs := by
  rw [rpathsBlocks, rpathsBlocks, List.filter_cons_of_pos, List.map_cons]
  simp [h]

/-- C4: for a well-formed Mach-O image (parse succeeds, the header
invariant holds, counters do not wrap, slack for one more rpath command
is available after the command table, and every `LC_RPATH` command is at
least twelve bytes so its path is read inside the command), Add-Runpath
with `p` followed by Delete-Runpath with the same `p` preserves the total
file size, keeps `ncmds` at its original value, and restores the original
runpath list up to permutation (hence the original set). The slack
hypothesis is forced by `c4_counterexample`. -/
theorem c4_add_delete_rpath_roundtrip (buf out1 out2 p : List Nat)
    (ctx : MachCtx) (h : MachHeader) (cmds : List LC)
    (hbytes : ∀ x ∈ buf, x < 256)
    (hparse : parseImage buf = some (ctx, h, cmds))
    (hsz : h.sizeofcmds = sumSizes cmds)
    (hn1 : h.ncmds + 1 < 2 ^ 32)
    (hs1 : h.sizeofcmds + opGrow ctx (.addRpath p) < 2 ^ 32)
    (hslack : machHeaderSize ctx + h.sizeofcmds + opGrow ctx (.addRpath p) ≤
      buf.length)
    (hrp : ∀ lc ∈ cmds, lc.cmd = lcRpath → 12 ≤ lc.cmdsize)
    (hadd : applyEditOp buf (.addRpath p) = some out1)
    (hdel : applyEditOp out1 (.deleteRpath p) = some out2) :
    out2.length = buf.length ∧
    (∃ h2 cmds2, parseImage out2 = some (ctx, h2, cmds2) ∧
      h2.ncmds = h.ncmds) ∧
    ∃ l l2, rpathsOf buf = some l ∧ rpathsOf out2 = some l2 ∧ l2.Perm l := by
  obtain ⟨blocks, hdesc, hok, hlen, hdec, hle, hmagic, hres,
    bb1, bb2, bb3, bb4, bb5, bb6, bb7⟩ :=
    parseImage_sound buf ctx h cmds hbytes hparse
  set pre : List Nat := buf.take (machHeaderSize ctx) with hpre_def
  set tail : List Nat := buf.drop (machHeaderSize ctx + blocks.flatten.length)
    with htail_def
  have hpre : pre.length = machHeaderSize ctx := by
    rw [hpre_def, List.length_take]
    omega
  have htail : tail.length =
      buf.length - (machHeaderSize ctx + blocks.flatten.length) := by
    rw [htail_def, List.length_drop]
  have hflat : h.sizeofcmds = blocks.flatten.length := by
    rw [hsz, hdesc, sumSizes_descsOf]
  have hrpb : ∀ b ∈ blocks, blockCmd b = lcRpath → 12 ≤ b.length := by
    intro b hb hcmd
    obtain ⟨off, hmem⟩ := block_mem_descsOf blocks (machHeaderSize ctx) b hb
    exact hrp ⟨off, blockCmd b, b.length⟩ (by rw [hdesc]; exact hmem) hcmd
  -- the add step
  unfold applyEditOp at hadd
  rw [hparse] at hadd
  simp only [Option.bind_eq_bind, Option.some_bind] at hadd
  cases hbld : buildRpathCommand p ctx with
  | none => rw [hbld] at hadd; simp at hadd
  | some newCmd =>
  rw [hbld] at hadd
  simp only [Option.some_bind] at hadd
  obtain ⟨hbldlen, hbok, hbcmd, hb12, hbpath⟩ := buildRpathCommand_spec p ctx
    newCmd hbld (by simp only [opGrow] at hs1; omega)
  have hgrow : newCmd.length = opGrow ctx (.addRpath p) := by
    rw [hbldlen]; rfl
  rw [hdec] at hadd
  rw [insert_at_end ctx h pre tail blocks newCmd hpre hflat
    (by omega) hn1 (by rw [htail]; omega)] at hadd
  simp only [Option.map_some', Option.some.injEq] at hadd
  subst hadd
  set O1 : List Nat := headerBytes ctx (growHeader h newCmd.length) ++
    (blocks.flatten ++ (newCmd ++ List.drop newCmd.length tail)) with hO1
  have hok1 : ∀ x ∈ blocks ++ [newCmd], CmdBlockOk x := by
    intro x hx
    rcases List.mem_append.mp hx with hx | hx
    · exact hok x hx
    · rcases List.mem_cons.mp hx with hx | hx
      · rw [hx]; exact hbok
      · simp at hx
  have hrpb1 : ∀ x ∈ blocks ++ [newCmd], blockCmd x = lcRpath →
      12 ≤ x.length := by
    intro x hx
    rcases List.mem_append.mp hx with hx | hx
    · exact hrpb x hx
    · rcases List.mem_cons.mp hx with hx | hx
      · intro _; rw [hx]; exact hb12
      · simp at hx
  have hparse1 : parseImage O1 =
      some (ctx, growHeader h newCmd.length,
        descsOf (machHeaderSize ctx) (blocks ++ [newCmd])) := by
    refine parseImage_decomposed ctx _ (blocks ++ [newCmd])
      (tail.drop newCmd.length) _
      (by rw [hO1]
          simp [List.flatten_append, List.flatten_cons, List.append_assoc])
      hok1 ?_ ?_ ?_ ?_ ?_ ?_ ?_ ?_ ?_ ?_
    · simp only [growHeader, List.length_append, List.length_cons,
        List.length_nil]
      omega
    · simpa [growHeader] using hmagic
    · simpa [growHeader] using bb1
    · simpa [growHeader] using bb2
    · simpa [growHeader] using bb3
    · simp only [growHeader]
      omega
    · simp only [growHeader]
      omega
    · simpa [growHeader] using bb6
    · simpa [growHeader] using bb7
    · intro hf
      simpa [growHeader] using hres hf
  unfold applyEditOp at hdel
  rw [hparse1] at hdel
  simp only [Option.bind_eq_bind, Option.some_bind] at hdel
  cases hfind : (descsOf (machHeaderSize ctx) (blocks ++ [newCmd])).find?
      (fun lc => lc.cmd == lcRpath && rpathPath O1 lc == some p) with
  | none => rw [hfind] at hdel; simp at hdel
  | some lc =>
  rw [hfind] at hdel
  simp only [Option.some_bind] at hdel
  have hmem := List.mem_of_find?_eq_some hfind
  have hpredt := List.find?_some hfind
  simp only [Bool.and_eq_true, beq_iff_eq] at hpredt
  obtain ⟨hlcmd, hlpath⟩ := hpredt
  obtain ⟨bs1, b, bs2, hsplit1, hoff1, hcsz1, hcmdeq1⟩ :=
    mem_descsOf_split _ _ _ hmem
  have hbcmdb : blockCmd b = lcRpath := by rw [← hcmdeq1]; exact hlcmd
  have hb12b : 12 ≤ b.length := by
    refine hrpb1 b ?_ hbcmdb
    rw [hsplit1]
    exact List.mem_append_right _ (List.mem_cons_self b bs2)
  have hflsplit : blocks.flatten ++ newCmd =
      bs1.flatten ++ (b ++ bs2.flatten) := by
    have h1 : (blocks ++ [newCmd]).flatten = (bs1 ++ b :: bs2).flatten := by
      rw [hsplit1]
    simpa [List.flatten_append, List.flatten_cons, List.append_assoc] using h1
  have hfl1 : blocks.flatten.length + newCmd.length =
      bs1.flatten.length + b.length + bs2.flatten.length := by
    have := congrArg List.length hflsplit
    simp only [List.length_append] at this
    omega
  have hO1shape : O1 = (headerBytes ctx (growHeader h newCmd.length) ++
      bs1.flatten) ++ b ++ (bs2.flatten ++ List.drop newCmd.length tail) := by
    rw [hO1]
    calc headerBytes ctx (growHeader h newCmd.length) ++
        (blocks.flatten ++ (newCmd ++ List.drop newCmd.length tail)) =
        headerBytes ctx (growHeader h newCmd.length) ++
          ((blocks.flatten ++ newCmd) ++ List.drop newCmd.length tail) := by
          simp [List.append_assoc]
      _ = headerBytes ctx (growHeader h newCmd.length) ++
          ((bs1.flatten ++ (b ++ bs2.flatten)) ++
            List.drop newCmd.length tail) := by rw [hflsplit]
      _ = (headerBytes ctx (growHeader h newCmd.length) ++ bs1.flatten) ++
          b ++ (bs2.flatten ++ List.drop newCmd.length tail) := by
          simp [List.append_assoc]
  have hpathb : pathOfBlock b = p := by
    have hloc := rpathPath_local (headerBytes ctx (growHeader h newCmd.length)
      ++ bs1.flatten) b (bs2.flatten ++ List.drop newCmd.length tail)
      lc.cmd hb12b
    rw [show (headerBytes ctx (growHeader h newCmd.length) ++
        bs1.flatten).length = machHeaderSize ctx + bs1.flatten.length from by
      simp [headerBytes_length]] at hloc
    rw [← hoff1, ← hcsz1, ← hO1shape] at hloc
    rw [blockRpath_eq_pathOfBlock b hb12b] at hloc
    have hcomb : some p = some (pathOfBlock b) := hlpath.symm.trans hloc
    exact (Option.some.injEq _ _ ▸ hcomb).symm
  have hO1shape2 : O1 = headerBytes ctx (growHeader h newCmd.length) ++
      (bs1 ++ b :: bs2).flatten ++ List.drop newCmd.length tail := by
    rw [hO1shape]
    simp [List.flatten_append, List.flatten_cons, List.append_assoc]
  have hsum1 : (growHeader h newCmd.length).sizeofcmds =
      bs1.flatten.length + b.length + bs2.flatten.length := by
    simp only [growHeader]
    omega
  rw [hO1shape2, hoff1, hcsz1,
    ← headerBytes_length ctx (growHeader h newCmd.length)] at hdel
  rw [remove_on_split ctx (growHeader h newCmd.length)
    (headerBytes ctx (growHeader h newCmd.length))
    (List.drop newCmd.length tail) bs1 bs2 b (headerBytes_length _ _) hsum1
    (by simp only [growHeader]; omega)
    (by simp only [growHeader]; omega)
    (by simp only [growHeader]; omega)] at hdel
  simp only [Option.map_some', Option.some.injEq] at hdel
  subst hdel
  have hok2 : ∀ x ∈ bs1 ++ bs2, CmdBlockOk x := by
    intro x hx
    rcases List.mem_append.mp hx with hx | hx
    · exact hok1 x (by rw [hsplit1]; exact List.mem_append_left _ hx)
    · exact hok1 x (by rw [hsplit1]; exact
        List.mem_append_right _ (List.mem_cons_of_mem _ hx))
  have hrpb2 : ∀ x ∈ bs1 ++ bs2, blockCmd x = lcRpath → 12 ≤ x.length := by
    intro x hx
    rcases List.mem_append.mp hx with hx | hx
    · exact hrpb1 x (by rw [hsplit1]; exact List.mem_append_left _ hx)
    · exact hrpb1 x (by rw [hsplit1]; exact
        List.mem_append_right _ (List.mem_cons_of_mem _ hx))
  have hbl1 : (blocks ++ [newCmd]).length = bs1.length + 1 + bs2.length := by
    rw [hsplit1]; simp; omega
  have hparse2 : parseImage (headerBytes ctx
      (shrinkHeader (growHeader h newCmd.length) b.length) ++
      (bs1.flatten ++ (bs2.flatten ++ (List.replicate b.length 0 ++
        List.drop newCmd.length tail)))) =
      some (ctx, shrinkHeader (growHeader h newCmd.length) b.length,
        descsOf (machHeaderSize ctx) (bs1 ++ bs2)) := by
    refine parseImage_decomposed ctx _ (bs1 ++ bs2)
      (List.replicate b.length 0 ++ List.drop newCmd.length tail) _
      (by simp [List.flatten_append, List.flatten_cons, List.append_assoc])
      hok2 ?_ ?_ ?_ ?_ ?_ ?_ ?_ ?_ ?_ ?_
    · simp only [shrinkHeader, growHeader, List.length_append,
        List.length_cons, List.length_nil] at hbl1 ⊢
      omega
    · simpa [shrinkHeader, growHeader] using hmagic
    · simpa [shrinkHeader, growHeader] using bb1
    · simpa [shrinkHeader, growHeader] using bb2
    · simpa [shrinkHeader, growHeader] using bb3
    · simp only [shrinkHeader, growHeader]
      omega
    · simp only [shrinkHeader, growHeader]
      omega
    · simpa [shrinkHeader, growHeader] using bb6
    · simpa [shrinkHeader, growHeader] using bb7
    · intro hf
      simpa [shrinkHeader, growHeader] using hres hf
  refine ⟨?_, ⟨shrinkHeader (growHeader h newCmd.length) b.length,
    descsOf (machHeaderSize ctx) (bs1 ++ bs2), hparse2, ?_⟩,
    rpathsBlocks blocks, rpathsBlocks (bs1 ++ bs2), ?_, ?_, ?_⟩
  · simp only [List.length_append, headerBytes_length, List.length_drop,
      List.length_replicate]
    omega
  · simp only [shrinkHeader, growHeader]
    omega
  · unfold rpathsOf
    rw [hparse]
    simp only [Option.bind_eq_bind, Option.some_bind]
    rw [hdesc, ← hpre]
    exact mapM_rpath_descsOf blocks pre tail buf hdec hrpb
  · unfold rpathsOf
    rw [hparse2]
    simp only [Option.bind_eq_bind, Option.some_bind]
    rw [← headerBytes_length ctx
      (shrinkHeader (growHeader h newCmd.length) b.length)]
    exact mapM_rpath_descsOf (bs1 ++ bs2)
      (headerBytes ctx (shrinkHeader (growHeader h newCmd.length) b.length))
      (List.replicate b.length 0 ++ List.drop newCmd.length tail) _
      (by simp [List.flatten_append, List.flatten_cons, List.append_assoc])
      hrpb2
  · have hrbsplit : rpathsBlocks (bs1 ++ b :: bs2) =
        rpathsBlocks bs1 ++ (p :: rpathsBlocks bs2) := by
      rw [rpathsBlocks_append, rpathsBlocks_cons_pos b bs2 hbcmdb, hpathb]
    have hrbadd : rpathsBlocks (blocks ++ [newCmd]) =
        rpathsBlocks blocks ++ [p] := by
      rw [rpathsBlocks_append, rpathsBlocks_cons_pos newCmd [] hbcmd]
      have : pathOfBlock newCmd = p := by
        have := (blockRpath_eq_pathOfBlock newCmd hb12).symm.trans hbpath
        exact (Option.some.injEq _ _ ▸ this)
      rw [this]
      rfl
    have heq : rpathsBlocks blocks ++ [p] =
        rpathsBlocks bs1 ++ (p :: rpathsBlocks bs2) := by
      rw [← hrbadd, ← hrbsplit, hsplit1]
    rw [rpathsBlocks_append]
    have hp1 : (rpathsBlocks bs1 ++ (p :: rpathsBlocks bs2)).Perm
        (p :: (rpathsBlocks bs1 ++ rpathsBlocks bs2)) :=
      List.perm_middle
    have hp2 : (rpathsBlocks blocks ++ [p]).Perm
        (p :: rpathsBlocks blocks) :=
      List.perm_append_singleton _ _
    have hp3 : (p :: rpathsBlocks blocks).Perm
        (p :: (rpathsBlocks bs1 ++ rpathsBlocks bs2)) :=
      (hp2.symm.trans (heq ▸ hp1.symm).symm)
    exact (hp3.cons_inv).symm


/-- C4 counterexample: on the padding-less image, Add-Runpath then
Delete-Runpath of the same path succeeds but the final buffer is larger
than the original (the add grows the file, the delete re-pads), refuting
the unconditional size-restoration claim. -/
theorem c4_counterexample :
    ((applyEditOp c3Image (.addRpath [47, 120])).bind
      (fun o1 => applyEditOp o1 (.deleteRpath [47, 120]))).isSome = true ∧
    (((applyEditOp c3Image (.addRpath [47, 120])).bind
      (fun o1 => applyEditOp o1 (.deleteRpath [47, 120]))).getD []).length ≠
      c3Image.length := by
  decide

/-- Witness: the amended C4 theorem applied to the padded image. -/
theorem c4_witness :
    ((applyEditOp ((applyEditOp bigImage (.addRpath [47, 120])).getD [])
      (.deleteRpath [47, 120])).getD []).length = bigImage.length :=
  (c4_add_delete_rpath_roundtrip bigImage
    ((applyEditOp bigImage (.addRpath [47, 120])).getD [])
    ((applyEditOp ((applyEditOp bigImage (.addRpath [47, 120])).getD [])
      (.deleteRpath [47, 120])).getD [])
    [47, 120] ⟨true⟩ c3Header [⟨32, lcRpath, 24⟩]
    (by decide) (by decide) (by decide) (by decide) (by decide) (by decide)
    (by decide) (by decide) (by decide)).1

end ZigBuild
